import Mathlib

/-!
# IT service desk simulation (`sim.cpp`)

A state-machine embedding of the discrete-event simulation in `sim.cpp`.

* Simulated time and sampled durations are exact rationals; the three special
  values of a C `double` (the two infinities and NaN) are kept apart in `Dbl`
  because `normalDist` divides by its argument.
* The C `int` counters are `Int`, the `long unsigned` capacities are `Nat`.
  The one `int` expression that can leave the 32-bit range for a target that
  is itself an `int`, the product `apprDiagnosticsRequestsCount*2`, is reduced
  to 32 bits (`wrapInt32`).
* Every process is a record `(kind, pc, priority)`; `pc` is the resume point
  inside its `Behavior`, numbered at the suspension points `Enter` and `Wait`.
* Random draws are read from two lists carried in the state: `rng` for the
  simulation library's `Uniform`/`Exponential`, `gen` for the `std::mt19937`
  behind `normalDist`.
* The scheduler, the store and the suspension primitives belong to the
  simulation library, which is not part of the repository sources; they are
  modelled from sections 4.1 to 4.3 of the specification: the calendar is
  ordered by time, then by smaller priority value, then by insertion; a store
  grants a unit when one is free and otherwise puts the caller on its
  wait-line, which is served on every release and on every capacity increase;
  scheduling into the past and a request above the capacity stop the run.
* One turn of the scheduler (`step`) takes the first calendar entry and runs
  its `Behavior` up to the next `Wait`, a blocking `Enter`, or the end.
-/

namespace IMS

/-! ## Values of type `double` -/

/-- A `double`: a finite value (kept exact), an infinity, or NaN. -/
inductive Dbl where
  | fin (q : ℚ)
  | pinf
  | ninf
  | nan
deriving DecidableEq

namespace Dbl

/-- IEEE addition on the special values, exact on finite ones. -/
def add : Dbl → Dbl → Dbl
  | fin a, fin b => fin (a + b)
  | nan, _ => nan
  | _, nan => nan
  | pinf, ninf => nan
  | ninf, pinf => nan
  | pinf, _ => pinf
  | _, pinf => pinf
  | ninf, _ => ninf
  | _, ninf => ninf

/-- Sign of a rational as an infinity; zero times infinity is NaN. -/
def signedInf (q : ℚ) : Dbl :=
  if 0 < q then pinf else if q < 0 then ninf else nan

/-- Negation. -/
def neg : Dbl → Dbl
  | fin a => fin (-a)
  | pinf => ninf
  | ninf => pinf
  | nan => nan

/-- IEEE multiplication on the special values, exact on finite ones. -/
def mul : Dbl → Dbl → Dbl
  | fin a, fin b => fin (a * b)
  | nan, _ => nan
  | _, nan => nan
  | fin a, pinf => signedInf a
  | fin a, ninf => neg (signedInf a)
  | pinf, fin b => signedInf b
  | ninf, fin b => neg (signedInf b)
  | pinf, pinf => pinf
  | ninf, ninf => pinf
  | pinf, ninf => ninf
  | ninf, pinf => ninf

/-- IEEE division on the special values, exact on finite ones; a finite value
divided by zero is an infinity of its sign, and `0 / 0` is NaN. -/
def div : Dbl → Dbl → Dbl
  | fin a, fin b => if b = 0 then signedInf a else fin (a / b)
  | nan, _ => nan
  | _, nan => nan
  | fin _, pinf => fin 0
  | fin _, ninf => fin 0
  | pinf, fin b => if 0 ≤ b then pinf else ninf
  | ninf, fin b => if 0 ≤ b then ninf else pinf
  | pinf, pinf => nan
  | pinf, ninf => nan
  | ninf, pinf => nan
  | ninf, ninf => nan

/-- The comparison `a <= b`; false as soon as one side is NaN. -/
def le : Dbl → Dbl → Bool
  | fin a, fin b => decide (a ≤ b)
  | nan, _ => false
  | _, nan => false
  | ninf, _ => true
  | _, pinf => true
  | pinf, _ => false
  | _, ninf => false

/-- The comparison `a < b`; false as soon as one side is NaN. -/
def lt : Dbl → Dbl → Bool
  | fin a, fin b => decide (a < b)
  | nan, _ => false
  | _, nan => false
  | pinf, _ => false
  | _, ninf => false
  | ninf, _ => true
  | _, pinf => true

end Dbl

/-- The shift length, `SHIFT_TIME 480.0` in the source. -/
def SHIFT_TIME : ℚ := 480

/-- One draw of `std::normal_distribution<>(mean, stddev)`: the standard
normal variate `z` scaled and shifted, `z * stddev + mean`. -/
def normalSample (mean stddev : Dbl) (z : ℚ) : Dbl :=
  Dbl.add (Dbl.mul (Dbl.fin z) stddev) mean

/-- The `do ... while (Time + result <= Time)` loop of `normalDist`, reading
standard normal variates from `gen`. `none` when the variates run out before
the loop exits. -/
def normalDistLoop (mean : Dbl) (Time : ℚ) : List ℚ → Option (Dbl × List ℚ)
  | [] => none
  | z :: rest =>
    let result := normalSample mean (Dbl.div mean (Dbl.fin 4)) z
    if Dbl.le (Dbl.add (Dbl.fin Time) result) (Dbl.fin Time) then
      normalDistLoop mean Time rest
    else some (result, rest)

/-- `double normalDist(double mean)`, called with an `int` argument. -/
def normalDist (arg : Int) (Time : ℚ) (gen : List ℚ) : Option (Dbl × List ℚ) :=
  normalDistLoop (Dbl.div (Dbl.fin SHIFT_TIME) (Dbl.fin arg)) Time gen

/-! ## Processes, stores and the calendar -/

/-- The classes of `sim.cpp` that are scheduled. -/
inductive Kind where
  | RideRequestGenerator
  | DiagnosticsRequestGenerator
  | SWInstallRequestGenerator
  | WorkShift
  | DDRequestTaker
  | NetworkDeployment
  | Ride
  | Diagnostics
  | SWInstall
  | RideRequest
  | DiagnosticsRequest
  | SWInstallRequest
deriving DecidableEq

/-- A scheduled object: its class, the resume point inside `Behavior`, and the
value of its `Priority` attribute. -/
structure Entity where
  kind : Kind
  pc : Nat
  priority : Int
deriving DecidableEq

/-- A calendar entry: activation time and the entity to resume. -/
structure Notice where
  time : ℚ
  ent : Entity
deriving DecidableEq

/-- A `Store`: capacity, units in use, and the line of waiting entities. -/
structure Store where
  capacity : Nat
  used : Nat
  queue : List Entity
deriving DecidableEq

/-- The three stores of the program. -/
inductive Pool where
  | OfficeWorkers
  | Riders
  | Universal
deriving DecidableEq

/-- Fatal conditions that stop a run, and exhaustion of the draw lists. -/
inductive Err where
  | schedulingBeforeTime
  | enterCapError
  | leaveManyError
  | outOfDraws
  | badResumePoint
deriving DecidableEq

/-- The global variables of `sim.cpp`, under their own names: the statistics,
the two flags, the counters and the command-line arguments. -/
structure Globals where
  rideRequestQueueLength : Int
  diagnosticsRequestQueueLength : Int
  swInstallRequestQueueLength : Int
  rideQueueLength : Int
  diagnosticsQueueLength : Int
  swInstallQueueLength : Int
  rideRequestsCount : Int
  diagnosticsRequestsCount : Int
  swInstallRequestsCount : Int
  isOpened : Bool
  takingDDRequests : Bool
  deploymentCount : Int
  rideRequestsMade : Int
  diagnosticsRequestsMade : Int
  swInstallRequestsMade : Int
  apprRideRequestsCount : Int
  apprDiagnosticsRequestsCount : Int
  apprSWInstallRequestsCount : Int
  PRO : Bool
deriving DecidableEq

/-- The whole simulation state: clock, calendar, stores, the global variables,
the unread random draws, and the log of every object created with `new`
during the run. -/
structure State where
  Time : ℚ
  calendar : List Notice
  OfficeWorkers : Store
  Riders : Store
  Universal : Store
  g : Globals
  rng : List ℚ
  gen : List ℚ
  spawned : List Kind
deriving DecidableEq

/-- Read a store. -/
def getStore (p : Pool) (s : State) : Store :=
  match p with
  | Pool.OfficeWorkers => s.OfficeWorkers
  | Pool.Riders => s.Riders
  | Pool.Universal => s.Universal

/-- Write a store. -/
def setStore (p : Pool) (st : Store) (s : State) : State :=
  match p with
  | Pool.OfficeWorkers => { s with OfficeWorkers := st }
  | Pool.Riders => { s with Riders := st }
  | Pool.Universal => { s with Universal := st }

/-- Calendar order of section 4.1: earlier time first, then smaller priority
value. -/
def Notice.before (a b : Notice) : Bool :=
  decide (a.time < b.time) || (decide (a.time = b.time) && decide (a.ent.priority < b.ent.priority))

/-- Insert an entry behind every entry that does not come strictly after it,
so that equal keys keep their insertion order. -/
def insertNotice (n : Notice) : List Notice → List Notice
  | [] => [n]
  | m :: ms => if n.before m then n :: m :: ms else m :: insertNotice n ms

/-- Wait-line order of section 4.2: priority, then arrival. -/
def insertWaiter (e : Entity) : List Entity → List Entity
  | [] => [e]
  | m :: ms => if e.priority < m.priority then e :: m :: ms else m :: insertWaiter e ms

/-- Enqueue an activation at time `t`; scheduling into the past is fatal. -/
def schedule (t : ℚ) (e : Entity) (s : State) : Except Err State :=
  if t < s.Time then Except.error Err.schedulingBeforeTime
  else Except.ok { s with calendar := insertNotice ⟨t, e⟩ s.calendar }

/-- The statement `(new K)->Activate()`: a fresh object of class `K`, with
the default priority 0, activated at the current time. -/
def spawn (k : Kind) (s : State) : State :=
  { s with calendar := insertNotice ⟨s.Time, ⟨k, 0, 0⟩⟩ s.calendar
           spawned := s.spawned ++ [k] }

/-- Grant one unit to each waiter from the head of the line while a unit is
free, and activate the granted entities at time `t`. Returns the remaining
line, the units in use and the calendar. -/
def serveLine (cap : Nat) (t : ℚ) : List Entity → Nat → List Notice → List Entity × Nat × List Notice
  | [], used, cal => ([], used, cal)
  | e :: q, used, cal =>
    if used < cap then serveLine cap t q (used + 1) (insertNotice ⟨t, e⟩ cal)
    else (e :: q, used, cal)

/-- Serve the wait-line of pool `p` after capacity became available. -/
def serveWaiting (p : Pool) (s : State) : State :=
  let st := getStore p s
  let r := serveLine st.capacity s.Time st.queue st.used s.calendar
  { setStore p { st with queue := r.1, used := r.2.1 } s with calendar := r.2.2 }

/-- One more unit of pool `p` in use. -/
def grant (p : Pool) (s : State) : State :=
  setStore p { getStore p s with used := (getStore p s).used + 1 } s

/-- Entity `e` joins the wait-line of pool `p`. -/
def enqueue (p : Pool) (e : Entity) (s : State) : State :=
  setStore p { getStore p s with queue := insertWaiter e (getStore p s).queue } s

/-- One unit of pool `p` given back. -/
def release (p : Pool) (s : State) : State :=
  setStore p { getStore p s with used := (getStore p s).used - 1 } s

/-- Capacity of pool `p` raised by one. -/
def raise (p : Pool) (s : State) : State :=
  setStore p { getStore p s with capacity := (getStore p s).capacity + 1 } s

/-- The call `Enter(p, 1)` by entity `e` (whose `pc` is the resume point behind
the call). Returns whether the unit was granted at once; if not, `e` is on the
wait-line. A request above the capacity is fatal. -/
def Enter (p : Pool) (e : Entity) (s : State) : Except Err (Bool × State) :=
  if (getStore p s).capacity < 1 then Except.error Err.enterCapError
  else if (getStore p s).used + 1 ≤ (getStore p s).capacity then Except.ok (true, grant p s)
  else Except.ok (false, enqueue p e s)

/-- The call `Leave(p, 1)`: give the unit back and serve the wait-line. -/
def Leave (p : Pool) (s : State) : Except Err State :=
  if (getStore p s).used < 1 then Except.error Err.leaveManyError
  else Except.ok (serveWaiting p (release p s))

/-- The call `p.SetCapacity(p.Capacity() + 1)`; the increase serves the
wait-line at once. -/
def SetCapacityInc (p : Pool) (s : State) : State :=
  serveWaiting p (raise p s)

/-- The call `Wait(d)` by entity `e`, which resumes at `e.pc`. -/
def Wait (d : ℚ) (e : Entity) (s : State) : Except Err State :=
  schedule (s.Time + d) e s

/-- The value of a `Uniform(lo, hi)` call for the raw draw `x`: the draw itself
when it lies in `[lo, hi)`, else `lo`. -/
def uniformSample (lo hi x : ℚ) : ℚ := if lo ≤ x ∧ x < hi then x else lo

/-- The value of an `Exponential(mean)` call for the raw draw `x`: the draw
itself when it lies in `[0, ∞)`, else `0`. -/
def exponentialSample (x : ℚ) : ℚ := if 0 ≤ x then x else 0

/-- Library call `Uniform(lo, hi)`: the next draw, taken into `[lo, hi)`. -/
def Uniform (lo hi : ℚ) (s : State) : Except Err (ℚ × State) :=
  match s.rng with
  | [] => Except.error Err.outOfDraws
  | x :: rest => Except.ok (uniformSample lo hi x, { s with rng := rest })

/-- Library call `Exponential(mean)`: the next draw, taken into `[0, ∞)`. -/
def Exponential (s : State) : Except Err (ℚ × State) :=
  match s.rng with
  | [] => Except.error Err.outOfDraws
  | x :: rest => Except.ok (exponentialSample x, { s with rng := rest })

/-- The value of a C `int` expression whose exact value is `x`: reduced into
`[-2^31, 2^31)` modulo `2^32`. -/
def wrapInt32 (x : Int) : Int := (x + 2147483648) % 4294967296 - 2147483648

/-- The statement `Activate(Time + normalDist(arg))` of entity `e`. A finite
activation time is entered in the calendar. An activation time that is not a
finite number cannot be reached by the clock below the run-length ceiling, and
no calendar entry is kept for it. -/
def activateAfterNormalDist (arg : Int) (e : Entity) (s : State) : Except Err State :=
  match normalDist arg s.Time s.gen with
  | none => Except.error Err.outOfDraws
  | some (d, rest) =>
    match Dbl.add (Dbl.fin s.Time) d with
    | Dbl.fin t => schedule t e { s with gen := rest }
    | _ => Except.ok { s with gen := rest }

/-! ## The `Behavior` methods -/

/-- Store used by `Ride` and `NetworkDeployment`:
`if (PRO) Universal else Riders`. -/
def ridePool (s : State) : Pool := if s.g.PRO then Pool.Universal else Pool.Riders

/-- Store used by every other process: `if (PRO) Universal else OfficeWorkers`. -/
def officePool (s : State) : Pool := if s.g.PRO then Pool.Universal else Pool.OfficeWorkers

/-- `NetworkDeployment::Behavior` behind its `Enter`: the first hold. -/
def NetworkDeployment.granted (s : State) : Except Err State :=
  Wait 120 ⟨Kind.NetworkDeployment, 2, 1⟩ s

/-- The duration of the second hold of `NetworkDeployment`,
`SHIFT_TIME + 90.0 - Time`. -/
def NetworkDeployment.secondHold (s : State) : ℚ := SHIFT_TIME + 90 - s.Time

/-- `NetworkDeployment::Behavior`, by resume point. -/
def NetworkDeployment.Behavior (pc : Nat) (s : State) : Except Err State :=
  match pc with
  | 0 => do
    let s1 := { s with g := { s.g with rideQueueLength := s.g.rideQueueLength + 1 } }
    let r ← Enter (ridePool s1) ⟨Kind.NetworkDeployment, 1, 1⟩ s1
    if r.1 then NetworkDeployment.granted r.2 else pure r.2
  | 1 => NetworkDeployment.granted s
  | 2 =>
    let s1 := SetCapacityInc (ridePool s) s
    let s2 := { s1 with g := { s1.g with rideQueueLength := s1.g.rideQueueLength - 1 } }
    Wait (NetworkDeployment.secondHold s2) ⟨Kind.NetworkDeployment, 3, 1⟩ s2
  | 3 => Leave (ridePool s) s
  | _ => Except.error Err.badResumePoint

/-- `Ride::Behavior` behind its `Enter`: the shift gate. -/
def Ride.granted (s : State) : Except Err State :=
  if s.g.isOpened then do
    let r ← Uniform 10 15 s
    Wait r.1 ⟨Kind.Ride, 2, 0⟩ r.2
  else Leave (ridePool s) s

/-- `Ride::Behavior`, by resume point. -/
def Ride.Behavior (pc : Nat) (s : State) : Except Err State :=
  match pc with
  | 0 => do
    let s1 := { s with g := { s.g with rideQueueLength := s.g.rideQueueLength + 1 } }
    let r ← Enter (ridePool s1) ⟨Kind.Ride, 1, 0⟩ s1
    if r.1 then Ride.granted r.2 else pure r.2
  | 1 => Ride.granted s
  | 2 => do
    let r ← Exponential s
    Wait r.1 ⟨Kind.Ride, 3, 0⟩ r.2
  | 3 => do
    let r ← Uniform 10 15 s
    Wait r.1 ⟨Kind.Ride, 4, 0⟩ r.2
  | 4 =>
    Leave (ridePool s) { s with g := { s.g with rideQueueLength := s.g.rideQueueLength - 1 } }
  | _ => Except.error Err.badResumePoint

/-- `Diagnostics::Behavior` behind its `Enter`: the shift gate. -/
def Diagnostics.granted (s : State) : Except Err State :=
  if s.g.isOpened then do
    let r ← Exponential s
    Wait r.1 ⟨Kind.Diagnostics, 2, 0⟩ r.2
  else Leave (officePool s) s

/-- `Diagnostics::Behavior`, by resume point. -/
def Diagnostics.Behavior (pc : Nat) (s : State) : Except Err State :=
  match pc with
  | 0 => do
    let s1 := { s with g := { s.g with diagnosticsQueueLength := s.g.diagnosticsQueueLength + 1 } }
    let r ← Enter (officePool s1) ⟨Kind.Diagnostics, 1, 0⟩ s1
    if r.1 then Diagnostics.granted r.2 else pure r.2
  | 1 => Diagnostics.granted s
  | 2 =>
    Leave (officePool s)
      { s with g := { s.g with diagnosticsQueueLength := s.g.diagnosticsQueueLength - 1 } }
  | _ => Except.error Err.badResumePoint

/-- `SWInstall::Behavior` behind its `Enter`: the shift gate. -/
def SWInstall.granted (s : State) : Except Err State :=
  if s.g.isOpened then do
    let r ← Uniform 10 20 s
    Wait r.1 ⟨Kind.SWInstall, 2, 1⟩ r.2
  else Leave (officePool s) s

/-- `SWInstall::Behavior`, by resume point. -/
def SWInstall.Behavior (pc : Nat) (s : State) : Except Err State :=
  match pc with
  | 0 => do
    let s1 := { s with g := { s.g with swInstallQueueLength := s.g.swInstallQueueLength + 1 } }
    let r ← Enter (officePool s1) ⟨Kind.SWInstall, 1, 1⟩ s1
    if r.1 then SWInstall.granted r.2 else pure r.2
  | 1 => SWInstall.granted s
  | 2 =>
    Leave (officePool s)
      { s with g := { s.g with swInstallQueueLength := s.g.swInstallQueueLength - 1 } }
  | _ => Except.error Err.badResumePoint

/-- The escalation test of `RideRequest::Behavior`,
`Uniform(0.0, 1.0) < 0.1 && deploymentCount < 3 && takingDDRequests`,
for the drawn value `u`. -/
def escalates (u : ℚ) (s : State) : Bool :=
  decide (u < 1 / 10) && decide (s.g.deploymentCount < 3) && s.g.takingDDRequests

/-- `RideRequest::Behavior`, by resume point. -/
def RideRequest.Behavior (pc : Nat) (s : State) : Except Err State :=
  match pc with
  | 0 => do
    let s1 := { s with g :=
      { s.g with rideRequestsCount := s.g.rideRequestsCount + 1,
                 rideRequestQueueLength := s.g.rideRequestQueueLength + 1 } }
    let r ← Enter (officePool s1) ⟨Kind.RideRequest, 1, 2⟩ s1
    if r.1 then Wait 3 ⟨Kind.RideRequest, 2, 2⟩ r.2 else pure r.2
  | 1 => Wait 3 ⟨Kind.RideRequest, 2, 2⟩ s
  | 2 => do
    let s1 ← Leave (officePool s)
      { s with g := { s.g with rideRequestQueueLength := s.g.rideRequestQueueLength - 1 } }
    let r ← Uniform 0 1 s1
    if escalates r.1 r.2 then
      let s2 := spawn Kind.NetworkDeployment r.2
      pure { s2 with g := { s2.g with deploymentCount := s2.g.deploymentCount + 1 } }
    else pure (spawn Kind.Ride r.2)
  | _ => Except.error Err.badResumePoint

/-- `DiagnosticsRequest::Behavior`, by resume point. -/
def DiagnosticsRequest.Behavior (pc : Nat) (s : State) : Except Err State :=
  match pc with
  | 0 => do
    let s1 := { s with g :=
      { s.g with diagnosticsRequestsCount := s.g.diagnosticsRequestsCount + 1,
                 diagnosticsRequestQueueLength := s.g.diagnosticsRequestQueueLength + 1 } }
    let r ← Enter (officePool s1) ⟨Kind.DiagnosticsRequest, 1, 2⟩ s1
    if r.1 then Wait 5 ⟨Kind.DiagnosticsRequest, 2, 2⟩ r.2 else pure r.2
  | 1 => Wait 5 ⟨Kind.DiagnosticsRequest, 2, 2⟩ s
  | 2 => do
    let s1 ← Leave (officePool s) s
    let s2 := { s1 with g :=
      { s1.g with diagnosticsRequestQueueLength := s1.g.diagnosticsRequestQueueLength - 1 } }
    pure (spawn Kind.Diagnostics s2)
  | _ => Except.error Err.badResumePoint

/-- `SWInstallRequest::Behavior`, by resume point. -/
def SWInstallRequest.Behavior (pc : Nat) (s : State) : Except Err State :=
  match pc with
  | 0 => do
    let s1 := { s with g :=
      { s.g with swInstallRequestsCount := s.g.swInstallRequestsCount + 1,
                 swInstallRequestQueueLength := s.g.swInstallRequestQueueLength + 1 } }
    let r ← Enter (officePool s1) ⟨Kind.SWInstallRequest, 1, 2⟩ s1
    if r.1 then Wait 3 ⟨Kind.SWInstallRequest, 2, 2⟩ r.2 else pure r.2
  | 1 => Wait 3 ⟨Kind.SWInstallRequest, 2, 2⟩ s
  | 2 => do
    let s1 ← Leave (officePool s)
      { s with g :=
        { s.g with swInstallRequestQueueLength := s.g.swInstallRequestQueueLength - 1 } }
    pure (spawn Kind.SWInstall s1)
  | _ => Except.error Err.badResumePoint

/-- Gate of `RideRequestGenerator`. -/
def rideGate (s : State) : Bool :=
  s.g.isOpened && decide (s.g.rideRequestsMade < s.g.apprRideRequestsCount)

/-- Gate of `DiagnosticsRequestGenerator`. -/
def diagnosticsGate (s : State) : Bool :=
  s.g.isOpened && s.g.takingDDRequests &&
    decide (s.g.diagnosticsRequestsMade < s.g.apprDiagnosticsRequestsCount)

/-- Gate of `SWInstallRequestGenerator`. -/
def swInstallGate (s : State) : Bool :=
  s.g.isOpened && decide (s.g.swInstallRequestsMade < s.g.apprSWInstallRequestsCount)

/-- `RideRequestGenerator::Behavior`. -/
def RideRequestGenerator.Behavior (s : State) : Except Err State :=
  if rideGate s then
    let s1 := spawn Kind.RideRequest s
    let s2 := { s1 with g := { s1.g with rideRequestsMade := s1.g.rideRequestsMade + 1 } }
    activateAfterNormalDist s2.g.apprRideRequestsCount ⟨Kind.RideRequestGenerator, 0, 0⟩ s2
  else pure s

/-- `DiagnosticsRequestGenerator::Behavior`; the argument of `normalDist` is the
`int` product `apprDiagnosticsRequestsCount*2`. -/
def DiagnosticsRequestGenerator.Behavior (s : State) : Except Err State :=
  if diagnosticsGate s then
    let s1 := spawn Kind.DiagnosticsRequest s
    let s2 := { s1 with g := { s1.g with diagnosticsRequestsMade := s1.g.diagnosticsRequestsMade + 1 } }
    activateAfterNormalDist (wrapInt32 (s2.g.apprDiagnosticsRequestsCount * 2))
      ⟨Kind.DiagnosticsRequestGenerator, 0, 0⟩ s2
  else pure s

/-- `SWInstallRequestGenerator::Behavior`. -/
def SWInstallRequestGenerator.Behavior (s : State) : Except Err State :=
  if swInstallGate s then
    let s1 := spawn Kind.SWInstallRequest s
    let s2 := { s1 with g := { s1.g with swInstallRequestsMade := s1.g.swInstallRequestsMade + 1 } }
    activateAfterNormalDist s2.g.apprSWInstallRequestsCount ⟨Kind.SWInstallRequestGenerator, 0, 0⟩ s2
  else pure s

/-- Run the entity's `Behavior` from its resume point up to the next
suspension point or to its end. -/
def exec (e : Entity) (s : State) : Except Err State :=
  match e.kind with
  | Kind.RideRequestGenerator => RideRequestGenerator.Behavior s
  | Kind.DiagnosticsRequestGenerator => DiagnosticsRequestGenerator.Behavior s
  | Kind.SWInstallRequestGenerator => SWInstallRequestGenerator.Behavior s
  | Kind.WorkShift => pure { s with g := { s.g with isOpened := false } }
  | Kind.DDRequestTaker => pure { s with g := { s.g with takingDDRequests := false } }
  | Kind.NetworkDeployment => NetworkDeployment.Behavior e.pc s
  | Kind.Ride => Ride.Behavior e.pc s
  | Kind.Diagnostics => Diagnostics.Behavior e.pc s
  | Kind.SWInstall => SWInstall.Behavior e.pc s
  | Kind.RideRequest => RideRequest.Behavior e.pc s
  | Kind.DiagnosticsRequest => DiagnosticsRequest.Behavior e.pc s
  | Kind.SWInstallRequest => SWInstallRequest.Behavior e.pc s

/-! ## The run -/

/-- The run-length ceiling of `Init(0, 1000)`. -/
def EndTime : ℚ := 1000

/-- Nothing left to execute: the calendar is empty or its first entry lies
beyond the ceiling. -/
def finished (s : State) : Bool :=
  match s.calendar with
  | [] => true
  | n :: _ => decide (EndTime < n.time)

/-- One turn of the scheduler: take the first calendar entry, advance the
clock to its time and execute it. -/
def step (s : State) : Except Err State :=
  match s.calendar with
  | [] => pure s
  | n :: rest => exec n.ent { s with Time := n.time, calendar := rest }

/-- The library call `Run()`, for at most `fuel` turns. -/
def Run : Nat → State → Except Err State
  | 0, s => pure s
  | fuel + 1, s => if finished s then pure s else step s >>= Run fuel

/-- The state after `Init(0, 1000)` with the command-line arguments stored. -/
def initial (ride diag sw : Int) (OW RW : Nat) (PRO : Bool) (gen rng : List ℚ) : State :=
  { Time := 0, calendar := []
    OfficeWorkers := ⟨OW, 0, []⟩, Riders := ⟨RW, 0, []⟩, Universal := ⟨5, 0, []⟩
    g :=
      { rideRequestQueueLength := 0, diagnosticsRequestQueueLength := 0
        swInstallRequestQueueLength := 0, rideQueueLength := 0, diagnosticsQueueLength := 0
        swInstallQueueLength := 0, rideRequestsCount := 0, diagnosticsRequestsCount := 0
        swInstallRequestsCount := 0, isOpened := true, takingDDRequests := true
        deploymentCount := 0, rideRequestsMade := 0, diagnosticsRequestsMade := 0
        swInstallRequestsMade := 0, apprRideRequestsCount := ride
        apprDiagnosticsRequestsCount := diag, apprSWInstallRequestsCount := sw
        PRO := PRO }
    rng := rng, gen := gen, spawned := [] }

/-- The part of `main` before `Run()`: the three generators, the work shift and
the request taker are activated. The diagnostics generator is activated after
`normalDist(apprDiagnosticsRequestsCount*2)`, an `int` product. -/
def setup (ride diag sw : Int) (OW RW : Nat) (PRO : Bool) (gen rng : List ℚ) :
    Except Err State := do
  let s0 := initial ride diag sw OW RW PRO gen rng
  let s1 ← activateAfterNormalDist s0.g.apprRideRequestsCount ⟨Kind.RideRequestGenerator, 0, 0⟩ s0
  let s2 ← activateAfterNormalDist (wrapInt32 (s1.g.apprDiagnosticsRequestsCount * 2))
    ⟨Kind.DiagnosticsRequestGenerator, 0, 0⟩ s1
  let s3 ← activateAfterNormalDist s2.g.apprSWInstallRequestsCount
    ⟨Kind.SWInstallRequestGenerator, 0, 0⟩ s2
  let s4 ← schedule SHIFT_TIME ⟨Kind.WorkShift, 0, 0⟩ s3
  schedule (SHIFT_TIME / 2) ⟨Kind.DDRequestTaker, 0, 0⟩ s4

/-- The simulation of `main`: set-up followed by `Run()` with `fuel` turns. -/
def simulate (fuel : Nat) (ride diag sw : Int) (OW RW : Nat) (PRO : Bool) (gen rng : List ℚ) :
    Except Err State :=
  setup ride diag sw OW RW PRO gen rng >>= Run fuel

/-- The total printed behind `TOTAL:`. -/
def total (s : State) : Int :=
  s.g.rideRequestsCount + s.g.diagnosticsRequestsCount + s.g.swInstallRequestsCount

/-- The sum of the three service queue lengths subtracted in the success rate. -/
def stillQueued (s : State) : Int :=
  s.g.rideQueueLength + s.g.diagnosticsQueueLength + s.g.swInstallQueueLength

/-- The divisor of the success-rate expression of `main`, `(float)(total)`. -/
def successDivisor (s : State) : Dbl := Dbl.fin (total s)

/-- The success rate printed by `main`:
`((float)(total - stillQueued) / (float)(total)) * 100`. -/
def successRate (s : State) : Dbl :=
  Dbl.mul (Dbl.div (Dbl.fin (total s - stillQueued s)) (successDivisor s)) (Dbl.fin 100)

/-! ## Reachable states and the quantities the invariants speak about -/

/-- The states of a run: the state `main` hands to `Run()`, and every state
the scheduler produces from one of them by a turn. -/
inductive Reachable : State → Prop where
  | start (ride diag sw : Int) (OW RW : Nat) (PRO : Bool) (gen rng : List ℚ) (s : State) :
      setup ride diag sw OW RW PRO gen rng = Except.ok s → Reachable s
  | turn (s s' : State) : Reachable s → finished s = false → step s = Except.ok s' → Reachable s'

/-- Every entity that is scheduled or waiting for a store. -/
def live (s : State) : List Entity :=
  s.calendar.map Notice.ent ++ (s.OfficeWorkers.queue ++ (s.Riders.queue ++ s.Universal.queue))

/-- Number of live entities with property `P`. -/
def cnt (P : Entity → Bool) (s : State) : Nat := (live s).countP P

/-- The position of an entity with respect to the counters: a request that is
created but has not run (`New`), one between the `++` and the `--` of its
queue-length counter (`In`), or a generator. -/
inductive Cls where
  | rideRequestNew
  | rideRequestIn
  | rideNew
  | rideIn
  | diagnosticsRequestNew
  | diagnosticsRequestIn
  | diagnosticsNew
  | diagnosticsIn
  | swInstallRequestNew
  | swInstallRequestIn
  | swInstallNew
  | swInstallIn
  | rideGenerator
  | diagnosticsGenerator
  | swInstallGenerator
  | other
deriving DecidableEq

/-- Position of an intake task by resume point. -/
def intakeCls (new inside : Cls) (pc : Nat) : Cls :=
  if pc = 0 then new else if pc = 1 ∨ pc = 2 then inside else Cls.other

/-- The class of an entity, from its kind and resume point. `Ride` counts in
`rideQueueLength` from resume point 1 to 4, `NetworkDeployment` at 1 and 2. -/
def cls (e : Entity) : Cls :=
  match e.kind with
  | Kind.RideRequestGenerator => Cls.rideGenerator
  | Kind.DiagnosticsRequestGenerator => Cls.diagnosticsGenerator
  | Kind.SWInstallRequestGenerator => Cls.swInstallGenerator
  | Kind.WorkShift => Cls.other
  | Kind.DDRequestTaker => Cls.other
  | Kind.NetworkDeployment => intakeCls Cls.rideNew Cls.rideIn e.pc
  | Kind.Ride =>
    if e.pc = 0 then Cls.rideNew else if e.pc ≤ 4 then Cls.rideIn else Cls.other
  | Kind.Diagnostics => intakeCls Cls.diagnosticsNew Cls.diagnosticsIn e.pc
  | Kind.SWInstall => intakeCls Cls.swInstallNew Cls.swInstallIn e.pc
  | Kind.RideRequest => intakeCls Cls.rideRequestNew Cls.rideRequestIn e.pc
  | Kind.DiagnosticsRequest =>
    intakeCls Cls.diagnosticsRequestNew Cls.diagnosticsRequestIn e.pc
  | Kind.SWInstallRequest => intakeCls Cls.swInstallRequestNew Cls.swInstallRequestIn e.pc

/-- Membership in a class, as a test. -/
def hasCls (c : Cls) (e : Entity) : Bool := decide (cls e = c)

/-- Number of entities of class `c` that are live, or running (`x`). -/
def cntC (c : Cls) (x : List Entity) (s : State) : Nat :=
  cnt (hasCls c) s + x.countP (hasCls c)

/-- Classes whose members may end without a counter being changed. -/
def droppable (c : Cls) : Bool :=
  match c with
  | Cls.other | Cls.rideGenerator | Cls.diagnosticsGenerator | Cls.swInstallGenerator
  | Cls.rideIn | Cls.diagnosticsIn | Cls.swInstallIn => true
  | _ => false

/-- A store is in order: the units in use do not exceed the capacity, nobody
waits while a unit is free, and every waiter is to resume at point 1, behind
its `Enter`. -/
def LineOk (st : Store) : Prop :=
  st.used ≤ st.capacity ∧ (st.queue ≠ [] → st.capacity ≤ st.used) ∧
    ∀ e ∈ st.queue, e.pc = 1

/-- Pool invariant: every store is in order. -/
def PoolInv (s : State) : Prop :=
  ∀ p : Pool, LineOk (getStore p s)

/-- The counters of one request category against the live entities of that
category. -/
def FamilyInv (made appr count intakeQ serviceQ : Int) (n0 nIn s0 sC : Nat) : Prop :=
  0 ≤ made ∧ (made ≤ appr ∨ appr < 0 ∧ made = 0) ∧ count + n0 = made ∧ intakeQ = nIn ∧
    (sC : Int) ≤ serviceQ ∧ serviceQ + nIn + s0 ≤ count

/-- Quantities fixed for a run: the three target counts, and for each
generator, once it has been activated with its gate closed, the value of its
requests-made counter at that moment. -/
structure Ghost where
  ride : Int
  diag : Int
  sw : Int
  frozenRide : Option Int
  frozenDiag : Option Int
  frozenSw : Option Int

/-- The fixed quantities at the start of a run. -/
def Ghost.start (ride diag sw : Int) : Ghost := ⟨ride, diag, sw, none, none, none⟩

/-- The part of the invariant that speaks about the globals and the creation
log only: the escalation counter against the log; the targets are the ones of
`c`; every intake task in the log was counted in its requests-made counter;
and a generator found with its gate closed keeps its counter and its gate
closed. -/
def DepInv (c : Ghost) (s : State) : Prop :=
  (s.g.deploymentCount = (s.spawned.count Kind.NetworkDeployment : Nat) ∧
    s.g.deploymentCount ≤ 3) ∧
  (s.g.apprRideRequestsCount = c.ride ∧ s.g.apprDiagnosticsRequestsCount = c.diag ∧
    s.g.apprSWInstallRequestsCount = c.sw) ∧
  (s.g.rideRequestsMade = (s.spawned.count Kind.RideRequest : Nat) ∧
    s.g.diagnosticsRequestsMade = (s.spawned.count Kind.DiagnosticsRequest : Nat) ∧
    s.g.swInstallRequestsMade = (s.spawned.count Kind.SWInstallRequest : Nat)) ∧
  (∀ k, c.frozenRide = some k → s.g.rideRequestsMade = k ∧
    (s.g.isOpened = false ∨ s.g.apprRideRequestsCount ≤ s.g.rideRequestsMade)) ∧
  (∀ k, c.frozenDiag = some k → s.g.diagnosticsRequestsMade = k ∧
    (s.g.isOpened = false ∨ s.g.takingDDRequests = false ∨
      s.g.apprDiagnosticsRequestsCount ≤ s.g.diagnosticsRequestsMade)) ∧
  (∀ k, c.frozenSw = some k → s.g.swInstallRequestsMade = k ∧
    (s.g.isOpened = false ∨ s.g.apprSWInstallRequestsCount ≤ s.g.swInstallRequestsMade))

/-- The ride counters against the live entities. -/
def RideInv (x : List Entity) (s : State) : Prop :=
  FamilyInv s.g.rideRequestsMade s.g.apprRideRequestsCount s.g.rideRequestsCount
    s.g.rideRequestQueueLength s.g.rideQueueLength
    (cntC Cls.rideRequestNew x s) (cntC Cls.rideRequestIn x s)
    (cntC Cls.rideNew x s) (cntC Cls.rideIn x s)

/-- The diagnostics counters against the live entities. -/
def DiagnosticsInv (x : List Entity) (s : State) : Prop :=
  FamilyInv s.g.diagnosticsRequestsMade s.g.apprDiagnosticsRequestsCount
    s.g.diagnosticsRequestsCount s.g.diagnosticsRequestQueueLength s.g.diagnosticsQueueLength
    (cntC Cls.diagnosticsRequestNew x s) (cntC Cls.diagnosticsRequestIn x s)
    (cntC Cls.diagnosticsNew x s) (cntC Cls.diagnosticsIn x s)

/-- The software-install counters against the live entities. -/
def SWInstallInv (x : List Entity) (s : State) : Prop :=
  FamilyInv s.g.swInstallRequestsMade s.g.apprSWInstallRequestsCount s.g.swInstallRequestsCount
    s.g.swInstallRequestQueueLength s.g.swInstallQueueLength
    (cntC Cls.swInstallRequestNew x s) (cntC Cls.swInstallRequestIn x s)
    (cntC Cls.swInstallNew x s) (cntC Cls.swInstallIn x s)

/-- Each generator exists at most once. -/
def GenInv (x : List Entity) (s : State) : Prop :=
  cntC Cls.rideGenerator x s ≤ 1 ∧ cntC Cls.diagnosticsGenerator x s ≤ 1 ∧
    cntC Cls.swInstallGenerator x s ≤ 1

/-- The invariant of the run, with `x` the entities taken off the calendar
for execution and `c` the quantities fixed for the run. -/
def InvX (c : Ghost) (x : List Entity) (s : State) : Prop :=
  PoolInv s ∧ DepInv c s ∧ RideInv x s ∧ DiagnosticsInv x s ∧ SWInstallInv x s ∧ GenInv x s

/-- The invariant of the run between two turns of the scheduler. -/
def Inv (c : Ghost) (s : State) : Prop := InvX c [] s

/-- Equality of the outcomes of a run is decidable. -/
instance instDecidableEqOutcome : DecidableEq (Except Err State) := fun a b =>
  match a, b with
  | Except.ok x, Except.ok y =>
    if h : x = y then isTrue (by rw [h]) else isFalse (fun h' => h (Except.ok.inj h'))
  | Except.error x, Except.error y =>
    if h : x = y then isTrue (by rw [h]) else isFalse (fun h' => h (Except.error.inj h'))
  | Except.ok _, Except.error _ => isFalse (fun h' => Except.noConfusion h')
  | Except.error _, Except.ok _ => isFalse (fun h' => Except.noConfusion h')

/-- The state in which a run of at most `fuel` turns ends; the state after
`Init` if the run stops on a fatal condition. -/
def stateAfter (fuel : Nat) (ride diag sw : Int) (OW RW : Nat) (PRO : Bool)
    (gen rng : List ℚ) : State :=
  match simulate fuel ride diag sw OW RW PRO gen rng with
  | Except.ok s => s
  | Except.error _ => initial ride diag sw OW RW PRO gen rng

/-- The success rate as an exact fraction, `(accepted - still queued) / accepted`. -/
def successFraction (s : State) : ℚ :=
  ((total s - stillQueued s : Int) : ℚ) / ((total s : Int) : ℚ)

/-- A short run used as a concrete instance: targets 2, 1 and 1, three office
workers and one rider, separate pools. The first ride request becomes a `Ride`
with a long repair, the second is escalated to a `NetworkDeployment`. -/
def escalationRun (fuel : Nat) : Except Err State :=
  simulate fuel 2 1 1 3 1 false [-3, 1, 1, -3, -3] [1 / 2, 10, 500, 1 / 20, 10]

/-- The state of `escalationRun` after ten turns. -/
def escalationState : State :=
  stateAfter 10 2 1 1 3 1 false [-3, 1, 1, -3, -3] [1 / 2, 10, 500, 1 / 20, 10]

/-- The three request categories. -/
inductive Category where
  | ride
  | diagnostics
  | swInstall
deriving DecidableEq

/-- The generator class of a category. -/
def Category.generator : Category → Kind
  | Category.ride => Kind.RideRequestGenerator
  | Category.diagnostics => Kind.DiagnosticsRequestGenerator
  | Category.swInstall => Kind.SWInstallRequestGenerator

/-- The intake class of a category. -/
def Category.intake : Category → Kind
  | Category.ride => Kind.RideRequest
  | Category.diagnostics => Kind.DiagnosticsRequest
  | Category.swInstall => Kind.SWInstallRequest

/-- The gate of the generator of a category. -/
def Category.gate : Category → State → Bool
  | Category.ride => rideGate
  | Category.diagnostics => diagnosticsGate
  | Category.swInstall => swInstallGate

/-- The requests-made counter of a category. -/
def Category.made : Category → State → Int
  | Category.ride => fun s => s.g.rideRequestsMade
  | Category.diagnostics => fun s => s.g.diagnosticsRequestsMade
  | Category.swInstall => fun s => s.g.swInstallRequestsMade

/-- The argument the generator of a category passes to `normalDist`: the
target count, and for diagnostics the C `int` product
`apprDiagnosticsRequestsCount*2`. -/
def Category.arg : Category → State → Int
  | Category.ride => fun s => s.g.apprRideRequestsCount
  | Category.diagnostics => fun s => wrapInt32 (s.g.apprDiagnosticsRequestsCount * 2)
  | Category.swInstall => fun s => s.g.apprSWInstallRequestsCount

/-- The finite value of one draw inside `normalDist(arg)` for the standard
normal variate `z`: `z * stddev + mean` with `mean = SHIFT_TIME / arg` and
`stddev = mean / 4`. -/
def normalDraw (arg : Int) (z : ℚ) : ℚ := z * (SHIFT_TIME / arg / 4) + SHIFT_TIME / arg

/-- The state in which the scheduler runs the first calendar entry `n`, the
rest of the calendar being `rest`. -/
def taken (s : State) (n : Notice) (rest : List Notice) : State :=
  { s with Time := n.time, calendar := rest }

/-- Record that the generator of category `cat` was found with its gate
closed while its requests-made counter was `k`. -/
def Ghost.freeze (cat : Category) (k : Int) (c : Ghost) : Ghost :=
  match cat with
  | Category.ride => { c with frozenRide := some k }
  | Category.diagnostics => { c with frozenDiag := some k }
  | Category.swInstall => { c with frozenSw := some k }

/-- The state of `escalationRun` when `Run()` starts. -/
def escalationStart : State :=
  stateAfter 0 2 1 1 3 1 false [-3, 1, 1, -3, -3] [1 / 2, 10, 500, 1 / 20, 10]

/-- The three service tasks behind the shift gate. -/
inductive Service where
  | ride
  | diagnostics
  | swInstall
deriving DecidableEq

/-- The class of a service task. -/
def Service.kind : Service → Kind
  | Service.ride => Kind.Ride
  | Service.diagnostics => Kind.Diagnostics
  | Service.swInstall => Kind.SWInstall

/-- The `Priority` a service task gives itself. -/
def Service.priority : Service → Int
  | Service.ride => 0
  | Service.diagnostics => 0
  | Service.swInstall => 1

/-- The store a service task enters and leaves. -/
def Service.pool (v : Service) (s : State) : Pool :=
  match v with
  | Service.ride => ridePool s
  | Service.diagnostics => officePool s
  | Service.swInstall => officePool s

/-- The queue-length counter of a service task. -/
def Service.queueLength (v : Service) (s : State) : Int :=
  match v with
  | Service.ride => s.g.rideQueueLength
  | Service.diagnostics => s.g.diagnosticsQueueLength
  | Service.swInstall => s.g.swInstallQueueLength

/-- The state with the queue-length counter of a service task changed by `d`. -/
def Service.addQueueLength (v : Service) (d : Int) (s : State) : State :=
  match v with
  | Service.ride => { s with g := { s.g with rideQueueLength := s.g.rideQueueLength + d } }
  | Service.diagnostics =>
    { s with g := { s.g with diagnosticsQueueLength := s.g.diagnosticsQueueLength + d } }
  | Service.swInstall =>
    { s with g := { s.g with swInstallQueueLength := s.g.swInstallQueueLength + d } }

/-- The last resume point of a service task, behind its last hold. -/
def Service.last : Service → Nat
  | Service.ride => 4
  | Service.diagnostics => 2
  | Service.swInstall => 2

/-- The duration of the hold a service task starts at resume point `pc`, for
the raw draw `y`. The first hold is the one behind `Enter`, resume point 1:
`Ride` holds for `Uniform(10, 15)`, then at resume point 2 for
`Exponential(40)` and at 3 for `Uniform(10, 15)`; `Diagnostics` holds for
`Exponential(150)` and `SWInstall` for `Uniform(10, 20)`. -/
def Service.hold (v : Service) (pc : Nat) (y : ℚ) : ℚ :=
  match v with
  | Service.ride => if pc = 2 then exponentialSample y else uniformSample 10 15 y
  | Service.diagnostics => exponentialSample y
  | Service.swInstall => uniformSample 10 20 y

/-- The calendar after the entities `es` were activated at time `t`, one after
the other. -/
def activateAll (t : ℚ) (es : List Entity) (cal : List Notice) : List Notice :=
  es.foldl (fun cal e => insertNotice ⟨t, e⟩ cal) cal

/-- The number of waiters of the line `q` that are served when `used` of `cap`
units are in use: one for each free unit, as far as the line reaches. -/
def servable (cap used : Nat) (q : List Entity) : Nat := min q.length (cap - used)

/-- A state of a run in which a `Ride` receives its unit after the desk has
closed: with one rider, the first `Ride` has a long repair and leaves at 583;
the second `Ride` waited in the line of `Riders` and is granted the unit then. -/
def lateGrantState : State :=
  stateAfter 15 2 1 1 3 1 false [-3, 1, 1, -3, -3] [1 / 2, 10, 500, 1 / 2, 10]

/-- The state of the same run after eight turns: the second `Ride` is about to
start at 123 while the first one holds the only rider. -/
def fullStoreState : State :=
  stateAfter 8 2 1 1 3 1 false [-3, 1, 1, -3, -3] [1 / 2, 10, 500, 1 / 2, 10]

/-- The state of `escalationRun` after seventeen turns: the
`NetworkDeployment` is about to resume behind its first hold. -/
def lateDeploymentState : State :=
  stateAfter 17 2 1 1 3 1 false [-3, 1, 1, -3, -3] [1 / 2, 10, 500, 1 / 20, 10]

/-- The end of a run of scenario 1 (targets 20, 10 and 15, three office
workers, two riders, separate pools) in which every inter-arrival variate is
`3/2`: ride requests arrive every 33 minutes, diagnostics requests every 33
minutes, install requests every 44 minutes. -/
def shortfallState : State :=
  stateAfter 400 20 10 15 3 2 false (List.replicate 34 (3 / 2)) (List.replicate 80 (1 / 2))

/-- The end of a run of scenario 2: universal mode, all three targets 0. -/
def zeroTargetsState : State := stateAfter 2 0 0 0 3 2 true [1, 1, 1] []

/-- The state `main` hands to `Run()` in scenario 2, `rest` being the variates
left: no generator is in the calendar. -/
def zeroTargetsStart (OW RW : Nat) (rest rng : List ℚ) : State :=
  { initial 0 0 0 OW RW true rest rng with
    calendar := [⟨240, ⟨Kind.DDRequestTaker, 0, 0⟩⟩, ⟨480, ⟨Kind.WorkShift, 0, 0⟩⟩] }

/-- The state in which scenario 2 ends: the request taker and the work shift
have run, the calendar is empty. -/
def zeroTargetsEnd (OW RW : Nat) (rest rng : List ℚ) : State :=
  { initial 0 0 0 OW RW true rest rng with
    Time := 480
    g := { (initial 0 0 0 OW RW true rest rng).g with
      isOpened := false, takingDDRequests := false } }

/-! ## Lists: insertion keeps the entities -/

theorem countP_insertNotice (P : Entity → Bool) (n : Notice) (l : List Notice) :
    ((insertNotice n l).map Notice.ent).countP P =
      (l.map Notice.ent).countP P + (if P n.ent then 1 else 0) := by
  induction l with
  | nil => simp [insertNotice, List.countP_cons]
  | cons m ms ih =>
    simp only [insertNotice]
    split
    · simp only [List.map_cons, List.countP_cons]
    · simp only [List.map_cons, List.countP_cons, ih]; omega

theorem countP_insertWaiter (P : Entity → Bool) (e : Entity) (l : List Entity) :
    (insertWaiter e l).countP P = l.countP P + (if P e then 1 else 0) := by
  induction l with
  | nil => simp [insertWaiter, List.countP_cons]
  | cons m ms ih =>
    simp only [insertWaiter]
    split
    · simp only [List.countP_cons]
    · simp only [List.countP_cons, ih]; omega

theorem serveLine_countP (P : Entity → Bool) (cap : Nat) (t : ℚ) :
    ∀ (q : List Entity) (u : Nat) (cal : List Notice),
      ((serveLine cap t q u cal).2.2.map Notice.ent).countP P + (serveLine cap t q u cal).1.countP P =
        (cal.map Notice.ent).countP P + q.countP P := by
  intro q
  induction q with
  | nil => intro u cal; simp [serveLine]
  | cons e q ih =>
    intro u cal
    simp only [serveLine]
    split
    · rw [ih, countP_insertNotice, List.countP_cons]; simp only []; omega
    · rfl

theorem serveLine_used (cap : Nat) (t : ℚ) :
    ∀ (q : List Entity) (u : Nat) (cal : List Notice),
      u ≤ cap → (serveLine cap t q u cal).2.1 ≤ cap := by
  intro q
  induction q with
  | nil => intro u cal h; simpa [serveLine] using h
  | cons e q ih =>
    intro u cal h
    simp only [serveLine]
    split
    · exact ih _ _ (by omega)
    · exact h

/-! ## Effect of the state transformers on the observed quantities -/

theorem cnt_def (P : Entity → Bool) (s : State) :
    cnt P s = (s.calendar.map Notice.ent).countP P + (s.OfficeWorkers.queue.countP P +
      (s.Riders.queue.countP P + s.Universal.queue.countP P)) := by
  simp [cnt, live]

theorem cnt_mk (P : Entity → Bool) (t : ℚ) (c : List Notice) (ow r u : Store) (g : Globals)
    (rng gen : List ℚ) (sp : List Kind) :
    cnt P ⟨t, c, ow, r, u, g, rng, gen, sp⟩ = (c.map Notice.ent).countP P +
      (ow.queue.countP P + (r.queue.countP P + u.queue.countP P)) := by
  simp [cnt, live]

theorem grant_g (p : Pool) (s : State) : (grant p s).g = s.g := by cases p <;> rfl
theorem grant_spawned (p : Pool) (s : State) : (grant p s).spawned = s.spawned := by
  cases p <;> rfl
theorem enqueue_g (p : Pool) (e : Entity) (s : State) : (enqueue p e s).g = s.g := by
  cases p <;> rfl
theorem enqueue_spawned (p : Pool) (e : Entity) (s : State) :
    (enqueue p e s).spawned = s.spawned := by cases p <;> rfl
theorem release_g (p : Pool) (s : State) : (release p s).g = s.g := by cases p <;> rfl
theorem release_spawned (p : Pool) (s : State) : (release p s).spawned = s.spawned := by
  cases p <;> rfl
theorem raise_g (p : Pool) (s : State) : (raise p s).g = s.g := by cases p <;> rfl
theorem raise_spawned (p : Pool) (s : State) : (raise p s).spawned = s.spawned := by
  cases p <;> rfl
theorem serveWaiting_g (p : Pool) (s : State) : (serveWaiting p s).g = s.g := by
  cases p <;> rfl
theorem serveWaiting_spawned (p : Pool) (s : State) :
    (serveWaiting p s).spawned = s.spawned := by cases p <;> rfl
theorem spawn_g (k : Kind) (s : State) : (spawn k s).g = s.g := rfl
theorem spawn_spawned (k : Kind) (s : State) : (spawn k s).spawned = s.spawned ++ [k] := rfl

theorem cnt_grant (P : Entity → Bool) (p : Pool) (s : State) : cnt P (grant p s) = cnt P s := by
  cases p <;> rfl

theorem cnt_release (P : Entity → Bool) (p : Pool) (s : State) :
    cnt P (release p s) = cnt P s := by
  cases p <;> rfl

theorem cnt_raise (P : Entity → Bool) (p : Pool) (s : State) : cnt P (raise p s) = cnt P s := by
  cases p <;> rfl

theorem cnt_enqueue (P : Entity → Bool) (p : Pool) (e : Entity) (s : State) :
    cnt P (enqueue p e s) = cnt P s + (if P e then 1 else 0) := by
  cases p <;>
    simp only [cnt_def, enqueue, setStore, getStore, countP_insertWaiter] <;> omega

theorem cnt_serveWaiting (P : Entity → Bool) (p : Pool) (s : State) :
    cnt P (serveWaiting p s) = cnt P s := by
  have h := serveLine_countP P (getStore p s).capacity s.Time (getStore p s).queue
    (getStore p s).used s.calendar
  cases p <;> simp only [cnt_def, serveWaiting, setStore, getStore] at h ⊢ <;> omega

theorem cnt_spawn (P : Entity → Bool) (k : Kind) (s : State) :
    cnt P (spawn k s) = cnt P s + (if P ⟨k, 0, 0⟩ then 1 else 0) := by
  simp only [cnt_def, spawn, countP_insertNotice]; omega

theorem PoolInv_iff (s : State) :
    PoolInv s ↔ LineOk s.OfficeWorkers ∧ LineOk s.Riders ∧ LineOk s.Universal := by
  constructor
  · intro h; exact ⟨h Pool.OfficeWorkers, h Pool.Riders, h Pool.Universal⟩
  · intro h p; cases p
    · exact h.1
    · exact h.2.1
    · exact h.2.2

theorem LineOk_grant (st : Store) (h : LineOk st) (hfree : st.used + 1 ≤ st.capacity) :
    LineOk { st with used := st.used + 1 } := by
  refine ⟨hfree, fun hq => ?_, h.2.2⟩
  have := h.2.1 hq
  omega

theorem mem_insertWaiter (e x : Entity) :
    ∀ (q : List Entity), x ∈ insertWaiter e q → x = e ∨ x ∈ q := by
  intro q
  induction q with
  | nil => intro h; simp [insertWaiter] at h; exact Or.inl h
  | cons m ms ih =>
    intro h
    simp only [insertWaiter] at h
    split at h
    · rcases List.mem_cons.1 h with h | h
      · exact Or.inl h
      · exact Or.inr h
    · rcases List.mem_cons.1 h with h | h
      · exact Or.inr (List.mem_cons.2 (Or.inl h))
      · rcases ih h with h | h
        · exact Or.inl h
        · exact Or.inr (List.mem_cons.2 (Or.inr h))

theorem LineOk_enqueue (st : Store) (e : Entity) (h : LineOk st)
    (hfull : st.capacity ≤ st.used) (hpc : e.pc = 1) :
    LineOk { st with queue := insertWaiter e st.queue } := by
  refine ⟨h.1, fun _ => hfull, fun x hx => ?_⟩
  rcases mem_insertWaiter e x st.queue hx with rfl | hx
  · exact hpc
  · exact h.2.2 x hx

theorem serveLine_mem (cap : Nat) (t : ℚ) (x : Entity) :
    ∀ (q : List Entity) (u : Nat) (cal : List Notice),
      x ∈ (serveLine cap t q u cal).1 → x ∈ q := by
  intro q
  induction q with
  | nil => intro u cal h; simp [serveLine] at h
  | cons e q ih =>
    intro u cal h
    simp only [serveLine] at h
    split at h
    · exact List.mem_cons.2 (Or.inr (ih _ _ h))
    · exact h

theorem serveLine_line (cap : Nat) (t : ℚ) :
    ∀ (q : List Entity) (u : Nat) (cal : List Notice),
      (serveLine cap t q u cal).1 ≠ [] → cap ≤ (serveLine cap t q u cal).2.1 := by
  intro q
  induction q with
  | nil => intro u cal h; simp [serveLine] at h
  | cons e q ih =>
    intro u cal h
    simp only [serveLine] at h ⊢
    split
    · rename_i hlt
      simp only [hlt, if_true] at h
      exact ih _ _ h
    · rename_i hlt
      exact Nat.le_of_not_lt hlt

theorem LineOk_serve (cap u : Nat) (t : ℚ) (q : List Entity) (cal : List Notice)
    (hu : u ≤ cap) (hq : ∀ e ∈ q, e.pc = 1) :
    LineOk ⟨cap, (serveLine cap t q u cal).2.1, (serveLine cap t q u cal).1⟩ :=
  ⟨serveLine_used cap t q u cal hu, serveLine_line cap t q u cal,
    fun x hx => hq x (serveLine_mem cap t x q u cal hx)⟩

theorem PoolInv_grant (p : Pool) (s : State) (h : PoolInv s)
    (hfree : (getStore p s).used + 1 ≤ (getStore p s).capacity) : PoolInv (grant p s) := by
  have hg := LineOk_grant (getStore p s) (h p) hfree
  rw [PoolInv_iff] at h ⊢
  cases p
  · exact ⟨hg, h.2.1, h.2.2⟩
  · exact ⟨h.1, hg, h.2.2⟩
  · exact ⟨h.1, h.2.1, hg⟩

theorem PoolInv_enqueue (p : Pool) (e : Entity) (s : State) (h : PoolInv s)
    (hfull : (getStore p s).capacity ≤ (getStore p s).used) (hpc : e.pc = 1) :
    PoolInv (enqueue p e s) := by
  have hg := LineOk_enqueue (getStore p s) e (h p) hfull hpc
  rw [PoolInv_iff] at h ⊢
  cases p
  · exact ⟨hg, h.2.1, h.2.2⟩
  · exact ⟨h.1, hg, h.2.2⟩
  · exact ⟨h.1, h.2.1, hg⟩

theorem PoolInv_leave (p : Pool) (s : State) (h : PoolInv s) :
    PoolInv (serveWaiting p (release p s)) := by
  have hg := LineOk_serve (getStore p s).capacity ((getStore p s).used - 1) s.Time
    (getStore p s).queue s.calendar (by have := (h p).1; omega) (h p).2.2
  rw [PoolInv_iff] at h ⊢
  cases p
  · exact ⟨hg, h.2.1, h.2.2⟩
  · exact ⟨h.1, hg, h.2.2⟩
  · exact ⟨h.1, h.2.1, hg⟩

theorem PoolInv_setCapacityInc (p : Pool) (s : State) (h : PoolInv s) :
    PoolInv (serveWaiting p (raise p s)) := by
  have hg := LineOk_serve ((getStore p s).capacity + 1) (getStore p s).used s.Time
    (getStore p s).queue s.calendar (by have := (h p).1; omega) (h p).2.2
  rw [PoolInv_iff] at h ⊢
  cases p
  · exact ⟨hg, h.2.1, h.2.2⟩
  · exact ⟨h.1, hg, h.2.2⟩
  · exact ⟨h.1, h.2.1, hg⟩

theorem PoolInv_spawn (k : Kind) (s : State) (h : PoolInv s) : PoolInv (spawn k s) := by
  rw [PoolInv_iff] at h ⊢; exact h

theorem PoolInv_mk (s : State) (t : ℚ) (c : List Notice) (g : Globals) (rng gen : List ℚ)
    (sp : List Kind) (h : PoolInv s) :
    PoolInv ⟨t, c, s.OfficeWorkers, s.Riders, s.Universal, g, rng, gen, sp⟩ := by
  rw [PoolInv_iff] at h ⊢; exact h

/-! ## When the primitives succeed -/

theorem bind_ok {α β : Type} (x : Except Err α) (f : α → Except Err β) (b : β) :
    (x >>= f) = Except.ok b ↔ ∃ a, x = Except.ok a ∧ f a = Except.ok b := by
  cases x with
  | error e => simp [bind, Except.bind]
  | ok a => simp [bind, Except.bind]

theorem pure_ok {α : Type} (a b : α) : (pure a : Except Err α) = Except.ok b ↔ a = b := by
  simp [pure, Except.pure]

theorem schedule_ok (t : ℚ) (e : Entity) (s s' : State) :
    schedule t e s = Except.ok s' ↔
      s.Time ≤ t ∧ s' = { s with calendar := insertNotice ⟨t, e⟩ s.calendar } := by
  unfold schedule
  split
  · rename_i h; simp [not_le.2 h]
  · rename_i h; simp [not_lt.1 h, eq_comm]

theorem Wait_ok (d : ℚ) (e : Entity) (s s' : State) :
    Wait d e s = Except.ok s' ↔
      0 ≤ d ∧ s' = { s with calendar := insertNotice ⟨s.Time + d, e⟩ s.calendar } := by
  unfold Wait
  rw [schedule_ok]
  simp

theorem Enter_ok (p : Pool) (e : Entity) (s : State) (r : Bool × State) :
    Enter p e s = Except.ok r ↔
      (r = (true, grant p s) ∧ (getStore p s).used + 1 ≤ (getStore p s).capacity) ∨
      (r = (false, enqueue p e s) ∧ 1 ≤ (getStore p s).capacity ∧
        (getStore p s).capacity ≤ (getStore p s).used) := by
  unfold Enter
  split
  · rename_i h; simp only [reduceCtorEq, false_iff]; omega
  · split
    · rename_i h1 h2
      simp only [Except.ok.injEq]
      constructor
      · intro h; exact Or.inl ⟨h.symm, h2⟩
      · rintro (⟨h, -⟩ | ⟨-, -, h⟩)
        · exact h.symm
        · omega
    · rename_i h1 h2
      simp only [Except.ok.injEq]
      constructor
      · intro h; exact Or.inr ⟨h.symm, by omega, by omega⟩
      · rintro (⟨-, h⟩ | ⟨h, -, -⟩)
        · omega
        · exact h.symm

theorem Leave_ok (p : Pool) (s s' : State) :
    Leave p s = Except.ok s' ↔
      1 ≤ (getStore p s).used ∧ s' = serveWaiting p (release p s) := by
  unfold Leave
  split
  · rename_i h; simp only [reduceCtorEq, false_iff]; omega
  · rename_i h; simp only [Except.ok.injEq]
    constructor
    · intro h'; exact ⟨by omega, h'.symm⟩
    · intro h'; exact h'.2.symm

theorem Uniform_ok (lo hi : ℚ) (s : State) (r : ℚ × State) :
    Uniform lo hi s = Except.ok r ↔
      ∃ x rest, s.rng = x :: rest ∧
        r = (uniformSample lo hi x, { s with rng := rest }) := by
  unfold Uniform
  split
  · rename_i h; simp [h]
  · rename_i x rest h
    simp only [Except.ok.injEq, h, List.cons.injEq]
    constructor
    · intro h'; exact ⟨x, rest, ⟨rfl, rfl⟩, h'.symm⟩
    · rintro ⟨_, _, ⟨rfl, rfl⟩, h'⟩; exact h'.symm

theorem Exponential_ok (s : State) (r : ℚ × State) :
    Exponential s = Except.ok r ↔
      ∃ x rest, s.rng = x :: rest ∧ r = (exponentialSample x, { s with rng := rest }) := by
  unfold Exponential
  split
  · rename_i h; simp [h]
  · rename_i x rest h
    simp only [Except.ok.injEq, h, List.cons.injEq]
    constructor
    · intro h'; exact ⟨x, rest, ⟨rfl, rfl⟩, h'.symm⟩
    · rintro ⟨_, _, ⟨rfl, rfl⟩, h'⟩; exact h'.symm

/-! ## Rules for the invariant -/

variable {c : Ghost}

theorem InvX_frame (x x' : List Entity) (s s' : State) (hp : PoolInv s → PoolInv s')
    (hg : s'.g = s.g) (hs : s'.spawned = s.spawned)
    (hc : ∀ c, cntC c x' s' = cntC c x s) (hi : InvX c x s) : InvX c x' s' := by
  obtain ⟨h0, hd, h1, h2, h3, h4⟩ := hi
  refine ⟨hp h0, ?_, ?_, ?_, ?_, ?_⟩
  · unfold DepInv; rw [hg, hs]; exact hd
  · unfold RideInv; rw [hg]; simp only [hc]; exact h1
  · unfold DiagnosticsInv; rw [hg]; simp only [hc]; exact h2
  · unfold SWInstallInv; rw [hg]; simp only [hc]; exact h3
  · unfold GenInv; simp only [hc]; exact h4

theorem cntC_keep (c : Cls) (x : List Entity) (s s' : State)
    (h : ∀ P, cnt P s' = cnt P s) : cntC c x s' = cntC c x s := by
  unfold cntC; rw [h]

theorem cntC_put (c : Cls) (e e0 : Entity) (xs : List Entity) (s s' : State)
    (h : ∀ P, cnt P s' = cnt P s + (if P e then 1 else 0)) (he : cls e = cls e0) :
    cntC c xs s' = cntC c (e0 :: xs) s := by
  unfold cntC
  rw [h]
  simp only [List.countP_nil, List.countP_cons, hasCls, he]
  omega

theorem InvX_take (s : State) (n : Notice) (rest : List Notice) (h : s.calendar = n :: rest)
    (hi : InvX c [] s) : InvX c [n.ent] { s with Time := n.time, calendar := rest } := by
  refine InvX_frame [] [n.ent] s _ (fun hp => PoolInv_mk s _ _ _ _ _ _ hp) rfl rfl ?_ hi
  intro c
  simp only [cntC, cnt_def, h, List.map_cons, List.countP_cons, List.countP_nil]
  omega

theorem Wait_inv (d : ℚ) (e e0 : Entity) (s s' : State)
    (hi : InvX c [e0] s) (h : Wait d e s = Except.ok s') (he : cls e = cls e0) : InvX c [] s' := by
  obtain ⟨-, rfl⟩ := (Wait_ok d e s s').1 h
  refine InvX_frame [e0] [] s _ (fun hp => PoolInv_mk s _ _ _ _ _ _ hp) rfl rfl ?_ hi
  intro c
  refine cntC_put c e e0 [] s _ ?_ he
  intro P
  simp only [cnt_def, countP_insertNotice]
  omega

theorem Enter_inv (p : Pool) (e e0 : Entity) (s : State) (r : Bool × State)
    (hi : InvX c [e0] s) (h : Enter p e s = Except.ok r) (he : cls e = cls e0)
    (hpc : e.pc = 1) : InvX c (if r.1 then [e0] else []) r.2 := by
  rcases (Enter_ok p e s r).1 h with ⟨rfl, hfree⟩ | ⟨rfl, -, hfull⟩
  · exact InvX_frame [e0] [e0] s _ (fun hp => PoolInv_grant p s hp hfree) (grant_g p s)
      (grant_spawned p s) (fun c => cntC_keep c _ s _ (fun P => cnt_grant P p s)) hi
  · exact InvX_frame [e0] [] s _ (fun hp => PoolInv_enqueue p e s hp hfull hpc) (enqueue_g p e s)
      (enqueue_spawned p e s) (fun c => cntC_put c e e0 [] s _ (fun P => cnt_enqueue P p e s) he) hi

theorem Leave_inv (p : Pool) (x : List Entity) (s s' : State)
    (hi : InvX c x s) (h : Leave p s = Except.ok s') : InvX c x s' := by
  obtain ⟨-, rfl⟩ := (Leave_ok p s s').1 h
  refine InvX_frame x x s _
    (fun hp => PoolInv_leave p s hp) ?_ ?_ ?_ hi
  · rw [serveWaiting_g, release_g]
  · rw [serveWaiting_spawned, release_spawned]
  · intro c
    exact cntC_keep c x s _ (fun P => by rw [cnt_serveWaiting, cnt_release])

theorem SetCapacityInc_inv (p : Pool) (x : List Entity) (s : State)
    (hi : InvX c x s) : InvX c x (SetCapacityInc p s) := by
  refine InvX_frame x x s _
    (fun hp => PoolInv_setCapacityInc p s hp) ?_ ?_ ?_ hi
  · unfold SetCapacityInc; rw [serveWaiting_g, raise_g]
  · unfold SetCapacityInc; rw [serveWaiting_spawned, raise_spawned]
  · intro c
    exact cntC_keep c x s _ (fun P => by unfold SetCapacityInc; rw [cnt_serveWaiting, cnt_raise])

theorem Uniform_inv (lo hi : ℚ) (x : List Entity) (s : State) (r : ℚ × State)
    (hi' : InvX c x s) (h : Uniform lo hi s = Except.ok r) : InvX c x r.2 := by
  obtain ⟨y, rest, -, rfl⟩ := (Uniform_ok lo hi s r).1 h
  exact InvX_frame x x s _ (fun hp => PoolInv_mk s _ _ _ _ _ _ hp) rfl rfl
    (fun c => cntC_keep c x s _ (fun P => rfl)) hi'

theorem Exponential_inv (x : List Entity) (s : State) (r : ℚ × State)
    (hi : InvX c x s) (h : Exponential s = Except.ok r) : InvX c x r.2 := by
  obtain ⟨y, rest, -, rfl⟩ := (Exponential_ok s r).1 h
  exact InvX_frame x x s _ (fun hp => PoolInv_mk s _ _ _ _ _ _ hp) rfl rfl
    (fun c => cntC_keep c x s _ (fun P => rfl)) hi

theorem InvX_cls (e e' : Entity) (s : State) (hi : InvX c [e] s) (he : cls e' = cls e) :
    InvX c [e'] s := by
  refine InvX_frame [e] [e'] s s id rfl rfl ?_ hi
  intro c
  simp only [cntC, List.countP_cons, List.countP_nil, hasCls, he]

theorem cntC_one (c : Cls) (e : Entity) (xs : List Entity) (s : State) :
    cntC c (e :: xs) s = cntC c xs s + (if cls e = c then 1 else 0) := by
  simp only [cntC, List.countP_cons, hasCls, decide_eq_true_eq]
  omega

theorem InvX_drop (e : Entity) (xs : List Entity) (s : State)
    (hi : InvX c (e :: xs) s) (hd : droppable (cls e) = true) : InvX c xs s := by
  obtain ⟨h0, hd', h1, h2, h3, h4⟩ := hi
  simp only [RideInv, DiagnosticsInv, SWInstallInv, GenInv, FamilyInv, cntC_one] at h1 h2 h3 h4
  refine ⟨h0, hd', ?_, ?_, ?_, ?_⟩
  · simp only [RideInv, FamilyInv]
    generalize cls e = c at hd h1
    cases c <;> simp [droppable] at hd <;> simp at h1 <;> omega
  · simp only [DiagnosticsInv, FamilyInv]
    generalize cls e = c at hd h2
    cases c <;> simp [droppable] at hd <;> simp at h2 <;> omega
  · simp only [SWInstallInv, FamilyInv]
    generalize cls e = c at hd h3
    cases c <;> simp [droppable] at hd <;> simp at h3 <;> omega
  · simp only [GenInv]
    generalize cls e = c at hd h4
    cases c <;> simp [droppable] at hd <;> simp at h4 <;> omega

/-! ## Rules for the statements that change a counter -/

theorem rideQueue_inc (s : State) (hi : InvX c [⟨Kind.Ride, 0, 0⟩] s) :
    InvX c [⟨Kind.Ride, 1, 0⟩]
      { s with g := { s.g with rideQueueLength := s.g.rideQueueLength + 1 } } := by
  obtain ⟨h0, hd, h1, h2, h3, h4⟩ := hi
  refine ⟨PoolInv_mk s _ _ _ _ _ _ h0, hd, ?_, h2, h3, h4⟩
  simp only [RideInv, FamilyInv, cntC_one] at h1 ⊢
  simp [cls, intakeCls, cntC, cnt_def] at h1 ⊢
  omega

theorem rideQueue_dec (s : State) (hi : InvX c [⟨Kind.Ride, 1, 0⟩] s) :
    InvX c [⟨Kind.WorkShift, 0, 0⟩]
      { s with g := { s.g with rideQueueLength := s.g.rideQueueLength - 1 } } := by
  obtain ⟨h0, hd, h1, h2, h3, h4⟩ := hi
  refine ⟨PoolInv_mk s _ _ _ _ _ _ h0, hd, ?_, h2, h3, h4⟩
  simp only [RideInv, FamilyInv, cntC_one] at h1 ⊢
  simp [cls, intakeCls, cntC, cnt_def] at h1 ⊢
  omega

theorem rideRequest_start (s : State) (hi : InvX c [⟨Kind.RideRequest, 0, 0⟩] s) :
    InvX c [⟨Kind.RideRequest, 1, 2⟩]
      { s with g :=
        { s.g with rideRequestsCount := s.g.rideRequestsCount + 1,
                   rideRequestQueueLength := s.g.rideRequestQueueLength + 1 } } := by
  obtain ⟨h0, hd, h1, h2, h3, h4⟩ := hi
  refine ⟨PoolInv_mk s _ _ _ _ _ _ h0, hd, ?_, h2, h3, h4⟩
  simp only [RideInv, FamilyInv, cntC_one] at h1 ⊢
  simp [cls, intakeCls, cntC, cnt_def] at h1 ⊢
  omega

theorem rideRequest_dec (s : State) (hi : InvX c [⟨Kind.RideRequest, 2, 2⟩] s) :
    InvX c [⟨Kind.Ride, 0, 0⟩]
      { s with g :=
        { s.g with rideRequestQueueLength := s.g.rideRequestQueueLength - 1 } } := by
  obtain ⟨h0, hd, h1, h2, h3, h4⟩ := hi
  refine ⟨PoolInv_mk s _ _ _ _ _ _ h0, hd, ?_, h2, h3, h4⟩
  simp only [RideInv, FamilyInv, cntC_one] at h1 ⊢
  simp [cls, intakeCls, cntC, cnt_def] at h1 ⊢
  omega

theorem rideGenerator_fire (s : State) (hi : InvX c [⟨Kind.RideRequestGenerator, 0, 0⟩] s)
    (hgate : rideGate s = true) :
    InvX c [⟨Kind.RideRequestGenerator, 0, 0⟩]
      { spawn Kind.RideRequest s with g :=
        { (spawn Kind.RideRequest s).g with
          rideRequestsMade := (spawn Kind.RideRequest s).g.rideRequestsMade + 1 } } := by
  have hlt : s.g.rideRequestsMade < s.g.apprRideRequestsCount := by
    simp only [rideGate, Bool.and_eq_true, decide_eq_true_eq] at hgate
    exact hgate.2
  obtain ⟨h0, hd, h1, h2, h3, h4⟩ := hi
  have hc : ∀ c, cntC c [⟨Kind.RideRequestGenerator, 0, 0⟩] (spawn Kind.RideRequest s) =
      cntC c [⟨Kind.RideRequestGenerator, 0, 0⟩] s +
        (if cls ⟨Kind.RideRequest, 0, 0⟩ = c then 1 else 0) := by
    intro c
    simp only [cntC, cnt_spawn, hasCls, decide_eq_true_eq]
    omega
  refine ⟨PoolInv_mk (spawn Kind.RideRequest s) _ _ _ _ _ _ (PoolInv_spawn _ s h0), ?_, ?_, ?_,
    ?_, ?_⟩
  · obtain ⟨hA, hT, hL, hF1, hF2, hF3⟩ := hd
    refine ⟨?_, hT, ?_, ?_, ?_, ?_⟩
    · simpa [spawn, List.count_append] using hA
    · simp only [spawn, List.count_append, List.count_cons, List.count_nil] at hL ⊢
      simp only [beq_self_eq_true, if_true, beq_iff_eq, reduceCtorEq, if_false]
      push_cast
      omega
    · intro k hk
      obtain ⟨-, hcl⟩ := hF1 k hk
      exfalso
      simp only [rideGate, Bool.and_eq_true, decide_eq_true_eq] at hgate
      simp only [hgate, Bool.true_eq_false, false_or] at hcl
      omega
    · exact hF2
    · exact hF3
  all_goals
    simp only [RideInv, DiagnosticsInv, SWInstallInv, GenInv, FamilyInv] at h1 h2 h3 h4 ⊢
    simp only [cntC] at hc h1 h2 h3 h4 ⊢
    simp only [cnt_mk, ← cnt_def, hc]
    simp [cls, intakeCls, spawn]
    omega

theorem diagnosticsQueue_inc (s : State) (hi : InvX c [⟨Kind.Diagnostics, 0, 0⟩] s) :
    InvX c [⟨Kind.Diagnostics, 1, 0⟩]
      { s with g := { s.g with diagnosticsQueueLength := s.g.diagnosticsQueueLength + 1 } } := by
  obtain ⟨h0, hd, h1, h2, h3, h4⟩ := hi
  refine ⟨PoolInv_mk s _ _ _ _ _ _ h0, hd, h1, ?_, h3, h4⟩
  simp only [DiagnosticsInv, FamilyInv, cntC_one] at h2 ⊢
  simp [cls, intakeCls, cntC, cnt_def] at h2 ⊢
  omega

theorem diagnosticsQueue_dec (s : State) (hi : InvX c [⟨Kind.Diagnostics, 1, 0⟩] s) :
    InvX c [⟨Kind.WorkShift, 0, 0⟩]
      { s with g := { s.g with diagnosticsQueueLength := s.g.diagnosticsQueueLength - 1 } } := by
  obtain ⟨h0, hd, h1, h2, h3, h4⟩ := hi
  refine ⟨PoolInv_mk s _ _ _ _ _ _ h0, hd, h1, ?_, h3, h4⟩
  simp only [DiagnosticsInv, FamilyInv, cntC_one] at h2 ⊢
  simp [cls, intakeCls, cntC, cnt_def] at h2 ⊢
  omega

theorem diagnosticsRequest_start (s : State) (hi : InvX c [⟨Kind.DiagnosticsRequest, 0, 0⟩] s) :
    InvX c [⟨Kind.DiagnosticsRequest, 1, 2⟩]
      { s with g :=
        { s.g with diagnosticsRequestsCount := s.g.diagnosticsRequestsCount + 1,
                   diagnosticsRequestQueueLength := s.g.diagnosticsRequestQueueLength + 1 } } := by
  obtain ⟨h0, hd, h1, h2, h3, h4⟩ := hi
  refine ⟨PoolInv_mk s _ _ _ _ _ _ h0, hd, h1, ?_, h3, h4⟩
  simp only [DiagnosticsInv, FamilyInv, cntC_one] at h2 ⊢
  simp [cls, intakeCls, cntC, cnt_def] at h2 ⊢
  omega

theorem diagnosticsRequest_dec (s : State) (hi : InvX c [⟨Kind.DiagnosticsRequest, 2, 2⟩] s) :
    InvX c [⟨Kind.Diagnostics, 0, 0⟩]
      { s with g :=
        { s.g with diagnosticsRequestQueueLength := s.g.diagnosticsRequestQueueLength - 1 } } := by
  obtain ⟨h0, hd, h1, h2, h3, h4⟩ := hi
  refine ⟨PoolInv_mk s _ _ _ _ _ _ h0, hd, h1, ?_, h3, h4⟩
  simp only [DiagnosticsInv, FamilyInv, cntC_one] at h2 ⊢
  simp [cls, intakeCls, cntC, cnt_def] at h2 ⊢
  omega

theorem diagnosticsGenerator_fire (s : State) (hi : InvX c [⟨Kind.DiagnosticsRequestGenerator, 0, 0⟩] s)
    (hgate : diagnosticsGate s = true) :
    InvX c [⟨Kind.DiagnosticsRequestGenerator, 0, 0⟩]
      { spawn Kind.DiagnosticsRequest s with g :=
        { (spawn Kind.DiagnosticsRequest s).g with
          diagnosticsRequestsMade := (spawn Kind.DiagnosticsRequest s).g.diagnosticsRequestsMade + 1 } } := by
  have hlt : s.g.diagnosticsRequestsMade < s.g.apprDiagnosticsRequestsCount := by
    simp only [diagnosticsGate, Bool.and_eq_true, decide_eq_true_eq] at hgate
    exact hgate.2
  obtain ⟨h0, hd, h1, h2, h3, h4⟩ := hi
  have hc : ∀ c, cntC c [⟨Kind.DiagnosticsRequestGenerator, 0, 0⟩] (spawn Kind.DiagnosticsRequest s) =
      cntC c [⟨Kind.DiagnosticsRequestGenerator, 0, 0⟩] s +
        (if cls ⟨Kind.DiagnosticsRequest, 0, 0⟩ = c then 1 else 0) := by
    intro c
    simp only [cntC, cnt_spawn, hasCls, decide_eq_true_eq]
    omega
  refine ⟨PoolInv_mk (spawn Kind.DiagnosticsRequest s) _ _ _ _ _ _ (PoolInv_spawn _ s h0), ?_, ?_, ?_,
    ?_, ?_⟩
  · obtain ⟨hA, hT, hL, hF1, hF2, hF3⟩ := hd
    refine ⟨?_, hT, ?_, ?_, ?_, ?_⟩
    · simpa [spawn, List.count_append] using hA
    · simp only [spawn, List.count_append, List.count_cons, List.count_nil] at hL ⊢
      simp only [beq_self_eq_true, if_true, beq_iff_eq, reduceCtorEq, if_false]
      push_cast
      omega
    · exact hF1
    · intro k hk
      obtain ⟨-, hcl⟩ := hF2 k hk
      exfalso
      simp only [diagnosticsGate, Bool.and_eq_true, decide_eq_true_eq] at hgate
      simp only [hgate, Bool.true_eq_false, false_or] at hcl
      omega
    · exact hF3
  all_goals
    simp only [RideInv, DiagnosticsInv, SWInstallInv, GenInv, FamilyInv] at h1 h2 h3 h4 ⊢
    simp only [cntC] at hc h1 h2 h3 h4 ⊢
    simp only [cnt_mk, ← cnt_def, hc]
    simp [cls, intakeCls, spawn]
    omega

theorem swInstallQueue_inc (s : State) (hi : InvX c [⟨Kind.SWInstall, 0, 0⟩] s) :
    InvX c [⟨Kind.SWInstall, 1, 0⟩]
      { s with g := { s.g with swInstallQueueLength := s.g.swInstallQueueLength + 1 } } := by
  obtain ⟨h0, hd, h1, h2, h3, h4⟩ := hi
  refine ⟨PoolInv_mk s _ _ _ _ _ _ h0, hd, h1, h2, ?_, h4⟩
  simp only [SWInstallInv, FamilyInv, cntC_one] at h3 ⊢
  simp [cls, intakeCls, cntC, cnt_def] at h3 ⊢
  omega

theorem swInstallQueue_dec (s : State) (hi : InvX c [⟨Kind.SWInstall, 1, 0⟩] s) :
    InvX c [⟨Kind.WorkShift, 0, 0⟩]
      { s with g := { s.g with swInstallQueueLength := s.g.swInstallQueueLength - 1 } } := by
  obtain ⟨h0, hd, h1, h2, h3, h4⟩ := hi
  refine ⟨PoolInv_mk s _ _ _ _ _ _ h0, hd, h1, h2, ?_, h4⟩
  simp only [SWInstallInv, FamilyInv, cntC_one] at h3 ⊢
  simp [cls, intakeCls, cntC, cnt_def] at h3 ⊢
  omega

theorem swInstallRequest_start (s : State) (hi : InvX c [⟨Kind.SWInstallRequest, 0, 0⟩] s) :
    InvX c [⟨Kind.SWInstallRequest, 1, 2⟩]
      { s with g :=
        { s.g with swInstallRequestsCount := s.g.swInstallRequestsCount + 1,
                   swInstallRequestQueueLength := s.g.swInstallRequestQueueLength + 1 } } := by
  obtain ⟨h0, hd, h1, h2, h3, h4⟩ := hi
  refine ⟨PoolInv_mk s _ _ _ _ _ _ h0, hd, h1, h2, ?_, h4⟩
  simp only [SWInstallInv, FamilyInv, cntC_one] at h3 ⊢
  simp [cls, intakeCls, cntC, cnt_def] at h3 ⊢
  omega

theorem swInstallRequest_dec (s : State) (hi : InvX c [⟨Kind.SWInstallRequest, 2, 2⟩] s) :
    InvX c [⟨Kind.SWInstall, 0, 0⟩]
      { s with g :=
        { s.g with swInstallRequestQueueLength := s.g.swInstallRequestQueueLength - 1 } } := by
  obtain ⟨h0, hd, h1, h2, h3, h4⟩ := hi
  refine ⟨PoolInv_mk s _ _ _ _ _ _ h0, hd, h1, h2, ?_, h4⟩
  simp only [SWInstallInv, FamilyInv, cntC_one] at h3 ⊢
  simp [cls, intakeCls, cntC, cnt_def] at h3 ⊢
  omega

theorem swInstallGenerator_fire (s : State) (hi : InvX c [⟨Kind.SWInstallRequestGenerator, 0, 0⟩] s)
    (hgate : swInstallGate s = true) :
    InvX c [⟨Kind.SWInstallRequestGenerator, 0, 0⟩]
      { spawn Kind.SWInstallRequest s with g :=
        { (spawn Kind.SWInstallRequest s).g with
          swInstallRequestsMade := (spawn Kind.SWInstallRequest s).g.swInstallRequestsMade + 1 } } := by
  have hlt : s.g.swInstallRequestsMade < s.g.apprSWInstallRequestsCount := by
    simp only [swInstallGate, Bool.and_eq_true, decide_eq_true_eq] at hgate
    exact hgate.2
  obtain ⟨h0, hd, h1, h2, h3, h4⟩ := hi
  have hc : ∀ c, cntC c [⟨Kind.SWInstallRequestGenerator, 0, 0⟩] (spawn Kind.SWInstallRequest s) =
      cntC c [⟨Kind.SWInstallRequestGenerator, 0, 0⟩] s +
        (if cls ⟨Kind.SWInstallRequest, 0, 0⟩ = c then 1 else 0) := by
    intro c
    simp only [cntC, cnt_spawn, hasCls, decide_eq_true_eq]
    omega
  refine ⟨PoolInv_mk (spawn Kind.SWInstallRequest s) _ _ _ _ _ _ (PoolInv_spawn _ s h0), ?_, ?_, ?_,
    ?_, ?_⟩
  · obtain ⟨hA, hT, hL, hF1, hF2, hF3⟩ := hd
    refine ⟨?_, hT, ?_, ?_, ?_, ?_⟩
    · simpa [spawn, List.count_append] using hA
    · simp only [spawn, List.count_append, List.count_cons, List.count_nil] at hL ⊢
      simp only [beq_self_eq_true, if_true, beq_iff_eq, reduceCtorEq, if_false]
      push_cast
      omega
    · exact hF1
    · exact hF2
    · intro k hk
      obtain ⟨-, hcl⟩ := hF3 k hk
      exfalso
      simp only [swInstallGate, Bool.and_eq_true, decide_eq_true_eq] at hgate
      simp only [hgate, Bool.true_eq_false, false_or] at hcl
      omega
  all_goals
    simp only [RideInv, DiagnosticsInv, SWInstallInv, GenInv, FamilyInv] at h1 h2 h3 h4 ⊢
    simp only [cntC] at hc h1 h2 h3 h4 ⊢
    simp only [cnt_mk, ← cnt_def, hc]
    simp [cls, intakeCls, spawn]
    omega

theorem schedule_inv (t : ℚ) (e : Entity) (xs : List Entity) (s s' : State)
    (hi : InvX c (e :: xs) s) (h : schedule t e s = Except.ok s') : InvX c xs s' := by
  obtain ⟨-, rfl⟩ := (schedule_ok _ _ _ _).1 h
  refine InvX_frame (e :: xs) xs _ _ (fun hp => PoolInv_mk _ _ _ _ _ _ _ hp) rfl rfl ?_ hi
  intro c
  refine cntC_put c e e xs _ _ ?_ rfl
  intro P
  simp only [cnt_def, countP_insertNotice]
  omega

theorem flag_isOpened (x : List Entity) (s : State) (hi : InvX c x s) :
    InvX c x { s with g := { s.g with isOpened := false } } := by
  obtain ⟨h0, ⟨hA, hT, hL, hF1, hF2, hF3⟩, h1, h2, h3, h4⟩ := hi
  exact ⟨PoolInv_mk s _ _ _ _ _ _ h0,
    ⟨hA, hT, hL, fun k hk => ⟨(hF1 k hk).1, Or.inl rfl⟩,
      fun k hk => ⟨(hF2 k hk).1, Or.inl rfl⟩, fun k hk => ⟨(hF3 k hk).1, Or.inl rfl⟩⟩,
    h1, h2, h3, h4⟩

theorem flag_takingDDRequests (x : List Entity) (s : State) (hi : InvX c x s) :
    InvX c x { s with g := { s.g with takingDDRequests := false } } := by
  obtain ⟨h0, ⟨hA, hT, hL, hF1, hF2, hF3⟩, h1, h2, h3, h4⟩ := hi
  exact ⟨PoolInv_mk s _ _ _ _ _ _ h0,
    ⟨hA, hT, hL, hF1, fun k hk => ⟨(hF2 k hk).1, Or.inr (Or.inl rfl)⟩, hF3⟩,
    h1, h2, h3, h4⟩

theorem spawn_inv (k : Kind) (s : State)
    (hk : k = Kind.Ride ∨ k = Kind.Diagnostics ∨ k = Kind.SWInstall)
    (hi : InvX c [⟨k, 0, 0⟩] s) : InvX c [] (spawn k s) := by
  have hc : ∀ c, cntC c [] (spawn k s) = cntC c [⟨k, 0, 0⟩] s :=
    fun c => cntC_put c ⟨k, 0, 0⟩ ⟨k, 0, 0⟩ [] s _ (fun P => cnt_spawn P k s) rfl
  obtain ⟨h0, hd, h1, h2, h3, h4⟩ := hi
  refine ⟨PoolInv_spawn k s h0, ?_, ?_, ?_, ?_, ?_⟩
  · rcases hk with rfl | rfl | rfl <;>
      simpa [DepInv, spawn_g, spawn_spawned, List.count_append] using hd
  · unfold RideInv; rw [spawn_g]; simp only [hc]; exact h1
  · unfold DiagnosticsInv; rw [spawn_g]; simp only [hc]; exact h2
  · unfold SWInstallInv; rw [spawn_g]; simp only [hc]; exact h3
  · unfold GenInv; simp only [hc]; exact h4

theorem spawn_escalated (s : State) (hlt : s.g.deploymentCount < 3)
    (hi : InvX c [⟨Kind.NetworkDeployment, 0, 0⟩] s) :
    InvX c []
      { spawn Kind.NetworkDeployment s with g :=
        { (spawn Kind.NetworkDeployment s).g with
          deploymentCount := (spawn Kind.NetworkDeployment s).g.deploymentCount + 1 } } := by
  have hc : ∀ c, cntC c [] (spawn Kind.NetworkDeployment s) =
      cntC c [⟨Kind.NetworkDeployment, 0, 0⟩] s :=
    fun c => cntC_put c ⟨Kind.NetworkDeployment, 0, 0⟩ ⟨Kind.NetworkDeployment, 0, 0⟩ [] s _
      (fun P => cnt_spawn P Kind.NetworkDeployment s) rfl
  obtain ⟨h0, hd, h1, h2, h3, h4⟩ := hi
  refine ⟨PoolInv_mk (spawn Kind.NetworkDeployment s) _ _ _ _ _ _ (PoolInv_spawn _ s h0),
    ?_, ?_, ?_, ?_, ?_⟩
  · obtain ⟨hA, hT, hL, hF1, hF2, hF3⟩ := hd
    refine ⟨?_, hT, ?_, hF1, hF2, hF3⟩
    · simp only [spawn_g, spawn_spawned, List.count_append, List.count_cons, List.count_nil,
        beq_self_eq_true, if_true]
      push_cast
      omega
    · simpa [spawn_g, spawn_spawned, List.count_append] using hL
  · have := hc
    simp only [RideInv, cntC, cnt_def] at this h1 ⊢
    simp only [this]; exact h1
  · have := hc
    simp only [DiagnosticsInv, cntC, cnt_def] at this h2 ⊢
    simp only [this]; exact h2
  · have := hc
    simp only [SWInstallInv, cntC, cnt_def] at this h3 ⊢
    simp only [this]; exact h3
  · have := hc
    simp only [GenInv, cntC, cnt_def] at this h4 ⊢
    simp only [this]; exact h4

theorem activate_inv (arg : Int) (e e0 : Entity) (xs : List Entity) (s s' : State)
    (hi : InvX c (e0 :: xs) s) (h : activateAfterNormalDist arg e s = Except.ok s')
    (he : cls e = cls e0) (hdrop : droppable (cls e0) = true) : InvX c xs s' := by
  have hgen : ∀ x rest, InvX c x s → InvX c x { s with gen := rest } := fun x rest hx =>
    InvX_frame x x s _ (fun hp => PoolInv_mk s _ _ _ _ _ _ hp) rfl rfl
      (fun c => cntC_keep c x s _ (fun P => rfl)) hx
  unfold activateAfterNormalDist at h
  split at h
  · cases h
  · rename_i d rest hn
    split at h
    · rename_i t ht
      obtain ⟨-, rfl⟩ := (schedule_ok _ _ _ _).1 h
      refine InvX_frame (e0 :: xs) xs _ _ (fun hp => PoolInv_mk _ _ _ _ _ _ _ hp) rfl rfl ?_
        (hgen _ rest hi)
      intro c
      refine cntC_put c e e0 xs _ _ ?_ he
      intro P
      simp only [cnt_def, countP_insertNotice]
      omega
    · cases h
      exact InvX_drop e0 xs _ (hgen _ rest hi) hdrop

/-! ## Every `Behavior` keeps the invariant -/

theorem Ride_granted_inv (s s' : State) (hi : InvX c [⟨Kind.Ride, 1, 0⟩] s)
    (h : Ride.granted s = Except.ok s') : InvX c [] s' := by
  unfold Ride.granted at h
  split at h
  · obtain ⟨r, hU, hW⟩ := (bind_ok _ _ _).1 h
    exact Wait_inv _ _ _ _ _ (Uniform_inv _ _ _ _ _ hi hU) hW rfl
  · exact InvX_drop _ _ _ (Leave_inv _ _ _ _ hi h) rfl

theorem Ride_start_inv (s s' : State) (hi : InvX c [⟨Kind.Ride, 0, 0⟩] s)
    (h : Ride.Behavior 0 s = Except.ok s') : InvX c [] s' := by
  simp only [Ride.Behavior] at h
  obtain ⟨r, hE, hk⟩ := (bind_ok _ _ _).1 h
  have h1 := Enter_inv _ ⟨Kind.Ride, 1, 0⟩ ⟨Kind.Ride, 1, 0⟩ _ _ (rideQueue_inc s hi) hE rfl rfl
  cases hr : r.1
  · simp only [hr, Bool.false_eq_true, if_false] at h1 hk
    obtain rfl := (pure_ok _ _).1 hk
    exact h1
  · simp only [hr, if_true] at h1 hk
    exact Ride_granted_inv _ _ h1 hk

theorem Diagnostics_granted_inv (s s' : State) (hi : InvX c [⟨Kind.Diagnostics, 1, 0⟩] s)
    (h : Diagnostics.granted s = Except.ok s') : InvX c [] s' := by
  unfold Diagnostics.granted at h
  split at h
  · obtain ⟨r, hU, hW⟩ := (bind_ok _ _ _).1 h
    exact Wait_inv _ _ _ _ _ (Exponential_inv _ _ _ hi hU) hW rfl
  · exact InvX_drop _ _ _ (Leave_inv _ _ _ _ hi h) rfl

theorem Diagnostics_start_inv (s s' : State) (hi : InvX c [⟨Kind.Diagnostics, 0, 0⟩] s)
    (h : Diagnostics.Behavior 0 s = Except.ok s') : InvX c [] s' := by
  simp only [Diagnostics.Behavior] at h
  obtain ⟨r, hE, hk⟩ := (bind_ok _ _ _).1 h
  have h1 := Enter_inv _ ⟨Kind.Diagnostics, 1, 0⟩ ⟨Kind.Diagnostics, 1, 0⟩ _ _ (diagnosticsQueue_inc s hi) hE rfl rfl
  cases hr : r.1
  · simp only [hr, Bool.false_eq_true, if_false] at h1 hk
    obtain rfl := (pure_ok _ _).1 hk
    exact h1
  · simp only [hr, if_true] at h1 hk
    exact Diagnostics_granted_inv _ _ h1 hk

theorem SWInstall_granted_inv (s s' : State) (hi : InvX c [⟨Kind.SWInstall, 1, 0⟩] s)
    (h : SWInstall.granted s = Except.ok s') : InvX c [] s' := by
  unfold SWInstall.granted at h
  split at h
  · obtain ⟨r, hU, hW⟩ := (bind_ok _ _ _).1 h
    exact Wait_inv _ _ _ _ _ (Uniform_inv _ _ _ _ _ hi hU) hW rfl
  · exact InvX_drop _ _ _ (Leave_inv _ _ _ _ hi h) rfl

theorem SWInstall_start_inv (s s' : State) (hi : InvX c [⟨Kind.SWInstall, 0, 0⟩] s)
    (h : SWInstall.Behavior 0 s = Except.ok s') : InvX c [] s' := by
  simp only [SWInstall.Behavior] at h
  obtain ⟨r, hE, hk⟩ := (bind_ok _ _ _).1 h
  have h1 := Enter_inv _ ⟨Kind.SWInstall, 1, 1⟩ ⟨Kind.SWInstall, 1, 0⟩ _ _ (swInstallQueue_inc s hi) hE rfl rfl
  cases hr : r.1
  · simp only [hr, Bool.false_eq_true, if_false] at h1 hk
    obtain rfl := (pure_ok _ _).1 hk
    exact h1
  · simp only [hr, if_true] at h1 hk
    exact SWInstall_granted_inv _ _ h1 hk

theorem Ride_inv (pc : Nat) (pr : Int) (s s' : State) (hi : InvX c [⟨Kind.Ride, pc, pr⟩] s)
    (h : Ride.Behavior pc s = Except.ok s') : InvX c [] s' := by
  rcases pc with _ | _ | _ | _ | _ | pc
  · exact Ride_start_inv s s' (InvX_cls _ _ s hi rfl) h
  · exact Ride_granted_inv s s' (InvX_cls _ _ s hi rfl) h
  · simp only [Ride.Behavior] at h
    obtain ⟨r, hU, hW⟩ := (bind_ok _ _ _).1 h
    exact Wait_inv _ _ _ _ _ (Exponential_inv _ _ _ hi hU) hW rfl
  · simp only [Ride.Behavior] at h
    obtain ⟨r, hU, hW⟩ := (bind_ok _ _ _).1 h
    exact Wait_inv _ _ _ _ _ (Uniform_inv _ _ _ _ _ hi hU) hW rfl
  · simp only [Ride.Behavior] at h
    exact InvX_drop _ _ _ (Leave_inv _ _ _ _ (rideQueue_dec s (InvX_cls _ _ s hi rfl)) h) rfl
  · simp [Ride.Behavior] at h

theorem Diagnostics_inv (pc : Nat) (pr : Int) (s s' : State)
    (hi : InvX c [⟨Kind.Diagnostics, pc, pr⟩] s)
    (h : Diagnostics.Behavior pc s = Except.ok s') : InvX c [] s' := by
  rcases pc with _ | _ | _ | pc
  · exact Diagnostics_start_inv s s' (InvX_cls _ _ s hi rfl) h
  · exact Diagnostics_granted_inv s s' (InvX_cls _ _ s hi rfl) h
  · simp only [Diagnostics.Behavior] at h
    exact InvX_drop _ _ _
      (Leave_inv _ _ _ _ (diagnosticsQueue_dec s (InvX_cls _ _ s hi rfl)) h) rfl
  · simp [Diagnostics.Behavior] at h

theorem SWInstall_inv (pc : Nat) (pr : Int) (s s' : State)
    (hi : InvX c [⟨Kind.SWInstall, pc, pr⟩] s)
    (h : SWInstall.Behavior pc s = Except.ok s') : InvX c [] s' := by
  rcases pc with _ | _ | _ | pc
  · exact SWInstall_start_inv s s' (InvX_cls _ _ s hi rfl) h
  · exact SWInstall_granted_inv s s' (InvX_cls _ _ s hi rfl) h
  · simp only [SWInstall.Behavior] at h
    exact InvX_drop _ _ _
      (Leave_inv _ _ _ _ (swInstallQueue_dec s (InvX_cls _ _ s hi rfl)) h) rfl
  · simp [SWInstall.Behavior] at h

theorem NetworkDeployment_inv (pc : Nat) (pr : Int) (s s' : State)
    (hi : InvX c [⟨Kind.NetworkDeployment, pc, pr⟩] s)
    (h : NetworkDeployment.Behavior pc s = Except.ok s') : InvX c [] s' := by
  rcases pc with _ | _ | _ | _ | pc
  · simp only [NetworkDeployment.Behavior] at h
    obtain ⟨r, hE, hk⟩ := (bind_ok _ _ _).1 h
    have h1 := Enter_inv _ ⟨Kind.NetworkDeployment, 1, 1⟩ ⟨Kind.Ride, 1, 0⟩ _ _
      (rideQueue_inc s (InvX_cls _ _ s hi rfl)) hE rfl rfl
    cases hr : r.1
    · simp only [hr, Bool.false_eq_true, if_false] at h1 hk
      obtain rfl := (pure_ok _ _).1 hk
      exact h1
    · simp only [hr, if_true] at h1 hk
      exact Wait_inv _ _ _ _ _ h1 hk rfl
  · exact Wait_inv _ _ _ _ _ hi h rfl
  · simp only [NetworkDeployment.Behavior] at h
    exact Wait_inv _ _ _ _ _
      (rideQueue_dec _ (SetCapacityInc_inv _ _ s (InvX_cls _ _ s hi rfl))) h rfl
  · simp only [NetworkDeployment.Behavior] at h
    exact InvX_drop _ _ _ (Leave_inv _ _ _ _ hi h) rfl
  · simp [NetworkDeployment.Behavior] at h

theorem RideRequest_inv (pc : Nat) (pr : Int) (s s' : State)
    (hi : InvX c [⟨Kind.RideRequest, pc, pr⟩] s)
    (h : RideRequest.Behavior pc s = Except.ok s') : InvX c [] s' := by
  rcases pc with _ | _ | _ | pc
  · simp only [RideRequest.Behavior] at h
    obtain ⟨r, hE, hk⟩ := (bind_ok _ _ _).1 h
    have h1 := Enter_inv _ ⟨Kind.RideRequest, 1, 2⟩ ⟨Kind.RideRequest, 1, 2⟩ _ _
      (rideRequest_start s (InvX_cls _ _ s hi rfl)) hE rfl rfl
    cases hr : r.1
    · simp only [hr, Bool.false_eq_true, if_false] at h1 hk
      obtain rfl := (pure_ok _ _).1 hk
      exact h1
    · simp only [hr, if_true] at h1 hk
      exact Wait_inv _ _ _ _ _ h1 hk rfl
  · exact Wait_inv _ _ _ _ _ hi h rfl
  · simp only [RideRequest.Behavior] at h
    obtain ⟨s1, hL, hk⟩ := (bind_ok _ _ _).1 h
    obtain ⟨r, hU, hk⟩ := (bind_ok _ _ _).1 hk
    have h2 := Uniform_inv _ _ _ _ _
      (Leave_inv _ _ _ _ (rideRequest_dec s (InvX_cls _ _ s hi rfl)) hL) hU
    split at hk
    · rename_i he
      obtain rfl := (pure_ok _ _).1 hk
      have hlt : r.2.g.deploymentCount < 3 := by
        simp only [escalates, Bool.and_eq_true, decide_eq_true_eq] at he
        exact he.1.2
      exact spawn_escalated r.2 hlt (InvX_cls _ _ _ h2 rfl)
    · obtain rfl := (pure_ok _ _).1 hk
      exact spawn_inv Kind.Ride r.2 (by decide) h2
  · simp [RideRequest.Behavior] at h

theorem DiagnosticsRequest_inv (pc : Nat) (pr : Int) (s s' : State)
    (hi : InvX c [⟨Kind.DiagnosticsRequest, pc, pr⟩] s)
    (h : DiagnosticsRequest.Behavior pc s = Except.ok s') : InvX c [] s' := by
  rcases pc with _ | _ | _ | pc
  · simp only [DiagnosticsRequest.Behavior] at h
    obtain ⟨r, hE, hk⟩ := (bind_ok _ _ _).1 h
    have h1 := Enter_inv _ ⟨Kind.DiagnosticsRequest, 1, 2⟩ ⟨Kind.DiagnosticsRequest, 1, 2⟩ _ _
      (diagnosticsRequest_start s (InvX_cls _ _ s hi rfl)) hE rfl rfl
    cases hr : r.1
    · simp only [hr, Bool.false_eq_true, if_false] at h1 hk
      obtain rfl := (pure_ok _ _).1 hk
      exact h1
    · simp only [hr, if_true] at h1 hk
      exact Wait_inv _ _ _ _ _ h1 hk rfl
  · exact Wait_inv _ _ _ _ _ hi h rfl
  · simp only [DiagnosticsRequest.Behavior] at h
    obtain ⟨s1, hL, hk⟩ := (bind_ok _ _ _).1 h
    obtain rfl := (pure_ok _ _).1 hk
    have h2 := Leave_inv _ _ _ _ hi hL
    exact spawn_inv Kind.Diagnostics _ (by decide)
      (diagnosticsRequest_dec s1 (InvX_cls _ _ s1 h2 rfl))
  · simp [DiagnosticsRequest.Behavior] at h

theorem SWInstallRequest_inv (pc : Nat) (pr : Int) (s s' : State)
    (hi : InvX c [⟨Kind.SWInstallRequest, pc, pr⟩] s)
    (h : SWInstallRequest.Behavior pc s = Except.ok s') : InvX c [] s' := by
  rcases pc with _ | _ | _ | pc
  · simp only [SWInstallRequest.Behavior] at h
    obtain ⟨r, hE, hk⟩ := (bind_ok _ _ _).1 h
    have h1 := Enter_inv _ ⟨Kind.SWInstallRequest, 1, 2⟩ ⟨Kind.SWInstallRequest, 1, 2⟩ _ _
      (swInstallRequest_start s (InvX_cls _ _ s hi rfl)) hE rfl rfl
    cases hr : r.1
    · simp only [hr, Bool.false_eq_true, if_false] at h1 hk
      obtain rfl := (pure_ok _ _).1 hk
      exact h1
    · simp only [hr, if_true] at h1 hk
      exact Wait_inv _ _ _ _ _ h1 hk rfl
  · exact Wait_inv _ _ _ _ _ hi h rfl
  · simp only [SWInstallRequest.Behavior] at h
    obtain ⟨s1, hL, hk⟩ := (bind_ok _ _ _).1 h
    obtain rfl := (pure_ok _ _).1 hk
    exact spawn_inv Kind.SWInstall _ (by decide)
      (Leave_inv _ _ _ _ (swInstallRequest_dec s (InvX_cls _ _ s hi rfl)) hL)
  · simp [SWInstallRequest.Behavior] at h

theorem RideRequestGenerator_inv (pc : Nat) (pr : Int) (s s' : State)
    (hi : InvX c [⟨Kind.RideRequestGenerator, pc, pr⟩] s)
    (h : RideRequestGenerator.Behavior s = Except.ok s') : InvX c [] s' := by
  unfold RideRequestGenerator.Behavior at h
  split at h
  · rename_i hg
    exact activate_inv _ _ _ _ _ _
      (rideGenerator_fire s (InvX_cls _ _ s hi rfl) hg) h rfl rfl
  · obtain rfl := (pure_ok _ _).1 h
    exact InvX_drop _ _ _ hi rfl

theorem DiagnosticsRequestGenerator_inv (pc : Nat) (pr : Int) (s s' : State)
    (hi : InvX c [⟨Kind.DiagnosticsRequestGenerator, pc, pr⟩] s)
    (h : DiagnosticsRequestGenerator.Behavior s = Except.ok s') : InvX c [] s' := by
  unfold DiagnosticsRequestGenerator.Behavior at h
  split at h
  · rename_i hg
    exact activate_inv _ _ _ _ _ _
      (diagnosticsGenerator_fire s (InvX_cls _ _ s hi rfl) hg) h rfl rfl
  · obtain rfl := (pure_ok _ _).1 h
    exact InvX_drop _ _ _ hi rfl

theorem SWInstallRequestGenerator_inv (pc : Nat) (pr : Int) (s s' : State)
    (hi : InvX c [⟨Kind.SWInstallRequestGenerator, pc, pr⟩] s)
    (h : SWInstallRequestGenerator.Behavior s = Except.ok s') : InvX c [] s' := by
  unfold SWInstallRequestGenerator.Behavior at h
  split at h
  · rename_i hg
    exact activate_inv _ _ _ _ _ _
      (swInstallGenerator_fire s (InvX_cls _ _ s hi rfl) hg) h rfl rfl
  · obtain rfl := (pure_ok _ _).1 h
    exact InvX_drop _ _ _ hi rfl

theorem exec_inv (e : Entity) (s s' : State) (hi : InvX c [e] s)
    (h : exec e s = Except.ok s') : InvX c [] s' := by
  obtain ⟨k, pc, pr⟩ := e
  cases k <;> simp only [exec] at h
  · exact RideRequestGenerator_inv pc pr s s' hi h
  · exact DiagnosticsRequestGenerator_inv pc pr s s' hi h
  · exact SWInstallRequestGenerator_inv pc pr s s' hi h
  · obtain rfl := (pure_ok _ _).1 h
    exact InvX_drop _ _ _ (flag_isOpened _ s hi) rfl
  · obtain rfl := (pure_ok _ _).1 h
    exact InvX_drop _ _ _ (flag_takingDDRequests _ s hi) rfl
  · exact NetworkDeployment_inv pc pr s s' hi h
  · exact Ride_inv pc pr s s' hi h
  · exact Diagnostics_inv pc pr s s' hi h
  · exact SWInstall_inv pc pr s s' hi h
  · exact RideRequest_inv pc pr s s' hi h
  · exact DiagnosticsRequest_inv pc pr s s' hi h
  · exact SWInstallRequest_inv pc pr s s' hi h

theorem step_inv (s s' : State) (hi : Inv c s) (h : step s = Except.ok s') : Inv c s' := by
  unfold step at h
  split at h
  · obtain rfl := (pure_ok _ _).1 h
    exact hi
  · rename_i n rest hc
    exact exec_inv n.ent _ s' (InvX_take s n rest hc hi) h

theorem initial_inv (ride diag sw : Int) (OW RW : Nat) (PRO : Bool) (gen rng : List ℚ) :
    InvX (Ghost.start ride diag sw) [⟨Kind.RideRequestGenerator, 0, 0⟩, ⟨Kind.DiagnosticsRequestGenerator, 0, 0⟩,
      ⟨Kind.SWInstallRequestGenerator, 0, 0⟩, ⟨Kind.WorkShift, 0, 0⟩,
      ⟨Kind.DDRequestTaker, 0, 0⟩] (initial ride diag sw OW RW PRO gen rng) := by
  refine ⟨?_, ?_, ?_, ?_, ?_, ?_⟩
  · rw [PoolInv_iff]; simp [initial, LineOk]
  · simp [DepInv, initial, Ghost.start]
  all_goals
    simp only [RideInv, DiagnosticsInv, SWInstallInv, GenInv, FamilyInv, cntC, cnt_def]
    simp [initial, hasCls, cls, List.countP_cons]
    try omega

theorem setup_inv (ride diag sw : Int) (OW RW : Nat) (PRO : Bool) (gen rng : List ℚ)
    (s : State) (h : setup ride diag sw OW RW PRO gen rng = Except.ok s) :
    Inv (Ghost.start ride diag sw) s := by
  unfold setup at h
  obtain ⟨s1, h1, h⟩ := (bind_ok _ _ _).1 h
  obtain ⟨s2, h2, h⟩ := (bind_ok _ _ _).1 h
  obtain ⟨s3, h3, h⟩ := (bind_ok _ _ _).1 h
  obtain ⟨s4, h4, h⟩ := (bind_ok _ _ _).1 h
  have i1 := activate_inv _ _ _ _ _ _ (initial_inv ride diag sw OW RW PRO gen rng) h1 rfl rfl
  have i2 := activate_inv _ _ _ _ _ _ i1 h2 rfl rfl
  have i3 := activate_inv _ _ _ _ _ _ i2 h3 rfl rfl
  exact schedule_inv _ _ _ _ _ (schedule_inv _ _ _ _ _ i3 h4) h

theorem Reachable_inv (s : State) (h : Reachable s) : ∃ c, Inv c s := by
  induction h with
  | start ride diag sw OW RW PRO gen rng s hs => exact ⟨_, setup_inv _ _ _ _ _ _ _ _ s hs⟩
  | turn s s' _ _ hstep ih =>
    obtain ⟨c, hc⟩ := ih
    exact ⟨c, step_inv s s' hc hstep⟩

theorem Run_inv (fuel : Nat) : ∀ (s s' : State), Inv c s → Run fuel s = Except.ok s' → Inv c s' := by
  induction fuel with
  | zero =>
    intro s s' hi h
    obtain rfl := (pure_ok _ _).1 h
    exact hi
  | succ k ih =>
    intro s s' hi h
    simp only [Run] at h
    split at h
    · obtain rfl := (pure_ok _ _).1 h
      exact hi
    · obtain ⟨s1, h1, h2⟩ := (bind_ok _ _ _).1 h
      exact ih s1 s' (step_inv s s1 hi h1) h2

theorem simulate_inv (fuel : Nat) (ride diag sw : Int) (OW RW : Nat) (PRO : Bool)
    (gen rng : List ℚ) (s : State)
    (h : simulate fuel ride diag sw OW RW PRO gen rng = Except.ok s) :
    Inv (Ghost.start ride diag sw) s := by
  obtain ⟨s0, h0, h1⟩ := (bind_ok _ _ _).1 h
  exact Run_inv fuel s0 s (setup_inv _ _ _ _ _ _ _ _ s0 h0) h1

theorem Run_reachable (fuel : Nat) :
    ∀ (s s' : State), Reachable s → Run fuel s = Except.ok s' → Reachable s' := by
  induction fuel with
  | zero =>
    intro s s' hi h
    obtain rfl := (pure_ok _ _).1 h
    exact hi
  | succ k ih =>
    intro s s' hi h
    simp only [Run] at h
    split at h
    · obtain rfl := (pure_ok _ _).1 h
      exact hi
    · rename_i hf
      obtain ⟨s1, h1, h2⟩ := (bind_ok _ _ _).1 h
      exact ih s1 s' (Reachable.turn s s1 hi (by simpa using hf) h1) h2

theorem simulate_reachable (fuel : Nat) (ride diag sw : Int) (OW RW : Nat) (PRO : Bool)
    (gen rng : List ℚ) (s : State)
    (h : simulate fuel ride diag sw OW RW PRO gen rng = Except.ok s) : Reachable s := by
  obtain ⟨s0, h0, h1⟩ := (bind_ok _ _ _).1 h
  exact Run_reachable fuel s0 s (Reachable.start _ _ _ _ _ _ _ _ s0 h0) h1

/-! ## The claims on reachable states -/

theorem escalationState_reachable : Reachable escalationState :=
  simulate_reachable 10 2 1 1 3 1 false [-3, 1, 1, -3, -3] [1 / 2, 10, 500, 1 / 20, 10]
    escalationState (by with_unfolding_all rfl)

/-- C1. Escalation cap: in every reachable state `deploymentCount` is the number
of `NetworkDeployment` objects created so far, and it is at most 3. The draws
are arbitrary, so they include the sequences in which every escalation draw
succeeds. -/
theorem C1_escalation_cap (s : State) (h : Reachable s) :
    s.g.deploymentCount = (s.spawned.count Kind.NetworkDeployment : Nat) ∧
      s.g.deploymentCount ≤ 3 := by
  obtain ⟨c, hc⟩ := Reachable_inv s h
  exact hc.2.1.1

/-- C1, instance: the state of the escalation run after ten turns, in which one
`NetworkDeployment` has been created. -/
theorem C1_escalation_cap_witness :
    Reachable escalationState ∧
      (escalationState.g.deploymentCount =
        (escalationState.spawned.count Kind.NetworkDeployment : Nat) ∧
        escalationState.g.deploymentCount ≤ 3) :=
  ⟨escalationState_reachable, C1_escalation_cap escalationState escalationState_reachable⟩

/-- C5. Quota bound: for non-negative target counts, in every state of a run
each accepted-request counter is at most the requests-made counter of its
category, which is at most the target. -/
theorem C5_quota_bound (fuel : Nat) (ride diag sw : Int) (OW RW : Nat) (PRO : Bool)
    (gen rng : List ℚ) (s : State) (hr : 0 ≤ ride) (hd : 0 ≤ diag) (hs : 0 ≤ sw)
    (h : simulate fuel ride diag sw OW RW PRO gen rng = Except.ok s) :
    (s.g.rideRequestsCount ≤ s.g.rideRequestsMade ∧ s.g.rideRequestsMade ≤ ride) ∧
    (s.g.diagnosticsRequestsCount ≤ s.g.diagnosticsRequestsMade ∧
      s.g.diagnosticsRequestsMade ≤ diag) ∧
    (s.g.swInstallRequestsCount ≤ s.g.swInstallRequestsMade ∧
      s.g.swInstallRequestsMade ≤ sw) := by
  obtain ⟨-, ⟨-, ⟨c1, c2, c3⟩, -⟩, h1, h2, h3, -⟩ :=
    simulate_inv fuel ride diag sw OW RW PRO gen rng s h
  simp only [RideInv, DiagnosticsInv, SWInstallInv, FamilyInv] at h1 h2 h3
  simp only [Ghost.start] at c1 c2 c3
  refine ⟨⟨?_, ?_⟩, ⟨?_, ?_⟩, ⟨?_, ?_⟩⟩ <;> omega

/-- C5, instance: the escalation run (targets 2, 1 and 1) after ten turns. -/
theorem C5_quota_bound_witness :
    (escalationState.g.rideRequestsCount ≤ escalationState.g.rideRequestsMade ∧
      escalationState.g.rideRequestsMade ≤ 2) ∧
    (escalationState.g.diagnosticsRequestsCount ≤ escalationState.g.diagnosticsRequestsMade ∧
      escalationState.g.diagnosticsRequestsMade ≤ 1) ∧
    (escalationState.g.swInstallRequestsCount ≤ escalationState.g.swInstallRequestsMade ∧
      escalationState.g.swInstallRequestsMade ≤ 1) :=
  C5_quota_bound 10 2 1 1 3 1 false [-3, 1, 1, -3, -3] [1 / 2, 10, 500, 1 / 20, 10]
    escalationState (by decide) (by decide) (by decide) (by with_unfolding_all rfl)

/-- C10. Counter bounds behind the success rate: in every reachable state each
service queue-length counter and each intake queue-length counter lies between
0 and the accepted count of its category; hence, when the total accepted count
is positive, the success rate as an exact fraction lies between 0 and 1, and it
is below 1 exactly when some service queue-length counter is positive. -/
theorem C10_counter_bounds (s : State) (h : Reachable s) :
    (0 ≤ s.g.rideQueueLength ∧ s.g.rideQueueLength ≤ s.g.rideRequestsCount) ∧
    (0 ≤ s.g.diagnosticsQueueLength ∧
      s.g.diagnosticsQueueLength ≤ s.g.diagnosticsRequestsCount) ∧
    (0 ≤ s.g.swInstallQueueLength ∧ s.g.swInstallQueueLength ≤ s.g.swInstallRequestsCount) ∧
    (0 ≤ s.g.rideRequestQueueLength ∧ s.g.rideRequestQueueLength ≤ s.g.rideRequestsCount) ∧
    (0 ≤ s.g.diagnosticsRequestQueueLength ∧
      s.g.diagnosticsRequestQueueLength ≤ s.g.diagnosticsRequestsCount) ∧
    (0 ≤ s.g.swInstallRequestQueueLength ∧
      s.g.swInstallRequestQueueLength ≤ s.g.swInstallRequestsCount) ∧
    (0 < total s →
      0 ≤ successFraction s ∧ successFraction s ≤ 1 ∧
      (successFraction s < 1 ↔
        (0 < s.g.rideQueueLength ∨ 0 < s.g.diagnosticsQueueLength ∨
          0 < s.g.swInstallQueueLength))) := by
  obtain ⟨c, -, -, h1, h2, h3, -⟩ := Reachable_inv s h
  simp only [RideInv, DiagnosticsInv, SWInstallInv, FamilyInv] at h1 h2 h3
  have b1 : 0 ≤ s.g.rideQueueLength ∧ s.g.rideQueueLength ≤ s.g.rideRequestsCount := by omega
  have b2 : 0 ≤ s.g.diagnosticsQueueLength ∧
      s.g.diagnosticsQueueLength ≤ s.g.diagnosticsRequestsCount := by omega
  have b3 : 0 ≤ s.g.swInstallQueueLength ∧
      s.g.swInstallQueueLength ≤ s.g.swInstallRequestsCount := by omega
  refine ⟨b1, b2, b3, by omega, by omega, by omega, ?_⟩
  intro hT
  have hTq : (0 : ℚ) < ((total s : Int) : ℚ) := by exact_mod_cast hT
  have hQ0 : 0 ≤ total s - stillQueued s := by unfold stillQueued total; omega
  have hQT : total s - stillQueued s ≤ total s := by unfold stillQueued; omega
  unfold successFraction
  refine ⟨div_nonneg (by exact_mod_cast hQ0) hTq.le,
    (div_le_one hTq).2 (by exact_mod_cast hQT), ?_⟩
  rw [div_lt_one hTq]
  constructor
  · intro hlt
    have hlt' : total s - stillQueued s < total s := by exact_mod_cast hlt
    unfold stillQueued at hlt'
    omega
  · intro hor
    have hlt' : total s - stillQueued s < total s := by unfold stillQueued; omega
    exact_mod_cast hlt'

/-- C10, instance: the ride counters in the state of the escalation run after
ten turns. -/
theorem C10_counter_bounds_witness :
    Reachable escalationState ∧ 0 ≤ escalationState.g.rideQueueLength ∧
      escalationState.g.rideQueueLength ≤ escalationState.g.rideRequestsCount :=
  ⟨escalationState_reachable,
    (C10_counter_bounds escalationState escalationState_reachable).1⟩

/-! ## The duration sampler -/

theorem normalSample_fin (μ z : ℚ) :
    normalSample (Dbl.fin μ) (Dbl.div (Dbl.fin μ) (Dbl.fin 4)) z =
      Dbl.fin (z * (μ / 4) + μ) := by
  simp [normalSample, Dbl.div, Dbl.mul, Dbl.add]

theorem normalDistLoop_pos (μ T : ℚ) :
    ∀ (gen : List ℚ) (d : Dbl) (rest : List ℚ),
      normalDistLoop (Dbl.fin μ) T gen = some (d, rest) → ∃ q, d = Dbl.fin q ∧ 0 < q := by
  intro gen
  induction gen with
  | nil => intro d rest h; simp [normalDistLoop] at h
  | cons z gen ih =>
    intro d rest h
    simp only [normalDistLoop, normalSample_fin, Dbl.add, Dbl.le] at h
    split at h
    · exact ih d rest h
    · rename_i hle
      simp only [Option.some.injEq, Prod.mk.injEq] at h
      refine ⟨_, h.1.symm, ?_⟩
      simp only [decide_eq_true_eq, not_le] at hle
      linarith

theorem normalDistLoop_returns (μ T : ℚ) :
    ∀ (gen : List ℚ), (∃ z ∈ gen, 0 < z * (μ / 4) + μ) →
      ∃ d rest, normalDistLoop (Dbl.fin μ) T gen = some (d, rest) := by
  intro gen
  induction gen with
  | nil => rintro ⟨z, hz, -⟩; simp at hz
  | cons y gen ih =>
    rintro ⟨z, hz, hz4⟩
    simp only [normalDistLoop, normalSample_fin, Dbl.add, Dbl.le]
    split
    · rename_i hle
      simp only [decide_eq_true_eq] at hle
      rcases List.mem_cons.1 hz with rfl | hmem
      · exfalso
        linarith
      · exact ih ⟨z, hmem, hz4⟩
    · exact ⟨_, _, rfl⟩

theorem normalDist_arg (arg : Int) (harg : arg ≠ 0) :
    Dbl.div (Dbl.fin SHIFT_TIME) (Dbl.fin arg) = Dbl.fin (SHIFT_TIME / arg) := by
  have h0 : (arg : ℚ) ≠ 0 := by exact_mod_cast harg
  simp [Dbl.div, h0]

/-- For a non-zero argument, whatever `normalDist` returns is a finite,
strictly positive duration. -/
theorem normalDist_pos (arg : Int) (harg : arg ≠ 0) (T : ℚ) (gen : List ℚ) (d : Dbl)
    (rest : List ℚ) (h : normalDist arg T gen = some (d, rest)) :
    ∃ q, d = Dbl.fin q ∧ 0 < q := by
  unfold normalDist at h
  rw [normalDist_arg arg harg] at h
  exact normalDistLoop_pos _ T gen d rest h

/-- For a non-zero argument, `normalDist` returns as soon as the variates hold
one whose draw is positive. -/
theorem normalDist_returns (arg : Int) (harg : arg ≠ 0) (T : ℚ) (gen : List ℚ)
    (hgen : ∃ z ∈ gen, 0 < normalDraw arg z) :
    ∃ d rest, normalDist arg T gen = some (d, rest) := by
  unfold normalDist
  rw [normalDist_arg arg harg]
  exact normalDistLoop_returns _ T gen hgen

/-- For a positive argument the draws that leave the loop are those of the
variates above `-4`. -/
theorem normalDraw_pos (arg : Int) (harg : 0 < arg) (z : ℚ) :
    0 < normalDraw arg z ↔ -4 < z := by
  have h0 : (0 : ℚ) < (arg : ℚ) := by exact_mod_cast harg
  have hμ : (0 : ℚ) < SHIFT_TIME / arg := div_pos (by norm_num [SHIFT_TIME]) h0
  have he : normalDraw arg z = SHIFT_TIME / arg * ((z + 4) / 4) := by
    unfold normalDraw; ring
  rw [he]
  constructor
  · intro h
    have := (mul_pos_iff_of_pos_left hμ).1 h
    linarith
  · intro h
    exact mul_pos hμ (by linarith)

/-- For a negative argument the draws that leave the loop are those of the
variates below `-4`. -/
theorem normalDraw_neg (arg : Int) (harg : arg < 0) (z : ℚ) :
    0 < normalDraw arg z ↔ z < -4 := by
  have h0 : (arg : ℚ) < 0 := by exact_mod_cast harg
  have hμ : SHIFT_TIME / arg < 0 := div_neg_of_pos_of_neg (by norm_num [SHIFT_TIME]) h0
  have he : normalDraw arg z = SHIFT_TIME / arg * ((z + 4) / 4) := by
    unfold normalDraw; ring
  rw [he]
  constructor
  · intro h
    by_contra hz
    have h4 : 0 ≤ (z + 4) / 4 := by linarith
    have := mul_nonpos_of_nonpos_of_nonneg hμ.le h4
    linarith
  · intro h
    exact mul_pos_of_neg_of_neg hμ (by linarith)

/-- C6, at the failing input. With the target count 0 the mean is
`480.0 / 0 = +inf`; a variate `z <= 0` (here `-1`) makes the draw
`z * inf + inf` a NaN, the loop test `Time + result <= Time` is false on NaN,
and `normalDist` returns NaN: the returned duration is not strictly positive
and `Time + d > Time` does not hold. -/
theorem C6_normalDist_zero_target (T : ℚ) (rest : List ℚ) :
    normalDist 0 T (-1 :: rest) = some (Dbl.nan, rest) ∧
      Dbl.lt (Dbl.fin 0) Dbl.nan = false ∧
      Dbl.lt (Dbl.fin T) (Dbl.add (Dbl.fin T) Dbl.nan) = false := by
  refine ⟨?_, rfl, rfl⟩
  have hmean : Dbl.div (Dbl.fin SHIFT_TIME) (Dbl.fin ((0 : Int) : ℚ)) = Dbl.pinf := by
    norm_num [Dbl.div, Dbl.signedInf, SHIFT_TIME]
  have hsd : Dbl.div Dbl.pinf (Dbl.fin 4) = Dbl.pinf := by
    norm_num [Dbl.div]
  have hsample : normalSample Dbl.pinf Dbl.pinf (-1) = Dbl.nan := by
    norm_num [normalSample, Dbl.mul, Dbl.signedInf, Dbl.neg, Dbl.add]
  simp only [normalDist, hmean, normalDistLoop, hsd, hsample, Dbl.add, Dbl.le]
  rfl

/-! ## The generators -/

theorem activate_pos (arg : Int) (harg : arg ≠ 0) (e : Entity) (s s' : State)
    (h : activateAfterNormalDist arg e s = Except.ok s') :
    ∃ q rest, 0 < q ∧
      s' = { s with gen := rest, calendar := insertNotice ⟨s.Time + q, e⟩ s.calendar } := by
  unfold activateAfterNormalDist at h
  split at h
  · cases h
  · rename_i d rest hn
    obtain ⟨q, rfl, hq⟩ := normalDist_pos arg harg _ _ _ _ hn
    simp only [Dbl.add] at h
    obtain ⟨-, rfl⟩ := (schedule_ok _ _ _ _).1 h
    exact ⟨q, rest, hq, rfl⟩

theorem activate_returns (arg : Int) (harg : arg ≠ 0) (e : Entity) (s : State)
    (hgen : ∃ z ∈ s.gen, 0 < normalDraw arg z) :
    ∃ s', activateAfterNormalDist arg e s = Except.ok s' := by
  obtain ⟨d, rest, hn⟩ := normalDist_returns arg harg s.Time s.gen hgen
  obtain ⟨q, rfl, hq⟩ := normalDist_pos arg harg _ _ _ _ hn
  refine ⟨{ s with gen := rest, calendar := insertNotice ⟨s.Time + q, e⟩ s.calendar }, ?_⟩
  unfold activateAfterNormalDist
  simp only [hn, Dbl.add]
  exact (schedule_ok _ _ _ _).2 ⟨by simp; linarith, rfl⟩

theorem wrapInt32_double_ne (a : Int) (h0 : 0 < a) (h1 : a < 2147483648) :
    wrapInt32 (a * 2) ≠ 0 := by
  unfold wrapInt32
  omega

theorem wrapInt32_double_pos (a : Int) (h0 : 0 < a) (h1 : a < 1073741824) :
    0 < wrapInt32 (a * 2) := by
  unfold wrapInt32
  omega

theorem cls_generator (cat : Category) (e : Entity) (h : e.kind = cat.generator) :
    droppable (cls e) = true ∧
      ∀ e' : Entity, cls e' = cls e → e'.kind = cat.generator := by
  obtain ⟨k, pc, pr⟩ := e
  simp only at h
  subst h
  constructor
  · cases cat <;> rfl
  · rintro ⟨k', pc', pr'⟩ h'
    cases cat <;> cases k' <;>
      simp [cls, intakeCls, Category.generator] at h' ⊢ <;>
      (repeat' split at h') <;> simp at h'

theorem rideGenerator_spec (s : State) (hm : 0 ≤ s.g.rideRequestsMade) :
    (rideGate s = true →
      Category.ride.arg s ≠ 0 ∧
      ((∃ z ∈ s.gen, 0 < normalDraw (Category.ride.arg s) z) →
        ∃ s', RideRequestGenerator.Behavior s = Except.ok s') ∧
      ∀ s', RideRequestGenerator.Behavior s = Except.ok s' →
        s'.spawned = s.spawned ++ [Kind.RideRequest] ∧
        s'.g.rideRequestsMade = s.g.rideRequestsMade + 1 ∧
        ∃ t, s.Time < t ∧ s'.calendar =
          insertNotice ⟨t, ⟨Kind.RideRequestGenerator, 0, 0⟩⟩
            (insertNotice ⟨s.Time, ⟨Kind.RideRequest, 0, 0⟩⟩ s.calendar)) ∧
    (rideGate s = false → RideRequestGenerator.Behavior s = Except.ok s) := by
  constructor
  · intro hg
    have hlt : s.g.rideRequestsMade < s.g.apprRideRequestsCount := by
      simp only [rideGate, Bool.and_eq_true, decide_eq_true_eq] at hg
      exact hg.2
    have harg : Category.ride.arg s ≠ 0 := by
      simp only [Category.arg]
      exact by omega
    simp only [RideRequestGenerator.Behavior, hg, if_true]
    refine ⟨harg, ?_, ?_⟩
    · intro hgen
      exact activate_returns _ harg _ _ hgen
    · intro s' h
      obtain ⟨q, rest, hq, rfl⟩ := activate_pos _ harg _ _ _ h
      refine ⟨rfl, rfl, s.Time + q, by linarith, rfl⟩
  · intro hg
    simp only [RideRequestGenerator.Behavior, hg, Bool.false_eq_true, if_false]
    rfl

theorem diagnosticsGenerator_spec (s : State) (hm : 0 ≤ s.g.diagnosticsRequestsMade)
    (hint : s.g.apprDiagnosticsRequestsCount < 2147483648) :
    (diagnosticsGate s = true →
      Category.diagnostics.arg s ≠ 0 ∧
      ((∃ z ∈ s.gen, 0 < normalDraw (Category.diagnostics.arg s) z) →
        ∃ s', DiagnosticsRequestGenerator.Behavior s = Except.ok s') ∧
      ∀ s', DiagnosticsRequestGenerator.Behavior s = Except.ok s' →
        s'.spawned = s.spawned ++ [Kind.DiagnosticsRequest] ∧
        s'.g.diagnosticsRequestsMade = s.g.diagnosticsRequestsMade + 1 ∧
        ∃ t, s.Time < t ∧ s'.calendar =
          insertNotice ⟨t, ⟨Kind.DiagnosticsRequestGenerator, 0, 0⟩⟩
            (insertNotice ⟨s.Time, ⟨Kind.DiagnosticsRequest, 0, 0⟩⟩ s.calendar)) ∧
    (diagnosticsGate s = false → DiagnosticsRequestGenerator.Behavior s = Except.ok s) := by
  constructor
  · intro hg
    have hlt : s.g.diagnosticsRequestsMade < s.g.apprDiagnosticsRequestsCount := by
      simp only [diagnosticsGate, Bool.and_eq_true, decide_eq_true_eq] at hg
      exact hg.2
    have harg : Category.diagnostics.arg s ≠ 0 := by
      simp only [Category.arg]
      exact wrapInt32_double_ne _ (by omega) hint
    simp only [DiagnosticsRequestGenerator.Behavior, hg, if_true]
    refine ⟨harg, ?_, ?_⟩
    · intro hgen
      exact activate_returns _ harg _ _ hgen
    · intro s' h
      obtain ⟨q, rest, hq, rfl⟩ := activate_pos _ harg _ _ _ h
      refine ⟨rfl, rfl, s.Time + q, by linarith, rfl⟩
  · intro hg
    simp only [DiagnosticsRequestGenerator.Behavior, hg, Bool.false_eq_true, if_false]
    rfl

theorem swInstallGenerator_spec (s : State) (hm : 0 ≤ s.g.swInstallRequestsMade) :
    (swInstallGate s = true →
      Category.swInstall.arg s ≠ 0 ∧
      ((∃ z ∈ s.gen, 0 < normalDraw (Category.swInstall.arg s) z) →
        ∃ s', SWInstallRequestGenerator.Behavior s = Except.ok s') ∧
      ∀ s', SWInstallRequestGenerator.Behavior s = Except.ok s' →
        s'.spawned = s.spawned ++ [Kind.SWInstallRequest] ∧
        s'.g.swInstallRequestsMade = s.g.swInstallRequestsMade + 1 ∧
        ∃ t, s.Time < t ∧ s'.calendar =
          insertNotice ⟨t, ⟨Kind.SWInstallRequestGenerator, 0, 0⟩⟩
            (insertNotice ⟨s.Time, ⟨Kind.SWInstallRequest, 0, 0⟩⟩ s.calendar)) ∧
    (swInstallGate s = false → SWInstallRequestGenerator.Behavior s = Except.ok s) := by
  constructor
  · intro hg
    have hlt : s.g.swInstallRequestsMade < s.g.apprSWInstallRequestsCount := by
      simp only [swInstallGate, Bool.and_eq_true, decide_eq_true_eq] at hg
      exact hg.2
    have harg : Category.swInstall.arg s ≠ 0 := by
      simp only [Category.arg]
      exact by omega
    simp only [SWInstallRequestGenerator.Behavior, hg, if_true]
    refine ⟨harg, ?_, ?_⟩
    · intro hgen
      exact activate_returns _ harg _ _ hgen
    · intro s' h
      obtain ⟨q, rest, hq, rfl⟩ := activate_pos _ harg _ _ _ h
      refine ⟨rfl, rfl, s.Time + q, by linarith, rfl⟩
  · intro hg
    simp only [SWInstallRequestGenerator.Behavior, hg, Bool.false_eq_true, if_false]
    rfl

theorem InvX_freeze (cat : Category) (c : Ghost) (x : List Entity) (s : State)
    (hi : InvX c x s) (hg : cat.gate s = false) : InvX (c.freeze cat (cat.made s)) x s := by
  obtain ⟨h0, ⟨hA, hT, hL, hF1, hF2, hF3⟩, h1, h2, h3, h4⟩ := hi
  cases cat
  · refine ⟨h0, ⟨hA, hT, hL, ?_, hF2, hF3⟩, h1, h2, h3, h4⟩
    intro k hk
    simp only [Ghost.freeze, Option.some.injEq, Category.made] at hk
    refine ⟨hk, ?_⟩
    simp only [Category.gate, rideGate, Bool.and_eq_false_iff, decide_eq_false_iff_not,
      not_lt] at hg
    exact hg
  · refine ⟨h0, ⟨hA, hT, hL, hF1, ?_, hF3⟩, h1, h2, h3, h4⟩
    intro k hk
    simp only [Ghost.freeze, Option.some.injEq, Category.made] at hk
    refine ⟨hk, ?_⟩
    simp only [Category.gate, diagnosticsGate, Bool.and_eq_false_iff, decide_eq_false_iff_not,
      not_lt] at hg
    rcases hg with (hg | hg) | hg
    · exact Or.inl hg
    · exact Or.inr (Or.inl hg)
    · exact Or.inr (Or.inr hg)
  · refine ⟨h0, ⟨hA, hT, hL, hF1, hF2, ?_⟩, h1, h2, h3, h4⟩
    intro k hk
    simp only [Ghost.freeze, Option.some.injEq, Category.made] at hk
    refine ⟨hk, ?_⟩
    simp only [Category.gate, swInstallGate, Bool.and_eq_false_iff, decide_eq_false_iff_not,
      not_lt] at hg
    exact hg

theorem frozen_made (cat : Category) (c : Ghost) (k : Int) (s : State)
    (hi : Inv (c.freeze cat k) s) :
    cat.made s = k ∧ (cat.made s : Int) = (s.spawned.count cat.intake : Nat) := by
  obtain ⟨-, ⟨-, -, hL, hF1, hF2, hF3⟩, -⟩ := hi
  cases cat
  · exact ⟨(hF1 k rfl).1, hL.1⟩
  · exact ⟨(hF2 k rfl).1, hL.2.1⟩
  · exact ⟨(hF3 k rfl).1, hL.2.2⟩

theorem made_log (cat : Category) (c : Ghost) (s : State) (hi : Inv c s) :
    0 ≤ cat.made s ∧ (cat.made s : Int) = (s.spawned.count cat.intake : Nat) := by
  obtain ⟨-, ⟨-, -, hL, -⟩, h1, h2, h3, -⟩ := hi
  simp only [RideInv, DiagnosticsInv, SWInstallInv, FamilyInv] at h1 h2 h3
  cases cat
  · exact ⟨h1.1, hL.1⟩
  · exact ⟨h2.1, hL.2.1⟩
  · exact ⟨h3.1, hL.2.2⟩

theorem cls_generator_eq (cat : Category) (e e' : Entity) (h : e.kind = cat.generator)
    (h' : e'.kind = cat.generator) : cls e' = cls e := by
  obtain ⟨k, pc, pr⟩ := e
  obtain ⟨k', pc', pr'⟩ := e'
  simp only at h h'
  subst h h'
  cases cat <;> rfl

theorem cntC_generator_le (cat : Category) (e : Entity) (x : List Entity) (s : State)
    (h : e.kind = cat.generator) (h4 : GenInv x s) : cntC (cls e) x s ≤ 1 := by
  obtain ⟨k, pc, pr⟩ := e
  simp only at h
  subst h
  cases cat
  · exact h4.1
  · exact h4.2.1
  · exact h4.2.2

theorem generator_alone (cat : Category) (c : Ghost) (s : State) (n : Notice)
    (rest : List Notice) (hi : Inv c s) (hcal : s.calendar = n :: rest)
    (hk : n.ent.kind = cat.generator) : ∀ m ∈ rest, m.ent.kind ≠ cat.generator := by
  intro m hm hmk
  obtain ⟨-, -, -, -, -, h4⟩ := hi
  have hn : (if hasCls (cls n.ent) n.ent = true then 1 else 0) = 1 := by simp [hasCls]
  have hmc : cls m.ent = cls n.ent := cls_generator_eq cat n.ent m.ent hk hmk
  have hpos : 0 < (rest.map Notice.ent).countP (hasCls (cls n.ent)) :=
    List.countP_pos_iff.2 ⟨m.ent, List.mem_map_of_mem _ hm, by simp [hasCls, hmc]⟩
  have hc : cntC (cls n.ent) [] s ≤ 1 := cntC_generator_le cat n.ent [] s hk h4
  simp only [cntC, cnt_def, hcal, List.map_cons, List.countP_cons, List.countP_nil, hn] at hc
  omega

/-- C4. Generator step. When the scheduler activates the generator of a
category in a reachable state whose diagnostics target is a C `int`: with the
gate open, the argument of `normalDist` is not zero, the turn succeeds as soon
as the variates hold one whose draw is positive (one above `-4` when the
argument is positive, one below `-4` when it is negative; it is positive for
the ride and the installation generator and for every diagnostics target below
`2^30`, and negative for the diagnostics targets from `2^30` on, whose double
wraps around as an `int`), and every result has
exactly one more intake task of the category in the creation log, the
requests-made counter one higher, and the generator back in the calendar at a
strictly later time; with the gate closed, the turn changes nothing but the
clock and the calendar entry taken, the generator is not in the calendar any
more, and no later state of the run has another intake task of the category in
the log. -/
theorem C4_generator_step (cat : Category) (s : State) (n : Notice) (rest : List Notice)
    (hr : Reachable s) (hcal : s.calendar = n :: rest) (hk : n.ent.kind = cat.generator)
    (hint : s.g.apprDiagnosticsRequestsCount < 2147483648) :
    (cat.gate s = true →
      cat.arg s ≠ 0 ∧
      ((∃ z ∈ s.gen, 0 < normalDraw (cat.arg s) z) → ∃ s', step s = Except.ok s') ∧
      (0 < cat.arg s → (∃ z ∈ s.gen, -4 < z) → ∃ s', step s = Except.ok s') ∧
      (cat.arg s < 0 → (∃ z ∈ s.gen, z < -4) → ∃ s', step s = Except.ok s') ∧
      (cat ≠ Category.diagnostics ∨ s.g.apprDiagnosticsRequestsCount < 1073741824 →
        0 < cat.arg s) ∧
      (cat = Category.diagnostics → 1073741824 ≤ s.g.apprDiagnosticsRequestsCount →
        cat.arg s < 0) ∧
      ∀ s', step s = Except.ok s' →
        s'.spawned = s.spawned ++ [cat.intake] ∧ cat.made s' = cat.made s + 1 ∧
        ∃ t, n.time < t ∧ s'.calendar =
          insertNotice ⟨t, ⟨cat.generator, 0, 0⟩⟩
            (insertNotice ⟨n.time, ⟨cat.intake, 0, 0⟩⟩ rest)) ∧
    (cat.gate s = false →
      step s = Except.ok (taken s n rest) ∧
      (∀ m ∈ rest, m.ent.kind ≠ cat.generator) ∧
      ∀ fuel s'', Run fuel (taken s n rest) = Except.ok s'' →
        s''.spawned.count cat.intake = s.spawned.count cat.intake) := by
  obtain ⟨c, hi⟩ := Reachable_inv s hr
  have hm := (made_log cat c s hi).1
  have hstep : step s = exec n.ent (taken s n rest) := by
    simp only [step, hcal, taken]
  have halone := generator_alone cat c s n rest hi hcal hk
  have hdrop := (cls_generator cat n.ent hk).1
  obtain ⟨t, ⟨k, pc, pr⟩⟩ := n
  simp only at hk
  subst hk
  constructor
  · intro hg
    have key : cat.arg s ≠ 0 ∧
        ((∃ z ∈ s.gen, 0 < normalDraw (cat.arg s) z) → ∃ s', step s = Except.ok s') ∧
        ∀ s', step s = Except.ok s' →
          s'.spawned = s.spawned ++ [cat.intake] ∧ cat.made s' = cat.made s + 1 ∧
          ∃ t', t < t' ∧ s'.calendar =
            insertNotice ⟨t', ⟨cat.generator, 0, 0⟩⟩
              (insertNotice ⟨t, ⟨cat.intake, 0, 0⟩⟩ rest) := by
      rw [hstep]
      cases cat
      · exact (rideGenerator_spec (taken s _ rest) hm).1 hg
      · exact (diagnosticsGenerator_spec (taken s _ rest) hm hint).1 hg
      · exact (swInstallGenerator_spec (taken s _ rest) hm).1 hg
    obtain ⟨ha, hret, hres⟩ := key
    refine ⟨ha, hret, ?_, ?_, ?_, ?_, hres⟩
    · rintro hpos ⟨z, hz, hz4⟩
      exact hret ⟨z, hz, (normalDraw_pos _ hpos z).2 hz4⟩
    · rintro hneg ⟨z, hz, hz4⟩
      exact hret ⟨z, hz, (normalDraw_neg _ hneg z).2 hz4⟩
    · intro hb
      cases cat
      · simp only [Category.gate, rideGate, Bool.and_eq_true, decide_eq_true_eq] at hg
        have hm' : 0 ≤ s.g.rideRequestsMade := hm
        simp only [Category.arg]
        omega
      · rcases hb with hb | hb
        · exact absurd rfl hb
        · simp only [Category.gate, diagnosticsGate, Bool.and_eq_true,
            decide_eq_true_eq] at hg
          have hm' : 0 ≤ s.g.diagnosticsRequestsMade := hm
          simp only [Category.arg]
          exact wrapInt32_double_pos _ (by omega) hb
      · simp only [Category.gate, swInstallGate, Bool.and_eq_true, decide_eq_true_eq] at hg
        have hm' : 0 ≤ s.g.swInstallRequestsMade := hm
        simp only [Category.arg]
        omega
    · rintro rfl hbig
      simp only [Category.arg, wrapInt32]
      omega
  · intro hg
    refine ⟨?_, halone, ?_⟩
    · rw [hstep]
      cases cat
      · exact (rideGenerator_spec (taken s _ rest) hm).2 hg
      · exact (diagnosticsGenerator_spec (taken s _ rest) hm hint).2 hg
      · exact (swInstallGenerator_spec (taken s _ rest) hm).2 hg
    · intro fuel s'' hrun
      have h1 : Inv c (taken s _ rest) := InvX_drop _ _ _ (InvX_take s _ rest hcal hi) hdrop
      have hg' : cat.gate (taken s ⟨t, ⟨cat.generator, pc, pr⟩⟩ rest) = false := by
        cases cat <;> exact hg
      have h2 := InvX_freeze cat c [] (taken s _ rest) h1 hg'
      have h3 := frozen_made cat c _ s'' (Run_inv fuel _ s'' h2 hrun)
      have h4 := (made_log cat c s hi).2
      have h5 : cat.made (taken s ⟨t, ⟨cat.generator, pc, pr⟩⟩ rest) = cat.made s := by
        cases cat <;> rfl
      have h6 : ((s''.spawned.count cat.intake : Nat) : Int) =
          (s.spawned.count cat.intake : Nat) := by
        rw [← h3.2, h3.1, h5, h4]
      exact_mod_cast h6

theorem escalationStart_reachable : Reachable escalationStart :=
  simulate_reachable 0 2 1 1 3 1 false [-3, 1, 1, -3, -3] [1 / 2, 10, 500, 1 / 20, 10]
    escalationStart (by with_unfolding_all rfl)

/-- C4, instance: the first activation of the ride generator in the escalation
run, at time 60 with the gate open. -/
theorem C4_generator_step_witness :
    (stateAfter 1 2 1 1 3 1 false [-3, 1, 1, -3, -3]
        [1 / 2, 10, 500, 1 / 20, 10]).g.rideRequestsMade =
      escalationStart.g.rideRequestsMade + 1 :=
  (((C4_generator_step Category.ride escalationStart ⟨60, ⟨Kind.RideRequestGenerator, 0, 0⟩⟩
      [⟨240, ⟨Kind.DDRequestTaker, 0, 0⟩⟩, ⟨300, ⟨Kind.DiagnosticsRequestGenerator, 0, 0⟩⟩,
        ⟨480, ⟨Kind.WorkShift, 0, 0⟩⟩, ⟨600, ⟨Kind.SWInstallRequestGenerator, 0, 0⟩⟩]
      escalationStart_reachable (by decide!) rfl (by decide!)).1
      (by decide!)).2.2.2.2.2.2 _
    (by with_unfolding_all rfl)).2.1

/-! ## The shift gate of the service tasks -/

theorem step_taken (s : State) (n : Notice) (rest : List Notice) (hcal : s.calendar = n :: rest) :
    step s = exec n.ent (taken s n rest) := by
  simp only [step, hcal, taken]

theorem Enter_free (p : Pool) (e : Entity) (s : State)
    (hfree : (getStore p s).used < (getStore p s).capacity) :
    Enter p e s = Except.ok (true, grant p s) :=
  (Enter_ok p e s _).2 (Or.inl ⟨rfl, hfree⟩)

theorem serveLine_conserve (cap : Nat) (t : ℚ) :
    ∀ (q : List Entity) (u : Nat) (cal : List Notice),
      (serveLine cap t q u cal).2.1 + (serveLine cap t q u cal).1.length = u + q.length := by
  intro q
  induction q with
  | nil => intro u cal; simp [serveLine]
  | cons e q ih =>
    intro u cal
    simp only [serveLine]
    split
    · rw [ih]; simp only [List.length_cons]; omega
    · rfl

theorem Leave_grant_back (p : Pool) (s : State) (hq : (getStore p s).queue = []) :
    Leave p (grant p s) = Except.ok s := by
  obtain ⟨T, cal, ow, r, u, g, rng, gen, sp⟩ := s
  cases p
  · obtain ⟨c, us, q⟩ := ow
    simp only [getStore] at hq
    subst hq
    simp [Leave, grant, release, serveWaiting, setStore, getStore, serveLine]
  · obtain ⟨c, us, q⟩ := r
    simp only [getStore] at hq
    subst hq
    simp [Leave, grant, release, serveWaiting, setStore, getStore, serveLine]
  · obtain ⟨c, us, q⟩ := u
    simp only [getStore] at hq
    subst hq
    simp [Leave, grant, release, serveWaiting, setStore, getStore, serveLine]

theorem Leave_conserve (p : Pool) (s s' : State) (h : Leave p s = Except.ok s') :
    s'.g = s.g ∧
      (getStore p s').used + (getStore p s').queue.length + 1 =
        (getStore p s).used + (getStore p s).queue.length := by
  obtain ⟨hu, rfl⟩ := (Leave_ok p s s').1 h
  refine ⟨by rw [serveWaiting_g, release_g], ?_⟩
  have hc := serveLine_conserve (getStore p (release p s)).capacity (release p s).Time
    (getStore p (release p s)).queue (getStore p (release p s)).used (release p s).calendar
  cases p <;> simp only [serveWaiting, release, setStore, getStore] at hc hu ⊢ <;> omega

theorem ridePool_grant (p : Pool) (s : State) : ridePool (grant p s) = ridePool s := by
  simp only [ridePool, grant_g]

theorem officePool_grant (p : Pool) (s : State) : officePool (grant p s) = officePool s := by
  simp only [officePool, grant_g]

theorem Ride_granted_closed (s : State) (hcl : s.g.isOpened = false) :
    Ride.granted s = Leave (ridePool s) s := by
  simp only [Ride.granted, hcl, Bool.false_eq_true, if_false]

theorem Ride_granted_open (s s' : State) (hop : s.g.isOpened = true)
    (h : Ride.granted s = Except.ok s') :
    s'.g = s.g ∧ (∀ p, getStore p s' = getStore p s) ∧
      ∃ d, 0 ≤ d ∧ s'.calendar = insertNotice ⟨s.Time + d, ⟨Kind.Ride, 2, 0⟩⟩ s.calendar := by
  simp only [Ride.granted, hop, if_true] at h
  obtain ⟨r, hU, hW⟩ := (bind_ok _ _ _).1 h
  obtain ⟨y, rest', -, rfl⟩ := (Uniform_ok 10 15 _ _).1 hU
  obtain ⟨hd, rfl⟩ := (Wait_ok _ _ _ _).1 hW
  exact ⟨rfl, fun p => by cases p <;> rfl, _, hd, rfl⟩

theorem Ride_start_free (s : State)
    (hfree : (getStore (ridePool s) s).used < (getStore (ridePool s) s).capacity) :
    Ride.Behavior 0 s = Ride.granted (grant (ridePool s) (Service.ride.addQueueLength 1 s)) := by
  have hE := Enter_free (ridePool (Service.ride.addQueueLength 1 s)) ⟨Kind.Ride, 1, 0⟩
    (Service.ride.addQueueLength 1 s) hfree
  simp only [Service.addQueueLength] at hE
  simp only [Ride.Behavior, hE, bind, Except.bind, if_true]
  rfl

theorem Ride_gate (s : State) :
    (s.g.isOpened = false →
      ((getStore (ridePool s) s).used < (getStore (ridePool s) s).capacity →
        (getStore (ridePool s) s).queue = [] →
        Ride.Behavior 0 s = Except.ok (Service.ride.addQueueLength 1 s)) ∧
      (Ride.Behavior 1 s = Leave (ridePool s) s ∧
        ∀ s', Ride.Behavior 1 s = Except.ok s' →
          Service.ride.queueLength s' = Service.ride.queueLength s ∧
          (getStore (ridePool s) s').used + (getStore (ridePool s) s').queue.length + 1 =
            (getStore (ridePool s) s).used + (getStore (ridePool s) s).queue.length)) ∧
    (s.g.isOpened = true →
      ((getStore (ridePool s) s).used < (getStore (ridePool s) s).capacity →
        ∀ s', Ride.Behavior 0 s = Except.ok s' →
          Service.ride.queueLength s' = Service.ride.queueLength s + 1 ∧
          (getStore (ridePool s) s').used = (getStore (ridePool s) s).used + 1 ∧
          ∃ d, 0 ≤ d ∧
            s'.calendar = insertNotice ⟨s.Time + d, ⟨Kind.Ride, 2, 0⟩⟩ s.calendar) ∧
      (∀ s', Ride.Behavior 1 s = Except.ok s' →
          Service.ride.queueLength s' = Service.ride.queueLength s ∧
          getStore (ridePool s) s' = getStore (ridePool s) s ∧
          ∃ d, 0 ≤ d ∧
            s'.calendar = insertNotice ⟨s.Time + d, ⟨Kind.Ride, 2, 0⟩⟩ s.calendar)) ∧
    Ride.Behavior 4 s = Leave (ridePool s) (Service.ride.addQueueLength (-1) s) := by
  refine ⟨fun hcl => ⟨?_, ?_, ?_⟩, fun hop => ⟨?_, ?_⟩, rfl⟩
  · intro hfree hq
    rw [Ride_start_free s hfree, Ride_granted_closed _ (by rw [grant_g]; exact hcl),
      ridePool_grant]
    exact Leave_grant_back (ridePool s) (Service.ride.addQueueLength 1 s) hq
  · exact Ride_granted_closed s hcl
  · intro s' h
    have h' : Leave (ridePool s) s = Except.ok s' := by
      rw [← Ride_granted_closed s hcl]; exact h
    have hc := Leave_conserve _ _ _ h'
    exact ⟨by simp only [Service.queueLength, hc.1], hc.2⟩
  · intro hfree s' h
    rw [Ride_start_free s hfree] at h
    obtain ⟨hg, hst, d, hd, hcal⟩ := Ride_granted_open _ s' (by rw [grant_g]; exact hop) h
    refine ⟨by simp only [Service.queueLength, hg, grant_g]; rfl, ?_, d, hd, ?_⟩
    · rw [hst]
      cases hP : s.g.PRO <;> simp [ridePool, hP, grant, setStore, getStore, Service.addQueueLength]
    · rw [hcal]
      cases hP : s.g.PRO <;> simp [ridePool, hP, grant, setStore, getStore, Service.addQueueLength]
  · intro s' h
    obtain ⟨hg, hst, d, hd, hcal⟩ := Ride_granted_open s s' hop h
    exact ⟨by simp only [Service.queueLength, hg], hst _, d, hd, hcal⟩

theorem Diagnostics_granted_closed (s : State) (hcl : s.g.isOpened = false) :
    Diagnostics.granted s = Leave (officePool s) s := by
  simp only [Diagnostics.granted, hcl, Bool.false_eq_true, if_false]

theorem Diagnostics_granted_open (s s' : State) (hop : s.g.isOpened = true)
    (h : Diagnostics.granted s = Except.ok s') :
    s'.g = s.g ∧ (∀ p, getStore p s' = getStore p s) ∧
      ∃ d, 0 ≤ d ∧ s'.calendar = insertNotice ⟨s.Time + d, ⟨Kind.Diagnostics, 2, 0⟩⟩ s.calendar := by
  simp only [Diagnostics.granted, hop, if_true] at h
  obtain ⟨r, hU, hW⟩ := (bind_ok _ _ _).1 h
  obtain ⟨y, rest', -, rfl⟩ := (Exponential_ok _ _).1 hU
  obtain ⟨hd, rfl⟩ := (Wait_ok _ _ _ _).1 hW
  exact ⟨rfl, fun p => by cases p <;> rfl, _, hd, rfl⟩

theorem Diagnostics_start_free (s : State)
    (hfree : (getStore (officePool s) s).used < (getStore (officePool s) s).capacity) :
    Diagnostics.Behavior 0 s = Diagnostics.granted (grant (officePool s) (Service.diagnostics.addQueueLength 1 s)) := by
  have hE := Enter_free (officePool (Service.diagnostics.addQueueLength 1 s)) ⟨Kind.Diagnostics, 1, 0⟩
    (Service.diagnostics.addQueueLength 1 s) hfree
  simp only [Service.addQueueLength] at hE
  simp only [Diagnostics.Behavior, hE, bind, Except.bind, if_true]
  rfl

theorem Diagnostics_gate (s : State) :
    (s.g.isOpened = false →
      ((getStore (officePool s) s).used < (getStore (officePool s) s).capacity →
        (getStore (officePool s) s).queue = [] →
        Diagnostics.Behavior 0 s = Except.ok (Service.diagnostics.addQueueLength 1 s)) ∧
      (Diagnostics.Behavior 1 s = Leave (officePool s) s ∧
        ∀ s', Diagnostics.Behavior 1 s = Except.ok s' →
          Service.diagnostics.queueLength s' = Service.diagnostics.queueLength s ∧
          (getStore (officePool s) s').used + (getStore (officePool s) s').queue.length + 1 =
            (getStore (officePool s) s).used + (getStore (officePool s) s).queue.length)) ∧
    (s.g.isOpened = true →
      ((getStore (officePool s) s).used < (getStore (officePool s) s).capacity →
        ∀ s', Diagnostics.Behavior 0 s = Except.ok s' →
          Service.diagnostics.queueLength s' = Service.diagnostics.queueLength s + 1 ∧
          (getStore (officePool s) s').used = (getStore (officePool s) s).used + 1 ∧
          ∃ d, 0 ≤ d ∧
            s'.calendar = insertNotice ⟨s.Time + d, ⟨Kind.Diagnostics, 2, 0⟩⟩ s.calendar) ∧
      (∀ s', Diagnostics.Behavior 1 s = Except.ok s' →
          Service.diagnostics.queueLength s' = Service.diagnostics.queueLength s ∧
          getStore (officePool s) s' = getStore (officePool s) s ∧
          ∃ d, 0 ≤ d ∧
            s'.calendar = insertNotice ⟨s.Time + d, ⟨Kind.Diagnostics, 2, 0⟩⟩ s.calendar)) ∧
    Diagnostics.Behavior 2 s = Leave (officePool s) (Service.diagnostics.addQueueLength (-1) s) := by
  refine ⟨fun hcl => ⟨?_, ?_, ?_⟩, fun hop => ⟨?_, ?_⟩, rfl⟩
  · intro hfree hq
    rw [Diagnostics_start_free s hfree, Diagnostics_granted_closed _ (by rw [grant_g]; exact hcl),
      officePool_grant]
    exact Leave_grant_back (officePool s) (Service.diagnostics.addQueueLength 1 s) hq
  · exact Diagnostics_granted_closed s hcl
  · intro s' h
    have h' : Leave (officePool s) s = Except.ok s' := by
      rw [← Diagnostics_granted_closed s hcl]; exact h
    have hc := Leave_conserve _ _ _ h'
    exact ⟨by simp only [Service.queueLength, hc.1], hc.2⟩
  · intro hfree s' h
    rw [Diagnostics_start_free s hfree] at h
    obtain ⟨hg, hst, d, hd, hcal⟩ := Diagnostics_granted_open _ s' (by rw [grant_g]; exact hop) h
    refine ⟨by simp only [Service.queueLength, hg, grant_g]; rfl, ?_, d, hd, ?_⟩
    · rw [hst]
      cases hP : s.g.PRO <;> simp [officePool, hP, grant, setStore, getStore, Service.addQueueLength]
    · rw [hcal]
      cases hP : s.g.PRO <;> simp [officePool, hP, grant, setStore, getStore, Service.addQueueLength]
  · intro s' h
    obtain ⟨hg, hst, d, hd, hcal⟩ := Diagnostics_granted_open s s' hop h
    exact ⟨by simp only [Service.queueLength, hg], hst _, d, hd, hcal⟩

theorem SWInstall_granted_closed (s : State) (hcl : s.g.isOpened = false) :
    SWInstall.granted s = Leave (officePool s) s := by
  simp only [SWInstall.granted, hcl, Bool.false_eq_true, if_false]

theorem SWInstall_granted_open (s s' : State) (hop : s.g.isOpened = true)
    (h : SWInstall.granted s = Except.ok s') :
    s'.g = s.g ∧ (∀ p, getStore p s' = getStore p s) ∧
      ∃ d, 0 ≤ d ∧ s'.calendar = insertNotice ⟨s.Time + d, ⟨Kind.SWInstall, 2, 1⟩⟩ s.calendar := by
  simp only [SWInstall.granted, hop, if_true] at h
  obtain ⟨r, hU, hW⟩ := (bind_ok _ _ _).1 h
  obtain ⟨y, rest', -, rfl⟩ := (Uniform_ok 10 20 _ _).1 hU
  obtain ⟨hd, rfl⟩ := (Wait_ok _ _ _ _).1 hW
  exact ⟨rfl, fun p => by cases p <;> rfl, _, hd, rfl⟩

theorem SWInstall_start_free (s : State)
    (hfree : (getStore (officePool s) s).used < (getStore (officePool s) s).capacity) :
    SWInstall.Behavior 0 s = SWInstall.granted (grant (officePool s) (Service.swInstall.addQueueLength 1 s)) := by
  have hE := Enter_free (officePool (Service.swInstall.addQueueLength 1 s)) ⟨Kind.SWInstall, 1, 1⟩
    (Service.swInstall.addQueueLength 1 s) hfree
  simp only [Service.addQueueLength] at hE
  simp only [SWInstall.Behavior, hE, bind, Except.bind, if_true]
  rfl

theorem SWInstall_gate (s : State) :
    (s.g.isOpened = false →
      ((getStore (officePool s) s).used < (getStore (officePool s) s).capacity →
        (getStore (officePool s) s).queue = [] →
        SWInstall.Behavior 0 s = Except.ok (Service.swInstall.addQueueLength 1 s)) ∧
      (SWInstall.Behavior 1 s = Leave (officePool s) s ∧
        ∀ s', SWInstall.Behavior 1 s = Except.ok s' →
          Service.swInstall.queueLength s' = Service.swInstall.queueLength s ∧
          (getStore (officePool s) s').used + (getStore (officePool s) s').queue.length + 1 =
            (getStore (officePool s) s).used + (getStore (officePool s) s).queue.length)) ∧
    (s.g.isOpened = true →
      ((getStore (officePool s) s).used < (getStore (officePool s) s).capacity →
        ∀ s', SWInstall.Behavior 0 s = Except.ok s' →
          Service.swInstall.queueLength s' = Service.swInstall.queueLength s + 1 ∧
          (getStore (officePool s) s').used = (getStore (officePool s) s).used + 1 ∧
          ∃ d, 0 ≤ d ∧
            s'.calendar = insertNotice ⟨s.Time + d, ⟨Kind.SWInstall, 2, 1⟩⟩ s.calendar) ∧
      (∀ s', SWInstall.Behavior 1 s = Except.ok s' →
          Service.swInstall.queueLength s' = Service.swInstall.queueLength s ∧
          getStore (officePool s) s' = getStore (officePool s) s ∧
          ∃ d, 0 ≤ d ∧
            s'.calendar = insertNotice ⟨s.Time + d, ⟨Kind.SWInstall, 2, 1⟩⟩ s.calendar)) ∧
    SWInstall.Behavior 2 s = Leave (officePool s) (Service.swInstall.addQueueLength (-1) s) := by
  refine ⟨fun hcl => ⟨?_, ?_, ?_⟩, fun hop => ⟨?_, ?_⟩, rfl⟩
  · intro hfree hq
    rw [SWInstall_start_free s hfree, SWInstall_granted_closed _ (by rw [grant_g]; exact hcl),
      officePool_grant]
    exact Leave_grant_back (officePool s) (Service.swInstall.addQueueLength 1 s) hq
  · exact SWInstall_granted_closed s hcl
  · intro s' h
    have h' : Leave (officePool s) s = Except.ok s' := by
      rw [← SWInstall_granted_closed s hcl]; exact h
    have hc := Leave_conserve _ _ _ h'
    exact ⟨by simp only [Service.queueLength, hc.1], hc.2⟩
  · intro hfree s' h
    rw [SWInstall_start_free s hfree] at h
    obtain ⟨hg, hst, d, hd, hcal⟩ := SWInstall_granted_open _ s' (by rw [grant_g]; exact hop) h
    refine ⟨by simp only [Service.queueLength, hg, grant_g]; rfl, ?_, d, hd, ?_⟩
    · rw [hst]
      cases hP : s.g.PRO <;> simp [officePool, hP, grant, setStore, getStore, Service.addQueueLength]
    · rw [hcal]
      cases hP : s.g.PRO <;> simp [officePool, hP, grant, setStore, getStore, Service.addQueueLength]
  · intro s' h
    obtain ⟨hg, hst, d, hd, hcal⟩ := SWInstall_granted_open s s' hop h
    exact ⟨by simp only [Service.queueLength, hg], hst _, d, hd, hcal⟩

theorem Ride_hold (pc : Nat) (hlo : 1 < pc) (hhi : pc < 4) (s s' : State)
    (h : Ride.Behavior pc s = Except.ok s') :
    s'.g = s.g ∧ (∀ p, getStore p s' = getStore p s) ∧
      ∃ d, 0 ≤ d ∧
        s'.calendar = insertNotice ⟨s.Time + d, ⟨Kind.Ride, pc + 1, 0⟩⟩ s.calendar := by
  have hpc : pc = 2 ∨ pc = 3 := by omega
  rcases hpc with rfl | rfl
  · simp only [Ride.Behavior] at h
    obtain ⟨r, hU, hW⟩ := (bind_ok _ _ _).1 h
    obtain ⟨y, rest', -, rfl⟩ := (Exponential_ok _ _).1 hU
    obtain ⟨hd, rfl⟩ := (Wait_ok _ _ _ _).1 hW
    exact ⟨rfl, fun p => by cases p <;> rfl, _, hd, rfl⟩
  · simp only [Ride.Behavior] at h
    obtain ⟨r, hU, hW⟩ := (bind_ok _ _ _).1 h
    obtain ⟨y, rest', -, rfl⟩ := (Uniform_ok 10 15 _ _).1 hU
    obtain ⟨hd, rfl⟩ := (Wait_ok _ _ _ _).1 hW
    exact ⟨rfl, fun p => by cases p <;> rfl, _, hd, rfl⟩

theorem uniformSample_bounds (lo hi x : ℚ) (h : lo < hi) :
    lo ≤ uniformSample lo hi x ∧ uniformSample lo hi x < hi := by
  unfold uniformSample
  split
  · rename_i hx; exact hx
  · exact ⟨le_refl _, h⟩

theorem exponentialSample_nonneg (x : ℚ) : 0 ≤ exponentialSample x := by
  unfold exponentialSample
  split
  · assumption
  · exact le_refl _

theorem Service_hold_nonneg (v : Service) (pc : Nat) (y : ℚ) : 0 ≤ v.hold pc y := by
  cases v
  · simp only [Service.hold]
    split
    · exact exponentialSample_nonneg y
    · have := (uniformSample_bounds 10 15 y (by norm_num)).1
      linarith
  · exact exponentialSample_nonneg y
  · have := (uniformSample_bounds 10 20 y (by norm_num)).1
    simp only [Service.hold]
    linarith

theorem Enter_full (p : Pool) (e : Entity) (s : State)
    (h1 : 1 ≤ (getStore p s).capacity)
    (hfull : (getStore p s).capacity ≤ (getStore p s).used) :
    Enter p e s = Except.ok (false, enqueue p e s) :=
  (Enter_ok p e s _).2 (Or.inr ⟨rfl, h1, hfull⟩)

theorem Enter_none (p : Pool) (e : Entity) (s : State) (h0 : (getStore p s).capacity < 1) :
    Enter p e s = Except.error Err.enterCapError := by
  unfold Enter
  rw [if_pos h0]

theorem grant_frame (p : Pool) (s : State) :
    (grant p s).Time = s.Time ∧ (grant p s).calendar = s.calendar ∧
      (grant p s).rng = s.rng := by
  cases p <;> exact ⟨rfl, rfl, rfl⟩

theorem release_frame (p : Pool) (s : State) :
    (release p s).Time = s.Time ∧ (release p s).calendar = s.calendar ∧
      getStore p (release p s) = { getStore p s with used := (getStore p s).used - 1 } := by
  cases p <;> exact ⟨rfl, rfl, rfl⟩

theorem raise_frame (p : Pool) (s : State) :
    (raise p s).Time = s.Time ∧ (raise p s).calendar = s.calendar ∧
      getStore p (raise p s) =
        { getStore p s with capacity := (getStore p s).capacity + 1 } := by
  cases p <;> exact ⟨rfl, rfl, rfl⟩

theorem serveLine_eq (cap : Nat) (t : ℚ) :
    ∀ (q : List Entity) (u : Nat) (cal : List Notice),
      serveLine cap t q u cal =
        (q.drop (servable cap u q), u + servable cap u q,
          activateAll t (q.take (servable cap u q)) cal) := by
  intro q
  induction q with
  | nil => intro u cal; simp [serveLine, servable, activateAll]
  | cons e q ih =>
    intro u cal
    simp only [serveLine]
    split
    · rename_i h
      have hk : servable cap u (e :: q) = servable cap (u + 1) q + 1 := by
        simp only [servable, List.length_cons]
        omega
      rw [ih, hk]
      simp only [List.drop_succ_cons, List.take_succ_cons, activateAll, List.foldl_cons,
        Prod.mk.injEq, and_true, true_and]
      omega
    · rename_i h
      have hk : servable cap u (e :: q) = 0 := by
        simp only [servable, List.length_cons]
        omega
      rw [hk]
      simp [activateAll]

theorem serveWaiting_serves (p : Pool) (s : State) :
    getStore p (serveWaiting p s) =
        ⟨(getStore p s).capacity,
          (getStore p s).used +
            servable (getStore p s).capacity (getStore p s).used (getStore p s).queue,
          (getStore p s).queue.drop
            (servable (getStore p s).capacity (getStore p s).used (getStore p s).queue)⟩ ∧
      (serveWaiting p s).calendar =
        activateAll s.Time
          ((getStore p s).queue.take
            (servable (getStore p s).capacity (getStore p s).used (getStore p s).queue))
          s.calendar := by
  cases p <;> simp [serveWaiting, getStore, setStore, serveLine_eq]

theorem Leave_serves (p : Pool) (s s' : State) (h : Leave p s = Except.ok s') :
    ∃ k, k = servable (getStore p s).capacity ((getStore p s).used - 1) (getStore p s).queue ∧
      (getStore p s').queue = (getStore p s).queue.drop k ∧
      (getStore p s').used + 1 = (getStore p s).used + k ∧
      s'.calendar = activateAll s.Time ((getStore p s).queue.take k) s.calendar := by
  obtain ⟨hu, rfl⟩ := (Leave_ok p s s').1 h
  obtain ⟨h1, h2⟩ := serveWaiting_serves p (release p s)
  obtain ⟨hT, hC, hS⟩ := release_frame p s
  rw [hS] at h1 h2
  rw [hT, hC] at h2
  refine ⟨_, rfl, ?_, ?_, h2⟩
  · rw [h1]
  · rw [h1]
    simp only
    omega

theorem SetCapacityInc_serves (p : Pool) (s : State) :
    ∃ k, k = servable ((getStore p s).capacity + 1) (getStore p s).used (getStore p s).queue ∧
      (getStore p (SetCapacityInc p s)).queue = (getStore p s).queue.drop k ∧
      (getStore p (SetCapacityInc p s)).used = (getStore p s).used + k ∧
      (SetCapacityInc p s).calendar =
        activateAll s.Time ((getStore p s).queue.take k) s.calendar := by
  obtain ⟨h1, h2⟩ := serveWaiting_serves p (raise p s)
  obtain ⟨hT, hC, hS⟩ := raise_frame p s
  rw [hS] at h1 h2
  rw [hT, hC] at h2
  refine ⟨_, rfl, ?_, ?_, h2⟩
  · unfold SetCapacityInc
    rw [h1]
  · unfold SetCapacityInc
    rw [h1]

theorem Ride_start_full (s : State)
    (h1 : 1 ≤ (getStore (ridePool s) s).capacity)
    (hfull : (getStore (ridePool s) s).capacity ≤ (getStore (ridePool s) s).used) :
    Ride.Behavior 0 s =
      Except.ok (enqueue (ridePool s) ⟨Kind.Ride, 1, 0⟩ (Service.ride.addQueueLength 1 s)) := by
  have hE := Enter_full (ridePool (Service.ride.addQueueLength 1 s)) ⟨Kind.Ride, 1, 0⟩
    (Service.ride.addQueueLength 1 s) h1 hfull
  simp only [Service.addQueueLength] at hE
  simp only [Ride.Behavior, hE, bind, Except.bind, Bool.false_eq_true, if_false]
  rfl

theorem Ride_start_none (s : State) (h0 : (getStore (ridePool s) s).capacity < 1) :
    Ride.Behavior 0 s = Except.error Err.enterCapError := by
  have hE := Enter_none (ridePool (Service.ride.addQueueLength 1 s)) ⟨Kind.Ride, 1, 0⟩
    (Service.ride.addQueueLength 1 s) h0
  simp only [Service.addQueueLength] at hE
  simp only [Ride.Behavior, hE, bind, Except.bind]

theorem Ride_granted_exact (s : State) (hop : s.g.isOpened = true) (y : ℚ) (rng' : List ℚ)
    (hr : s.rng = y :: rng') :
    Ride.granted s =
      Except.ok { s with rng := rng'
                         calendar := insertNotice
                           ⟨s.Time + Service.ride.hold 1 y, ⟨Kind.Ride, 2, 0⟩⟩ s.calendar } := by
  have hU : Uniform 10 15 s = Except.ok (uniformSample 10 15 y, { s with rng := rng' }) :=
    (Uniform_ok 10 15 s _).2 ⟨y, rng', hr, rfl⟩
  simp only [Ride.granted, hop, if_true, hU, bind, Except.bind]
  exact (Wait_ok _ _ _ _).2 ⟨Service_hold_nonneg Service.ride 1 y, rfl⟩

theorem Ride_start_exact (s : State) (hop : s.g.isOpened = true)
    (hfree : (getStore (ridePool s) s).used < (getStore (ridePool s) s).capacity)
    (y : ℚ) (rng' : List ℚ) (hr : s.rng = y :: rng') :
    Ride.Behavior 0 s =
      Except.ok { grant (ridePool s) (Service.ride.addQueueLength 1 s) with
        rng := rng'
        calendar := insertNotice
          ⟨s.Time + Service.ride.hold 1 y, ⟨Kind.Ride, 2, 0⟩⟩ s.calendar } := by
  obtain ⟨hT, hC, hR⟩ := grant_frame (ridePool s) (Service.ride.addQueueLength 1 s)
  rw [Ride_start_free s hfree, Ride_granted_exact _ (by rw [grant_g]; exact hop) y rng'
    (by rw [hR]; exact hr)]
  simp only [hT, hC]
  rfl

theorem Diagnostics_start_full (s : State)
    (h1 : 1 ≤ (getStore (officePool s) s).capacity)
    (hfull : (getStore (officePool s) s).capacity ≤ (getStore (officePool s) s).used) :
    Diagnostics.Behavior 0 s =
      Except.ok (enqueue (officePool s) ⟨Kind.Diagnostics, 1, 0⟩ (Service.diagnostics.addQueueLength 1 s)) := by
  have hE := Enter_full (officePool (Service.diagnostics.addQueueLength 1 s)) ⟨Kind.Diagnostics, 1, 0⟩
    (Service.diagnostics.addQueueLength 1 s) h1 hfull
  simp only [Service.addQueueLength] at hE
  simp only [Diagnostics.Behavior, hE, bind, Except.bind, Bool.false_eq_true, if_false]
  rfl

theorem Diagnostics_start_none (s : State) (h0 : (getStore (officePool s) s).capacity < 1) :
    Diagnostics.Behavior 0 s = Except.error Err.enterCapError := by
  have hE := Enter_none (officePool (Service.diagnostics.addQueueLength 1 s)) ⟨Kind.Diagnostics, 1, 0⟩
    (Service.diagnostics.addQueueLength 1 s) h0
  simp only [Service.addQueueLength] at hE
  simp only [Diagnostics.Behavior, hE, bind, Except.bind]

theorem Diagnostics_granted_exact (s : State) (hop : s.g.isOpened = true) (y : ℚ) (rng' : List ℚ)
    (hr : s.rng = y :: rng') :
    Diagnostics.granted s =
      Except.ok { s with rng := rng'
                         calendar := insertNotice
                           ⟨s.Time + Service.diagnostics.hold 1 y, ⟨Kind.Diagnostics, 2, 0⟩⟩ s.calendar } := by
  have hU : Exponential s = Except.ok (exponentialSample y, { s with rng := rng' }) :=
    (Exponential_ok s _).2 ⟨y, rng', hr, rfl⟩
  simp only [Diagnostics.granted, hop, if_true, hU, bind, Except.bind]
  exact (Wait_ok _ _ _ _).2 ⟨Service_hold_nonneg Service.diagnostics 1 y, rfl⟩

theorem Diagnostics_start_exact (s : State) (hop : s.g.isOpened = true)
    (hfree : (getStore (officePool s) s).used < (getStore (officePool s) s).capacity)
    (y : ℚ) (rng' : List ℚ) (hr : s.rng = y :: rng') :
    Diagnostics.Behavior 0 s =
      Except.ok { grant (officePool s) (Service.diagnostics.addQueueLength 1 s) with
        rng := rng'
        calendar := insertNotice
          ⟨s.Time + Service.diagnostics.hold 1 y, ⟨Kind.Diagnostics, 2, 0⟩⟩ s.calendar } := by
  obtain ⟨hT, hC, hR⟩ := grant_frame (officePool s) (Service.diagnostics.addQueueLength 1 s)
  rw [Diagnostics_start_free s hfree, Diagnostics_granted_exact _ (by rw [grant_g]; exact hop) y rng'
    (by rw [hR]; exact hr)]
  simp only [hT, hC]
  rfl

theorem SWInstall_start_full (s : State)
    (h1 : 1 ≤ (getStore (officePool s) s).capacity)
    (hfull : (getStore (officePool s) s).capacity ≤ (getStore (officePool s) s).used) :
    SWInstall.Behavior 0 s =
      Except.ok (enqueue (officePool s) ⟨Kind.SWInstall, 1, 1⟩ (Service.swInstall.addQueueLength 1 s)) := by
  have hE := Enter_full (officePool (Service.swInstall.addQueueLength 1 s)) ⟨Kind.SWInstall, 1, 1⟩
    (Service.swInstall.addQueueLength 1 s) h1 hfull
  simp only [Service.addQueueLength] at hE
  simp only [SWInstall.Behavior, hE, bind, Except.bind, Bool.false_eq_true, if_false]
  rfl

theorem SWInstall_start_none (s : State) (h0 : (getStore (officePool s) s).capacity < 1) :
    SWInstall.Behavior 0 s = Except.error Err.enterCapError := by
  have hE := Enter_none (officePool (Service.swInstall.addQueueLength 1 s)) ⟨Kind.SWInstall, 1, 1⟩
    (Service.swInstall.addQueueLength 1 s) h0
  simp only [Service.addQueueLength] at hE
  simp only [SWInstall.Behavior, hE, bind, Except.bind]

theorem SWInstall_granted_exact (s : State) (hop : s.g.isOpened = true) (y : ℚ) (rng' : List ℚ)
    (hr : s.rng = y :: rng') :
    SWInstall.granted s =
      Except.ok { s with rng := rng'
                         calendar := insertNotice
                           ⟨s.Time + Service.swInstall.hold 1 y, ⟨Kind.SWInstall, 2, 1⟩⟩ s.calendar } := by
  have hU : Uniform 10 20 s = Except.ok (uniformSample 10 20 y, { s with rng := rng' }) :=
    (Uniform_ok 10 20 s _).2 ⟨y, rng', hr, rfl⟩
  simp only [SWInstall.granted, hop, if_true, hU, bind, Except.bind]
  exact (Wait_ok _ _ _ _).2 ⟨Service_hold_nonneg Service.swInstall 1 y, rfl⟩

theorem SWInstall_start_exact (s : State) (hop : s.g.isOpened = true)
    (hfree : (getStore (officePool s) s).used < (getStore (officePool s) s).capacity)
    (y : ℚ) (rng' : List ℚ) (hr : s.rng = y :: rng') :
    SWInstall.Behavior 0 s =
      Except.ok { grant (officePool s) (Service.swInstall.addQueueLength 1 s) with
        rng := rng'
        calendar := insertNotice
          ⟨s.Time + Service.swInstall.hold 1 y, ⟨Kind.SWInstall, 2, 1⟩⟩ s.calendar } := by
  obtain ⟨hT, hC, hR⟩ := grant_frame (officePool s) (Service.swInstall.addQueueLength 1 s)
  rw [SWInstall_start_free s hfree, SWInstall_granted_exact _ (by rw [grant_g]; exact hop) y rng'
    (by rw [hR]; exact hr)]
  simp only [hT, hC]
  rfl

theorem Ride_hold_exact (pc : Nat) (hlo : 1 < pc) (hhi : pc < 4) (s : State) (y : ℚ)
    (rng' : List ℚ) (hr : s.rng = y :: rng') :
    Ride.Behavior pc s =
      Except.ok { s with rng := rng'
                         calendar := insertNotice
                           ⟨s.Time + Service.ride.hold pc y, ⟨Kind.Ride, pc + 1, 0⟩⟩
                           s.calendar } := by
  have hpc : pc = 2 ∨ pc = 3 := by omega
  rcases hpc with rfl | rfl
  · have hU : Exponential s = Except.ok (exponentialSample y, { s with rng := rng' }) :=
      (Exponential_ok s _).2 ⟨y, rng', hr, rfl⟩
    simp only [Ride.Behavior, hU, bind, Except.bind]
    exact (Wait_ok _ _ _ _).2 ⟨Service_hold_nonneg Service.ride 2 y, rfl⟩
  · have hU : Uniform 10 15 s = Except.ok (uniformSample 10 15 y, { s with rng := rng' }) :=
      (Uniform_ok 10 15 s _).2 ⟨y, rng', hr, rfl⟩
    simp only [Ride.Behavior, hU, bind, Except.bind]
    exact (Wait_ok _ _ _ _).2 ⟨Service_hold_nonneg Service.ride 3 y, rfl⟩


/-! ### Once closed, the desk stays closed -/

theorem Wait_closed (d : ℚ) (e : Entity) (s s' : State) (h : Wait d e s = Except.ok s')
    (hc : s.g.isOpened = false) : s'.g.isOpened = false := by
  obtain ⟨-, rfl⟩ := (Wait_ok d e s s').1 h
  exact hc

theorem Enter_closed (p : Pool) (e : Entity) (s : State) (r : Bool × State)
    (h : Enter p e s = Except.ok r) (hc : s.g.isOpened = false) : r.2.g.isOpened = false := by
  rcases (Enter_ok p e s r).1 h with ⟨rfl, -⟩ | ⟨rfl, -, -⟩
  · simp only [grant_g]; exact hc
  · simp only [enqueue_g]; exact hc

theorem Leave_closed (p : Pool) (s s' : State) (h : Leave p s = Except.ok s')
    (hc : s.g.isOpened = false) : s'.g.isOpened = false := by
  obtain ⟨-, rfl⟩ := (Leave_ok p s s').1 h
  rw [serveWaiting_g, release_g]
  exact hc

theorem Uniform_closed (lo hi : ℚ) (s : State) (r : ℚ × State)
    (h : Uniform lo hi s = Except.ok r) (hc : s.g.isOpened = false) :
    r.2.g.isOpened = false := by
  obtain ⟨x, rest, -, rfl⟩ := (Uniform_ok lo hi s r).1 h
  exact hc

theorem Exponential_closed (s : State) (r : ℚ × State)
    (h : Exponential s = Except.ok r) (hc : s.g.isOpened = false) :
    r.2.g.isOpened = false := by
  obtain ⟨x, rest, -, rfl⟩ := (Exponential_ok s r).1 h
  exact hc

theorem SetCapacityInc_closed (p : Pool) (s : State) (hc : s.g.isOpened = false) :
    (SetCapacityInc p s).g.isOpened = false := by
  unfold SetCapacityInc
  rw [serveWaiting_g, raise_g]
  exact hc

theorem Ride_granted_stays (s s' : State) (h : Ride.granted s = Except.ok s')
    (hc : s.g.isOpened = false) : s'.g.isOpened = false := by
  unfold Ride.granted at h
  split at h
  · obtain ⟨r, hU, hW⟩ := (bind_ok _ _ _).1 h
    exact Wait_closed _ _ _ _ hW (Uniform_closed _ _ _ _ hU hc)
  · exact Leave_closed _ _ _ h hc

theorem Diagnostics_granted_stays (s s' : State) (h : Diagnostics.granted s = Except.ok s')
    (hc : s.g.isOpened = false) : s'.g.isOpened = false := by
  unfold Diagnostics.granted at h
  split at h
  · obtain ⟨r, hU, hW⟩ := (bind_ok _ _ _).1 h
    exact Wait_closed _ _ _ _ hW (Exponential_closed _ _ hU hc)
  · exact Leave_closed _ _ _ h hc

theorem SWInstall_granted_stays (s s' : State) (h : SWInstall.granted s = Except.ok s')
    (hc : s.g.isOpened = false) : s'.g.isOpened = false := by
  unfold SWInstall.granted at h
  split at h
  · obtain ⟨r, hU, hW⟩ := (bind_ok _ _ _).1 h
    exact Wait_closed _ _ _ _ hW (Uniform_closed _ _ _ _ hU hc)
  · exact Leave_closed _ _ _ h hc

theorem Ride_stays (pc : Nat) (s s' : State) (h : Ride.Behavior pc s = Except.ok s')
    (hc : s.g.isOpened = false) : s'.g.isOpened = false := by
  rcases pc with _ | _ | _ | _ | _ | pc
  · simp only [Ride.Behavior] at h
    obtain ⟨r, hE, hk⟩ := (bind_ok _ _ _).1 h
    have h1 := Enter_closed _ _ _ _ hE hc
    cases hr : r.1
    · simp only [hr, Bool.false_eq_true, if_false] at hk
      obtain rfl := (pure_ok _ _).1 hk
      exact h1
    · simp only [hr, if_true] at hk
      exact Ride_granted_stays _ _ hk h1
  · exact Ride_granted_stays s s' h hc
  · simp only [Ride.Behavior] at h
    obtain ⟨r, hU, hW⟩ := (bind_ok _ _ _).1 h
    exact Wait_closed _ _ _ _ hW (Exponential_closed _ _ hU hc)
  · simp only [Ride.Behavior] at h
    obtain ⟨r, hU, hW⟩ := (bind_ok _ _ _).1 h
    exact Wait_closed _ _ _ _ hW (Uniform_closed _ _ _ _ hU hc)
  · simp only [Ride.Behavior] at h
    exact Leave_closed _ _ _ h hc
  · simp [Ride.Behavior] at h

theorem Diagnostics_stays (pc : Nat) (s s' : State) (h : Diagnostics.Behavior pc s = Except.ok s')
    (hc : s.g.isOpened = false) : s'.g.isOpened = false := by
  rcases pc with _ | _ | _ | pc
  · simp only [Diagnostics.Behavior] at h
    obtain ⟨r, hE, hk⟩ := (bind_ok _ _ _).1 h
    have h1 := Enter_closed _ _ _ _ hE hc
    cases hr : r.1
    · simp only [hr, Bool.false_eq_true, if_false] at hk
      obtain rfl := (pure_ok _ _).1 hk
      exact h1
    · simp only [hr, if_true] at hk
      exact Diagnostics_granted_stays _ _ hk h1
  · exact Diagnostics_granted_stays s s' h hc
  · simp only [Diagnostics.Behavior] at h
    exact Leave_closed _ _ _ h hc
  · simp [Diagnostics.Behavior] at h

theorem SWInstall_stays (pc : Nat) (s s' : State) (h : SWInstall.Behavior pc s = Except.ok s')
    (hc : s.g.isOpened = false) : s'.g.isOpened = false := by
  rcases pc with _ | _ | _ | pc
  · simp only [SWInstall.Behavior] at h
    obtain ⟨r, hE, hk⟩ := (bind_ok _ _ _).1 h
    have h1 := Enter_closed _ _ _ _ hE hc
    cases hr : r.1
    · simp only [hr, Bool.false_eq_true, if_false] at hk
      obtain rfl := (pure_ok _ _).1 hk
      exact h1
    · simp only [hr, if_true] at hk
      exact SWInstall_granted_stays _ _ hk h1
  · exact SWInstall_granted_stays s s' h hc
  · simp only [SWInstall.Behavior] at h
    exact Leave_closed _ _ _ h hc
  · simp [SWInstall.Behavior] at h

theorem NetworkDeployment_stays (pc : Nat) (s s' : State) (h : NetworkDeployment.Behavior pc s = Except.ok s')
    (hc : s.g.isOpened = false) : s'.g.isOpened = false := by
  rcases pc with _ | _ | _ | _ | pc
  · simp only [NetworkDeployment.Behavior] at h
    obtain ⟨r, hE, hk⟩ := (bind_ok _ _ _).1 h
    have h1 := Enter_closed _ _ _ _ hE hc
    cases hr : r.1
    · simp only [hr, Bool.false_eq_true, if_false] at hk
      obtain rfl := (pure_ok _ _).1 hk
      exact h1
    · simp only [hr, if_true] at hk
      exact Wait_closed _ _ _ _ hk h1
  · exact Wait_closed _ _ _ _ h hc
  · simp only [NetworkDeployment.Behavior] at h
    exact Wait_closed _ _ _ _ h (SetCapacityInc_closed _ s hc)
  · simp only [NetworkDeployment.Behavior] at h
    exact Leave_closed _ _ _ h hc
  · simp [NetworkDeployment.Behavior] at h

theorem RideRequest_stays (pc : Nat) (s s' : State) (h : RideRequest.Behavior pc s = Except.ok s')
    (hc : s.g.isOpened = false) : s'.g.isOpened = false := by
  rcases pc with _ | _ | _ | pc
  · simp only [RideRequest.Behavior] at h
    obtain ⟨r, hE, hk⟩ := (bind_ok _ _ _).1 h
    have h1 := Enter_closed _ _ _ _ hE hc
    cases hr : r.1
    · simp only [hr, Bool.false_eq_true, if_false] at hk
      obtain rfl := (pure_ok _ _).1 hk
      exact h1
    · simp only [hr, if_true] at hk
      exact Wait_closed _ _ _ _ hk h1
  · exact Wait_closed _ _ _ _ h hc
  · simp only [RideRequest.Behavior] at h
    obtain ⟨s1, hL, hk⟩ := (bind_ok _ _ _).1 h
    obtain ⟨r, hU, hk⟩ := (bind_ok _ _ _).1 hk
    have h2 := Uniform_closed _ _ _ _ hU (Leave_closed _ _ _ hL hc)
    split at hk
    · obtain rfl := (pure_ok _ _).1 hk
      exact h2
    · obtain rfl := (pure_ok _ _).1 hk
      exact h2
  · simp [RideRequest.Behavior] at h

theorem DiagnosticsRequest_stays (pc : Nat) (s s' : State) (h : DiagnosticsRequest.Behavior pc s = Except.ok s')
    (hc : s.g.isOpened = false) : s'.g.isOpened = false := by
  rcases pc with _ | _ | _ | pc
  · simp only [DiagnosticsRequest.Behavior] at h
    obtain ⟨r, hE, hk⟩ := (bind_ok _ _ _).1 h
    have h1 := Enter_closed _ _ _ _ hE hc
    cases hr : r.1
    · simp only [hr, Bool.false_eq_true, if_false] at hk
      obtain rfl := (pure_ok _ _).1 hk
      exact h1
    · simp only [hr, if_true] at hk
      exact Wait_closed _ _ _ _ hk h1
  · exact Wait_closed _ _ _ _ h hc
  · simp only [DiagnosticsRequest.Behavior] at h
    obtain ⟨s1, hL, hk⟩ := (bind_ok _ _ _).1 h
    obtain rfl := (pure_ok _ _).1 hk
    have h2 : s1.g.isOpened = false := Leave_closed _ _ s1 hL hc
    exact h2
  · simp [DiagnosticsRequest.Behavior] at h

theorem SWInstallRequest_stays (pc : Nat) (s s' : State) (h : SWInstallRequest.Behavior pc s = Except.ok s')
    (hc : s.g.isOpened = false) : s'.g.isOpened = false := by
  rcases pc with _ | _ | _ | pc
  · simp only [SWInstallRequest.Behavior] at h
    obtain ⟨r, hE, hk⟩ := (bind_ok _ _ _).1 h
    have h1 := Enter_closed _ _ _ _ hE hc
    cases hr : r.1
    · simp only [hr, Bool.false_eq_true, if_false] at hk
      obtain rfl := (pure_ok _ _).1 hk
      exact h1
    · simp only [hr, if_true] at hk
      exact Wait_closed _ _ _ _ hk h1
  · exact Wait_closed _ _ _ _ h hc
  · simp only [SWInstallRequest.Behavior] at h
    obtain ⟨s1, hL, hk⟩ := (bind_ok _ _ _).1 h
    obtain rfl := (pure_ok _ _).1 hk
    have h2 : s1.g.isOpened = false := Leave_closed _ _ s1 hL hc
    exact h2
  · simp [SWInstallRequest.Behavior] at h

theorem RideRequestGenerator_stays (s s' : State) (h : RideRequestGenerator.Behavior s = Except.ok s')
    (hc : s.g.isOpened = false) : s'.g.isOpened = false := by
  unfold RideRequestGenerator.Behavior at h
  split at h
  · rename_i hg
    simp [rideGate, hc] at hg
  · obtain rfl := (pure_ok _ _).1 h
    exact hc

theorem DiagnosticsRequestGenerator_stays (s s' : State) (h : DiagnosticsRequestGenerator.Behavior s = Except.ok s')
    (hc : s.g.isOpened = false) : s'.g.isOpened = false := by
  unfold DiagnosticsRequestGenerator.Behavior at h
  split at h
  · rename_i hg
    simp [diagnosticsGate, hc] at hg
  · obtain rfl := (pure_ok _ _).1 h
    exact hc

theorem SWInstallRequestGenerator_stays (s s' : State) (h : SWInstallRequestGenerator.Behavior s = Except.ok s')
    (hc : s.g.isOpened = false) : s'.g.isOpened = false := by
  unfold SWInstallRequestGenerator.Behavior at h
  split at h
  · rename_i hg
    simp [swInstallGate, hc] at hg
  · obtain rfl := (pure_ok _ _).1 h
    exact hc

theorem exec_closed (e : Entity) (s s' : State) (h : exec e s = Except.ok s')
    (hc : s.g.isOpened = false) : s'.g.isOpened = false := by
  obtain ⟨k, pc, pr⟩ := e
  cases k <;> simp only [exec] at h
  · exact RideRequestGenerator_stays s s' h hc
  · exact DiagnosticsRequestGenerator_stays s s' h hc
  · exact SWInstallRequestGenerator_stays s s' h hc
  · obtain rfl := (pure_ok _ _).1 h
    rfl
  · obtain rfl := (pure_ok _ _).1 h
    exact hc
  · exact NetworkDeployment_stays pc s s' h hc
  · exact Ride_stays pc s s' h hc
  · exact Diagnostics_stays pc s s' h hc
  · exact SWInstall_stays pc s s' h hc
  · exact RideRequest_stays pc s s' h hc
  · exact DiagnosticsRequest_stays pc s s' h hc
  · exact SWInstallRequest_stays pc s s' h hc

theorem step_closed (s s' : State) (h : step s = Except.ok s')
    (hc : s.g.isOpened = false) : s'.g.isOpened = false := by
  unfold step at h
  split at h
  · obtain rfl := (pure_ok _ _).1 h
    exact hc
  · exact exec_closed _ _ s' h hc

theorem Run_closed (fuel : Nat) :
    ∀ (s s' : State), Run fuel s = Except.ok s' → s.g.isOpened = false →
      s'.g.isOpened = false := by
  induction fuel with
  | zero =>
    intro s s' h hc
    obtain rfl := (pure_ok _ _).1 h
    exact hc
  | succ k ih =>
    intro s s' h hc
    simp only [Run] at h
    split at h
    · obtain rfl := (pure_ok _ _).1 h
      exact hc
    · obtain ⟨s1, h1, h2⟩ := (bind_ok _ _ _).1 h
      exact ih s1 s' h2 (step_closed s s1 h1 hc)

theorem Service_hold_bounds (v : Service) :
    (∀ pc y, 0 ≤ v.hold pc y) ∧
    (v = Service.swInstall → ∀ pc y, 10 ≤ v.hold pc y ∧ v.hold pc y < 20) ∧
    (v = Service.ride → ∀ pc y, pc ≠ 2 → 10 ≤ v.hold pc y ∧ v.hold pc y < 15) := by
  refine ⟨Service_hold_nonneg v, ?_, ?_⟩
  · rintro rfl pc y
    exact uniformSample_bounds 10 20 y (by norm_num)
  · rintro rfl pc y hpc
    simp only [Service.hold, hpc, if_false]
    exact uniformSample_bounds 10 15 y (by norm_num)

/-- C8. Shift gate on the service tasks. In a reachable state, let the
scheduler run a `Ride`, `Diagnostics` or `SWInstall` that is first in the
calendar.

With the desk closed: a task that starts and finds a unit free ends in the same
turn, the state being unchanged except for its queue-length counter, which is
one higher; a task resumed behind `Enter` does nothing but `Leave`, so its
counter stays as it is and one unit goes back to the same store. With the desk
open the task keeps its unit and is put in the calendar for its hold; between
two holds it changes neither counter nor store. At its last resume point the
task decrements the counter and then leaves.

A task that starts and finds every unit of its store in use ends the turn in
the wait-line of that store, recorded with resume point 1, its counter one
higher and no unit taken; with a store of capacity zero the run stops with the
capacity error. Every waiter in every line is recorded with resume point 1, and
`Leave` and the capacity increase serve a line by handing one unit to each of
its first waiters, as many as units are free, and activating each of them, as
recorded, at the current time. Once the desk is closed it stays closed for the
rest of the run, so a waiter served after the closing leaves at once.

With the desk open and `y` the next raw draw, the turn is determined: the task
that starts with a unit free takes it, raises its counter and is in the calendar
after its first hold `hold 1 y` at resume point 2; the task resumed behind
`Enter` is in the calendar after the same hold; a `Ride` resumed at point 2 or 3
is in the calendar after `hold 2 y` or `hold 3 y` at the next resume point. No
hold is negative, the hold of `SWInstall` lies in `[10, 20)` and the first and
third hold of `Ride` in `[10, 15)`. -/
theorem C8_shift_gate (v : Service) (s : State) (n : Notice) (rest : List Notice)
    (hr : Reachable s) (hcal : s.calendar = n :: rest) (hk : n.ent.kind = v.kind) :
    (s.g.isOpened = false →
      (n.ent.pc = 0 → (getStore (v.pool s) s).used < (getStore (v.pool s) s).capacity →
        step s = Except.ok (v.addQueueLength 1 (taken s n rest))) ∧
      (n.ent.pc = 1 →
        step s = Leave (v.pool s) (taken s n rest) ∧
        ∀ s', step s = Except.ok s' →
          v.queueLength s' = v.queueLength s ∧
          (getStore (v.pool s) s').used + (getStore (v.pool s) s').queue.length + 1 =
            (getStore (v.pool s) s).used + (getStore (v.pool s) s).queue.length)) ∧
    (s.g.isOpened = true →
      (n.ent.pc = 0 → (getStore (v.pool s) s).used < (getStore (v.pool s) s).capacity →
        ∀ s', step s = Except.ok s' →
          v.queueLength s' = v.queueLength s + 1 ∧
          (getStore (v.pool s) s').used = (getStore (v.pool s) s).used + 1 ∧
          ∃ d, 0 ≤ d ∧
            s'.calendar = insertNotice ⟨n.time + d, ⟨v.kind, 2, v.priority⟩⟩ rest) ∧
      (n.ent.pc = 1 →
        ∀ s', step s = Except.ok s' →
          v.queueLength s' = v.queueLength s ∧
          getStore (v.pool s) s' = getStore (v.pool s) s ∧
          ∃ d, 0 ≤ d ∧
            s'.calendar = insertNotice ⟨n.time + d, ⟨v.kind, 2, v.priority⟩⟩ rest)) ∧
    (1 < n.ent.pc → n.ent.pc < v.last →
      ∀ s', step s = Except.ok s' →
        v.queueLength s' = v.queueLength s ∧
        getStore (v.pool s) s' = getStore (v.pool s) s ∧
        ∃ d, 0 ≤ d ∧
          s'.calendar =
            insertNotice ⟨n.time + d, ⟨v.kind, n.ent.pc + 1, v.priority⟩⟩ rest) ∧
    (n.ent.pc = v.last →
      step s = Leave (v.pool s) (v.addQueueLength (-1) (taken s n rest))) ∧
    (n.ent.pc = 0 → 1 ≤ (getStore (v.pool s) s).capacity →
      (getStore (v.pool s) s).capacity ≤ (getStore (v.pool s) s).used →
      step s = Except.ok
        (enqueue (v.pool s) ⟨v.kind, 1, v.priority⟩ (v.addQueueLength 1 (taken s n rest)))) ∧
    (n.ent.pc = 0 → (getStore (v.pool s) s).capacity < 1 →
      step s = Except.error Err.enterCapError) ∧
    (∀ p, ∀ e ∈ (getStore p s).queue, e.pc = 1) ∧
    (∀ p s1 s', Leave p s1 = Except.ok s' →
      ∃ k, k = servable (getStore p s1).capacity ((getStore p s1).used - 1)
            (getStore p s1).queue ∧
        (getStore p s').queue = (getStore p s1).queue.drop k ∧
        (getStore p s').used + 1 = (getStore p s1).used + k ∧
        s'.calendar = activateAll s1.Time ((getStore p s1).queue.take k) s1.calendar) ∧
    (∀ p s1,
      ∃ k, k = servable ((getStore p s1).capacity + 1) (getStore p s1).used
            (getStore p s1).queue ∧
        (getStore p (SetCapacityInc p s1)).queue = (getStore p s1).queue.drop k ∧
        (getStore p (SetCapacityInc p s1)).used = (getStore p s1).used + k ∧
        (SetCapacityInc p s1).calendar =
          activateAll s1.Time ((getStore p s1).queue.take k) s1.calendar) ∧
    (s.g.isOpened = false →
      ∀ fuel s'', Run fuel s = Except.ok s'' → s''.g.isOpened = false) ∧
    (s.g.isOpened = true → ∀ y rng', s.rng = y :: rng' →
      (n.ent.pc = 0 → (getStore (v.pool s) s).used < (getStore (v.pool s) s).capacity →
        step s = Except.ok
          { grant (v.pool s) (v.addQueueLength 1 (taken s n rest)) with
            rng := rng'
            calendar :=
              insertNotice ⟨n.time + v.hold 1 y, ⟨v.kind, 2, v.priority⟩⟩ rest }) ∧
      (n.ent.pc = 1 →
        step s = Except.ok
          { taken s n rest with
            rng := rng'
            calendar :=
              insertNotice ⟨n.time + v.hold 1 y, ⟨v.kind, 2, v.priority⟩⟩ rest })) ∧
    (1 < n.ent.pc → n.ent.pc < v.last → ∀ y rng', s.rng = y :: rng' →
      step s = Except.ok
        { taken s n rest with
          rng := rng'
          calendar :=
            insertNotice
              ⟨n.time + v.hold n.ent.pc y, ⟨v.kind, n.ent.pc + 1, v.priority⟩⟩ rest }) ∧
    ((∀ pc y, 0 ≤ v.hold pc y) ∧
      (v = Service.swInstall → ∀ pc y, 10 ≤ v.hold pc y ∧ v.hold pc y < 20) ∧
      (v = Service.ride → ∀ pc y, pc ≠ 2 → 10 ≤ v.hold pc y ∧ v.hold pc y < 15)) := by
  rw [step_taken s n rest hcal]
  have hline : ∀ p, (getStore p s).used < (getStore p s).capacity →
      (getStore p s).queue = [] := by
    intro p hf
    obtain ⟨c, hc⟩ := Reachable_inv s hr
    by_contra hne
    have := (hc.1 p).2.1 hne
    omega
  have hwait : ∀ p, ∀ e ∈ (getStore p s).queue, e.pc = 1 := by
    intro p
    obtain ⟨c, hc⟩ := Reachable_inv s hr
    exact (hc.1 p).2.2
  have hclosed : s.g.isOpened = false →
      ∀ fuel s'', Run fuel s = Except.ok s'' → s''.g.isOpened = false :=
    fun hc fuel s'' h => Run_closed fuel s s'' h hc
  have hbounds := Service_hold_bounds v
  obtain ⟨t, ⟨k, pc, pr⟩⟩ := n
  simp only at hk
  subst hk
  have hst : ∀ p, getStore p (taken s ⟨t, ⟨v.kind, pc, pr⟩⟩ rest) = getStore p s := by
    intro p; cases p <;> rfl
  cases v
  · obtain ⟨h1, h2, h3⟩ := Ride_gate (taken s ⟨t, ⟨Kind.Ride, pc, pr⟩⟩ rest)
    refine ⟨fun hcl => ⟨?_, ?_⟩, fun hop => ⟨?_, ?_⟩, ?_, ?_, ?_, ?_, hwait, Leave_serves,
      SetCapacityInc_serves, hclosed, fun hop y rng' hr' => ⟨?_, ?_⟩, ?_, hbounds⟩
    · intro hpc hfree; subst hpc; exact (h1 hcl).1 hfree (hline _ hfree)
    · intro hpc; subst hpc; exact (h1 hcl).2
    · intro hpc; subst hpc; exact (h2 hop).1
    · intro hpc; subst hpc; exact (h2 hop).2
    · intro hlo hhi s' h
      obtain ⟨hg, hs, d, hd, hc⟩ := Ride_hold pc hlo hhi _ s' h
      exact ⟨by simp only [Service.queueLength, hg]; rfl, hs _, d, hd, hc⟩
    · intro hpc; subst hpc; exact h3
    · intro hpc hone hfull; subst hpc
      exact Ride_start_full (taken s ⟨t, ⟨Kind.Ride, 0, pr⟩⟩ rest) hone hfull
    · intro hpc hzero; subst hpc
      exact Ride_start_none (taken s ⟨t, ⟨Kind.Ride, 0, pr⟩⟩ rest) hzero
    · intro hpc hfree; subst hpc
      exact Ride_start_exact (taken s ⟨t, ⟨Kind.Ride, 0, pr⟩⟩ rest) hop hfree y rng' hr'
    · intro hpc; subst hpc
      exact Ride_granted_exact (taken s ⟨t, ⟨Kind.Ride, 1, pr⟩⟩ rest) hop y rng' hr'
    · intro hlo hhi y rng' hr'
      exact Ride_hold_exact pc hlo hhi (taken s ⟨t, ⟨Kind.Ride, pc, pr⟩⟩ rest) y rng' hr'
  · obtain ⟨h1, h2, h3⟩ := Diagnostics_gate (taken s ⟨t, ⟨Kind.Diagnostics, pc, pr⟩⟩ rest)
    refine ⟨fun hcl => ⟨?_, ?_⟩, fun hop => ⟨?_, ?_⟩, ?_, ?_, ?_, ?_, hwait, Leave_serves,
      SetCapacityInc_serves, hclosed, fun hop y rng' hr' => ⟨?_, ?_⟩, ?_, hbounds⟩
    · intro hpc hfree; subst hpc; exact (h1 hcl).1 hfree (hline _ hfree)
    · intro hpc; subst hpc; exact (h1 hcl).2
    · intro hpc; subst hpc; exact (h2 hop).1
    · intro hpc; subst hpc; exact (h2 hop).2
    · intro hlo hhi
      simp only [Service.last] at hlo hhi
      omega
    · intro hpc; subst hpc; exact h3
    · intro hpc hone hfull; subst hpc
      exact Diagnostics_start_full (taken s ⟨t, ⟨Kind.Diagnostics, 0, pr⟩⟩ rest) hone hfull
    · intro hpc hzero; subst hpc
      exact Diagnostics_start_none (taken s ⟨t, ⟨Kind.Diagnostics, 0, pr⟩⟩ rest) hzero
    · intro hpc hfree; subst hpc
      exact Diagnostics_start_exact (taken s ⟨t, ⟨Kind.Diagnostics, 0, pr⟩⟩ rest) hop hfree y rng' hr'
    · intro hpc; subst hpc
      exact Diagnostics_granted_exact (taken s ⟨t, ⟨Kind.Diagnostics, 1, pr⟩⟩ rest) hop y rng' hr'
    · intro hlo hhi
      simp only [Service.last] at hlo hhi
      omega
  · obtain ⟨h1, h2, h3⟩ := SWInstall_gate (taken s ⟨t, ⟨Kind.SWInstall, pc, pr⟩⟩ rest)
    refine ⟨fun hcl => ⟨?_, ?_⟩, fun hop => ⟨?_, ?_⟩, ?_, ?_, ?_, ?_, hwait, Leave_serves,
      SetCapacityInc_serves, hclosed, fun hop y rng' hr' => ⟨?_, ?_⟩, ?_, hbounds⟩
    · intro hpc hfree; subst hpc; exact (h1 hcl).1 hfree (hline _ hfree)
    · intro hpc; subst hpc; exact (h1 hcl).2
    · intro hpc; subst hpc; exact (h2 hop).1
    · intro hpc; subst hpc; exact (h2 hop).2
    · intro hlo hhi
      simp only [Service.last] at hlo hhi
      omega
    · intro hpc; subst hpc; exact h3
    · intro hpc hone hfull; subst hpc
      exact SWInstall_start_full (taken s ⟨t, ⟨Kind.SWInstall, 0, pr⟩⟩ rest) hone hfull
    · intro hpc hzero; subst hpc
      exact SWInstall_start_none (taken s ⟨t, ⟨Kind.SWInstall, 0, pr⟩⟩ rest) hzero
    · intro hpc hfree; subst hpc
      exact SWInstall_start_exact (taken s ⟨t, ⟨Kind.SWInstall, 0, pr⟩⟩ rest) hop hfree y rng' hr'
    · intro hpc; subst hpc
      exact SWInstall_granted_exact (taken s ⟨t, ⟨Kind.SWInstall, 1, pr⟩⟩ rest) hop y rng' hr'
    · intro hlo hhi
      simp only [Service.last] at hlo hhi
      omega

/-- C8, instance: the `Ride` that starts at 123 while the only rider is in
use joins the wait-line of `Riders` with resume point 1 and `rideQueueLength`
raised; served at 583, after the desk has closed, it leaves at once:
`rideQueueLength` stays as it is and the unit is back. -/
theorem C8_shift_gate_witness :
    (Service.ride.queueLength
        (stateAfter 16 2 1 1 3 1 false [-3, 1, 1, -3, -3] [1 / 2, 10, 500, 1 / 2, 10]) =
      Service.ride.queueLength lateGrantState ∧
    (getStore (Service.ride.pool lateGrantState)
        (stateAfter 16 2 1 1 3 1 false [-3, 1, 1, -3, -3]
          [1 / 2, 10, 500, 1 / 2, 10])).used +
      (getStore (Service.ride.pool lateGrantState)
        (stateAfter 16 2 1 1 3 1 false [-3, 1, 1, -3, -3]
          [1 / 2, 10, 500, 1 / 2, 10])).queue.length + 1 =
      (getStore (Service.ride.pool lateGrantState) lateGrantState).used +
        (getStore (Service.ride.pool lateGrantState) lateGrantState).queue.length) ∧
    step fullStoreState =
      Except.ok
        (enqueue (Service.ride.pool fullStoreState) ⟨Kind.Ride, 1, 0⟩
          (Service.ride.addQueueLength 1
            (taken fullStoreState ⟨123, ⟨Kind.Ride, 0, 0⟩⟩
              [⟨180, ⟨Kind.RideRequestGenerator, 0, 0⟩⟩, ⟨240, ⟨Kind.DDRequestTaker, 0, 0⟩⟩,
                ⟨300, ⟨Kind.DiagnosticsRequestGenerator, 0, 0⟩⟩,
                ⟨480, ⟨Kind.WorkShift, 0, 0⟩⟩, ⟨573, ⟨Kind.Ride, 3, 0⟩⟩,
                ⟨600, ⟨Kind.SWInstallRequestGenerator, 0, 0⟩⟩]))) :=
  ⟨((((C8_shift_gate Service.ride lateGrantState ⟨583, ⟨Kind.Ride, 1, 0⟩⟩
      [⟨600, ⟨Kind.SWInstallRequestGenerator, 0, 0⟩⟩]
      (simulate_reachable 15 2 1 1 3 1 false [-3, 1, 1, -3, -3] [1 / 2, 10, 500, 1 / 2, 10]
        lateGrantState (by decide!)) (by decide!) rfl).1
        (by decide!)).2 rfl).2) _ (by with_unfolding_all rfl),
    (C8_shift_gate Service.ride fullStoreState ⟨123, ⟨Kind.Ride, 0, 0⟩⟩
      [⟨180, ⟨Kind.RideRequestGenerator, 0, 0⟩⟩, ⟨240, ⟨Kind.DDRequestTaker, 0, 0⟩⟩,
        ⟨300, ⟨Kind.DiagnosticsRequestGenerator, 0, 0⟩⟩,
        ⟨480, ⟨Kind.WorkShift, 0, 0⟩⟩, ⟨573, ⟨Kind.Ride, 3, 0⟩⟩,
        ⟨600, ⟨Kind.SWInstallRequestGenerator, 0, 0⟩⟩]
      (simulate_reachable 8 2 1 1 3 1 false [-3, 1, 1, -3, -3] [1 / 2, 10, 500, 1 / 2, 10]
        fullStoreState (by decide!)) (by decide!) rfl).2.2.2.2.1 rfl (by decide!)
      (by decide!)⟩

/-! ## The end-to-end scenarios -/

/-- C9, at the failing input. Targets 2, 1, 1, three office workers, one rider,
separate pools. The first `Ride` holds the only rider with a repair of 500
minutes, the escalated second request waits for the rider until 583, its
first hold ends at 703, and the second hold is requested with the duration
`480 + 90 - 703 = -133`: the activation lies in the past and the run stops. -/
theorem C9_second_hold_in_the_past :
    escalationRun 17 = Except.ok lateDeploymentState ∧
    lateDeploymentState.calendar = [⟨703, ⟨Kind.NetworkDeployment, 2, 1⟩⟩] ∧
    NetworkDeployment.secondHold
      (taken lateDeploymentState ⟨703, ⟨Kind.NetworkDeployment, 2, 1⟩⟩ []) = -133 ∧
    step lateDeploymentState = Except.error Err.schedulingBeforeTime ∧
    escalationRun 18 = Except.error Err.schedulingBeforeTime := by
  refine ⟨?_, ?_, ?_, ?_, ?_⟩
  · with_unfolding_all rfl
  · decide!
  · decide!
  · with_unfolding_all rfl
  · with_unfolding_all rfl

/-- C3, counterexample. In scenario 1 with every inter-arrival variate `3/2`
the run completes with 14 ride requests, 7 diagnostics requests and 10 install
requests: the generators stop at the end of the shift (at the intake cut-off
for diagnostics) before the targets are reached. -/
theorem C3_targets_not_reached :
    simulate 400 20 10 15 3 2 false (List.replicate 34 (3 / 2)) (List.replicate 80 (1 / 2)) =
      Except.ok shortfallState ∧
    finished shortfallState = true ∧
    shortfallState.g.rideRequestsCount = 14 ∧
    shortfallState.g.diagnosticsRequestsCount = 7 ∧
    shortfallState.g.swInstallRequestsCount = 10 ∧
    ¬ (shortfallState.g.rideRequestsCount = 20 ∧
        shortfallState.g.diagnosticsRequestsCount = 10 ∧
        shortfallState.g.swInstallRequestsCount = 15) := by
  refine ⟨?_, ?_, ?_, ?_, ?_, ?_⟩
  · decide!
  · decide!
  · decide!
  · decide!
  · decide!
  · decide!

/-- C3, amended. In scenario 1, for every sequence of sampled durations, every
state of the run (the final one included) has at most 20 ride requests, at
most 10 diagnostics requests and at most 15 install requests accepted, and the
reported total is the sum of the three counters. -/
theorem C3_scenario1_bounds (fuel : Nat) (gen rng : List ℚ) (s : State)
    (h : simulate fuel 20 10 15 3 2 false gen rng = Except.ok s) :
    s.g.rideRequestsCount ≤ 20 ∧ s.g.diagnosticsRequestsCount ≤ 10 ∧
      s.g.swInstallRequestsCount ≤ 15 ∧
      total s =
        s.g.rideRequestsCount + s.g.diagnosticsRequestsCount + s.g.swInstallRequestsCount := by
  obtain ⟨-, ⟨-, ⟨c1, c2, c3⟩, -⟩, h1, h2, h3, -⟩ := simulate_inv fuel 20 10 15 3 2 false gen rng s h
  simp only [RideInv, DiagnosticsInv, SWInstallInv, FamilyInv] at h1 h2 h3
  simp only [Ghost.start] at c1 c2 c3
  refine ⟨by omega, by omega, by omega, rfl⟩

/-- C3, amended, instance: the completed run with every inter-arrival variate
`3/2`. -/
theorem C3_scenario1_bounds_witness :
    shortfallState.g.rideRequestsCount ≤ 20 ∧ shortfallState.g.diagnosticsRequestsCount ≤ 10 ∧
      shortfallState.g.swInstallRequestsCount ≤ 15 ∧
      total shortfallState =
        shortfallState.g.rideRequestsCount + shortfallState.g.diagnosticsRequestsCount +
          shortfallState.g.swInstallRequestsCount :=
  C3_scenario1_bounds 400 (List.replicate 34 (3 / 2)) (List.replicate 80 (1 / 2)) shortfallState
    (by decide!)

theorem normalDist_zero (T z : ℚ) (rest : List ℚ) :
    ∃ d, normalDist 0 T (z :: rest) = some (d, rest) ∧ (d = Dbl.pinf ∨ d = Dbl.nan) := by
  have hmean : Dbl.div (Dbl.fin SHIFT_TIME) (Dbl.fin ((0 : Int) : ℚ)) = Dbl.pinf := by
    norm_num [Dbl.div, Dbl.signedInf, SHIFT_TIME]
  have hsd : Dbl.div Dbl.pinf (Dbl.fin 4) = Dbl.pinf := by
    norm_num [Dbl.div]
  simp only [normalDist, hmean, normalDistLoop, hsd, normalSample, Dbl.mul, Dbl.signedInf]
  rcases lt_trichotomy 0 z with hz | hz | hz
  · refine ⟨Dbl.pinf, ?_, Or.inl rfl⟩
    simp only [hz, if_true, Dbl.add, Dbl.le]
    rfl
  · refine ⟨Dbl.nan, ?_, Or.inr rfl⟩
    subst hz
    simp only [lt_self_iff_false, if_false, Dbl.add, Dbl.le]
    rfl
  · refine ⟨Dbl.nan, ?_, Or.inr rfl⟩
    simp only [not_lt.2 hz.le, hz, if_false, if_true, Dbl.add, Dbl.le]
    rfl

theorem activate_zero (e : Entity) (s : State) (z : ℚ) (rest : List ℚ)
    (hgen : s.gen = z :: rest) :
    activateAfterNormalDist 0 e s = Except.ok { s with gen := rest } := by
  obtain ⟨d, hn, hd⟩ := normalDist_zero s.Time z rest
  unfold activateAfterNormalDist
  rw [hgen, hn]
  rcases hd with rfl | rfl <;> rfl

theorem bind_ok_of {α β : Type} (x : Except Err α) (f : α → Except Err β) (a : α) (b : β)
    (h1 : x = Except.ok a) (h2 : f a = Except.ok b) : (x >>= f) = Except.ok b :=
  (bind_ok x f b).2 ⟨a, h1, h2⟩

theorem activate_zero_ok (e : Entity) (s s' : State)
    (h : activateAfterNormalDist 0 e s = Except.ok s') :
    ∃ z rest, s.gen = z :: rest ∧ s' = { s with gen := rest } := by
  cases hgen : s.gen with
  | nil =>
    unfold activateAfterNormalDist at h
    rw [hgen] at h
    cases h
  | cons z rest =>
    rw [activate_zero e s z rest hgen] at h
    cases h
    exact ⟨z, rest, rfl, rfl⟩

theorem setup_zero (OW RW : Nat) (z1 z2 z3 : ℚ) (rest rng : List ℚ) :
    setup 0 0 0 OW RW true (z1 :: z2 :: z3 :: rest) rng =
      Except.ok (zeroTargetsStart OW RW rest rng) := by
  have e1 := activate_zero ⟨Kind.RideRequestGenerator, 0, 0⟩
    (initial 0 0 0 OW RW true (z1 :: z2 :: z3 :: rest) rng) z1 (z2 :: z3 :: rest) rfl
  have e2 := activate_zero ⟨Kind.DiagnosticsRequestGenerator, 0, 0⟩
    { initial 0 0 0 OW RW true (z1 :: z2 :: z3 :: rest) rng with gen := z2 :: z3 :: rest }
    z2 (z3 :: rest) rfl
  have e3 := activate_zero ⟨Kind.SWInstallRequestGenerator, 0, 0⟩
    { initial 0 0 0 OW RW true (z1 :: z2 :: z3 :: rest) rng with gen := z3 :: rest }
    z3 rest rfl
  refine bind_ok_of _ _ _ _ e1 (bind_ok_of _ _ _ _ e2 (bind_ok_of _ _ _ _ e3
    (bind_ok_of _ _ _ _ ((schedule_ok _ _ _ _).2 ⟨by norm_num [SHIFT_TIME, initial], rfl⟩)
      ((schedule_ok _ _ _ _).2 ⟨by norm_num [SHIFT_TIME, initial], ?_⟩))))
  simp only [zeroTargetsStart, initial, insertNotice, Notice.before, SHIFT_TIME]
  norm_num

theorem setup_zero_ok (OW RW : Nat) (gen rng : List ℚ) (s : State)
    (h : setup 0 0 0 OW RW true gen rng = Except.ok s) :
    ∃ z1 z2 z3 rest, gen = z1 :: z2 :: z3 :: rest ∧ s = zeroTargetsStart OW RW rest rng := by
  have h' := h
  unfold setup at h'
  obtain ⟨s1, h1, h'⟩ := (bind_ok _ _ _).1 h'
  obtain ⟨s2, h2, h'⟩ := (bind_ok _ _ _).1 h'
  obtain ⟨s3, h3, -⟩ := (bind_ok _ _ _).1 h'
  obtain ⟨z1, r1, g1, rfl⟩ := activate_zero_ok _ _ _ h1
  obtain ⟨z2, r2, g2, rfl⟩ := activate_zero_ok _ _ _ h2
  obtain ⟨z3, r3, g3, rfl⟩ := activate_zero_ok _ _ _ h3
  have hg : gen = z1 :: z2 :: z3 :: r3 := by
    have : gen = z1 :: r1 := g1
    have : r1 = z2 :: r2 := g2
    have : r2 = z3 :: r3 := g3
    subst_vars
    rfl
  subst hg
  rw [setup_zero] at h
  exact ⟨z1, z2, z3, r3, rfl, (Except.ok.inj h).symm⟩

theorem Run_zero (OW RW : Nat) (rest rng : List ℚ) (fuel : Nat) (s : State)
    (h : Run fuel (zeroTargetsStart OW RW rest rng) = Except.ok s) :
    s.spawned = [] ∧
    (s.g.rideRequestQueueLength = 0 ∧ s.g.diagnosticsRequestQueueLength = 0 ∧
      s.g.swInstallRequestQueueLength = 0 ∧ s.g.rideQueueLength = 0 ∧
      s.g.diagnosticsQueueLength = 0 ∧ s.g.swInstallQueueLength = 0) ∧
    (s.g.rideRequestsCount = 0 ∧ s.g.diagnosticsRequestsCount = 0 ∧
      s.g.swInstallRequestsCount = 0) := by
  rcases fuel with _ | _ | _ | fuel
  all_goals
    norm_num [Run, finished, step, exec, zeroTargetsStart, initial, EndTime, bind, Except.bind,
      pure, Except.pure] at h
    subst h
    simp

theorem Run_zero_finished (OW RW : Nat) (rest rng : List ℚ) :
    Run 2 (zeroTargetsStart OW RW rest rng) = Except.ok (zeroTargetsEnd OW RW rest rng) ∧
      finished (zeroTargetsEnd OW RW rest rng) = true := by
  refine ⟨?_, rfl⟩
  norm_num [Run, finished, step, exec, zeroTargetsStart, zeroTargetsEnd, initial, EndTime, bind,
    Except.bind, pure, Except.pure]

/-- C7, counterexample. Scenario 2 (universal mode, all targets 0) runs to
completion with a total of 0 accepted requests, and the success-rate
expression divides by that total: the divisor is 0 and the quotient `0 / 0`
is NaN. Nothing excludes the zero-request case from the division. -/
theorem C7_zero_total_is_divided :
    simulate 2 0 0 0 3 2 true [1, 1, 1] [] = Except.ok zeroTargetsState ∧
    finished zeroTargetsState = true ∧
    successDivisor zeroTargetsState = Dbl.fin 0 ∧
    successRate zeroTargetsState = Dbl.nan := by
  refine ⟨?_, ?_, ?_, ?_⟩ <;> decide!

/-- C7, amended. In scenario 2, for any capacities and any draws: the run
completes within two turns as soon as three variates are available; and in
every state of the run no task has been created, the six queue-length counters
and the three request counters are 0, and the success-rate expression is the
floating-point division by the total 0, whose value is NaN (no trap, no
exclusion of the zero-request case). -/
theorem C7_scenario2 (OW RW : Nat) (gen rng : List ℚ) :
    (3 ≤ gen.length →
      ∃ s, simulate 2 0 0 0 OW RW true gen rng = Except.ok s ∧ finished s = true) ∧
    ∀ fuel s, simulate fuel 0 0 0 OW RW true gen rng = Except.ok s →
      s.spawned = [] ∧
      (s.g.rideRequestQueueLength = 0 ∧ s.g.diagnosticsRequestQueueLength = 0 ∧
        s.g.swInstallRequestQueueLength = 0 ∧ s.g.rideQueueLength = 0 ∧
        s.g.diagnosticsQueueLength = 0 ∧ s.g.swInstallQueueLength = 0) ∧
      (s.g.rideRequestsCount = 0 ∧ s.g.diagnosticsRequestsCount = 0 ∧
        s.g.swInstallRequestsCount = 0) ∧
      successDivisor s = Dbl.fin 0 ∧ successRate s = Dbl.nan := by
  constructor
  · intro hlen
    match gen, hlen with
    | z1 :: z2 :: z3 :: rest, _ =>
      exact ⟨zeroTargetsEnd OW RW rest rng,
        bind_ok_of _ _ _ _ (setup_zero OW RW z1 z2 z3 rest rng)
          (Run_zero_finished OW RW rest rng).1, rfl⟩
  · intro fuel s h
    obtain ⟨s0, h0, h1⟩ := (bind_ok _ _ _).1 h
    obtain ⟨z1, z2, z3, rest, -, rfl⟩ := setup_zero_ok OW RW gen rng s0 h0
    obtain ⟨hs, hq, hc⟩ := Run_zero OW RW rest rng fuel s h1
    refine ⟨hs, hq, hc, ?_, ?_⟩
    · simp [successDivisor, total, hc.1, hc.2.1, hc.2.2]
    · simp [successRate, successDivisor, total, stillQueued, hc.1, hc.2.1, hc.2.2, hq.2.2.2.1,
        hq.2.2.2.2.1, hq.2.2.2.2.2, Dbl.div, Dbl.mul, Dbl.signedInf]

/-- C7, amended, instance: three office workers, two riders, variates 1, 1, 1. -/
theorem C7_scenario2_witness :
    (∃ s, simulate 2 0 0 0 3 2 true [1, 1, 1] [] = Except.ok s ∧ finished s = true) ∧
      zeroTargetsState.spawned = [] ∧ successRate zeroTargetsState = Dbl.nan :=
  ⟨(C7_scenario2 3 2 [1, 1, 1] []).1 (by decide),
    ((C7_scenario2 3 2 [1, 1, 1] []).2 2 zeroTargetsState (by decide!)).1,
    ((C7_scenario2 3 2 [1, 1, 1] []).2 2 zeroTargetsState (by decide!)).2.2.2.2⟩

end IMS
